import Mathlib

/-!
# libcloudph++ Lagrangian microphysics: timestepping and per-cell aggregation

A shallow embedding of

* `particles_step.ipp`   (`step_sync`, `step_async`),
* `particles_init.ipp`   (`init`),
* `particles_impl_moms.ipp` (`range_filter`, `moms_rng`, `moment_counter`, `moms_calc`),
* `particles_impl_update_th_rv.ipp` (`update_th_rv`, `update_pstate`, `update_state`),
* `arrinfo.hpp` (`arrinfo_t`).

`real_t` is embedded as `ℚ` (exact arithmetic), C++ `int` as `Int`, device
vectors as lists; the closed-form bound of `kappa_koehler.hpp` is given a second
time with every operation rounded to a binary floating-point format.  A C++ exception is embedded as an `outcome` whose `result`
is `Except.error`; the `state` of the outcome is the state the object is left
in when the exception leaves the function.
-/

namespace lgrngn

/-! ## Common types -/

/-- The exceptions (`std::runtime_error`) and failed assertions of the embedded code. -/
inductive error where
  /-- Thrown with "please call init() before calling step_sync()" -/
  | init_not_called
  /-- Thrown with "please call step_async() before calling step_sync() again" -/
  | async_expected
  /-- Thrown with "please call step_sync() before calling step_async() again" -/
  | sync_expected
  /-- Thrown with "all chemistry was switched off in opts_init" -/
  | chem_off
  /-- Thrown with "all coalescence was switched off in opts_init" -/
  | coal_off
  /-- Thrown with "all sedimentation was switched off in opts_init" -/
  | sedi_off
  /-- Thrown with "aerosol source was switched off in opts_init" -/
  | src_off
  /-- Thrown with "update_th_rv called on an unsorted set" -/
  | th_rv_unsorted
  /-- Thrown by update_pstate with "update_uh_rv called on an unsorted set" -/
  | pstate_unsorted
  /-- A failed assert(...) -/
  | assertion_failed
  /-- Dereferencing the end iterator of an empty range -/
  | empty_range
  deriving DecidableEq, Repr

/-- The state an operation leaves behind together with its result or exception. -/
structure outcome (σ α : Type) where
  state : σ
  result : Except error α

/-- Host field view: `dataZero` (with the data behind it) and `strides`, either may be NULL. -/
structure arrinfo_t where
  dataZero : Option (List ℚ)
  strides : Option (List Int)
  deriving DecidableEq

/-- The method arrinfo_t::is_null. -/
def arrinfo_t.is_null (a : arrinfo_t) : Bool :=
  a.dataZero == none || a.strides == none

/-- The dry-size distribution functor handed to init. -/
abbrev unary_function := ℚ → ℚ

/-- Per-step options (the members read by step_sync and step_async). -/
structure opts_t where
  cond : Bool
  adve : Bool
  sedi : Bool
  coal : Bool
  src : Bool
  chem_dsl : Bool
  chem_dsc : Bool
  chem_rct : Bool
  RH_max : ℚ
  chem_gas : List ℚ
  deriving DecidableEq

/-- Initialisation-time options (the members read by the embedded code). -/
structure opts_init_t where
  nx : Int
  ny : Int
  nz : Int
  sd_conc : Int
  n_sd_max : Int
  dt : ℚ
  sstp_cond : Int
  sstp_chem : Int
  sstp_coal : Int
  supstp_src : Int
  chem_switch : Bool
  coal_switch : Bool
  sedi_switch : Bool
  src_switch : Bool
  dev_count : Int
  deriving DecidableEq

/-! ## Timestep orchestrator -/

/-- The Eulerian fields mirrored inside the engine. -/
inductive field where
  | th | rv | courant_x | courant_y | courant_z | rhod
  deriving DecidableEq, Repr

/-- The calls to methods of `impl` whose bodies are outside the embedded files.
Each is recorded, with its arguments, in the order in which it is issued;
the particle arrays and field mirrors are whatever these calls make of them.
The calls are taken to return normally and to leave the flags, the step
counter and the configuration, which the stepping routines handle themselves,
alone. -/
inductive call where
  | init_dry (n_of_lnrd : unary_function)
  | init_xyz
  | init_Tpr
  | init_wet
  /-- The call init_e2l(arr, key, ext_x, ext_y, ext_z, offset). -/
  | init_e2l (arr : arrinfo_t) (key : field) (ext_x ext_y ext_z offset : Int)
  /-- The call sync(host view, mirror): host to engine. -/
  | sync_in (view : arrinfo_t) (mirror : field)
  /-- The call sync(mirror, host view): engine to host. -/
  | sync_out (mirror : field) (view : arrinfo_t)
  | sstp_step (step : Int) (var_rho : Bool)
  | hskpng_Tpr
  | cond (dt : ℚ) (RH_max : ℚ)
  | sstp_save
  | adve
  | hskpng_vterm_all
  | sedi
  | chem (dt : ℚ) (chem_gas : List ℚ) (chem_dsl chem_dsc chem_rct : Bool)
  | coal (dt : ℚ)
  | hskpng_vterm_invalid
  | src (dt : ℚ)
  | bcnd
  | step_finalize

/-- The members of `impl` that the stepping routines read and write directly. -/
structure impl where
  init_called : Bool
  should_now_run_async : Bool
  selected_before_counting : Bool
  stp_ctr : Int
  n_x_bfr : Int
  opts_init : opts_init_t
  /-- The vector l2e[&courant_x] -/
  l2e_courant_x : List Nat
  /-- The vector l2e[&courant_y] -/
  l2e_courant_y : List Nat
  /-- The vector l2e[&courant_z] -/
  l2e_courant_z : List Nat
  /-- The calls issued so far to the methods listed in `call` -/
  log : List call

/-- What the methods outside the embedded files hand back to the stepping routines. -/
structure helpers where
  /-- The index vector init_e2l stores in l2e[key] -/
  init_e2l : arrinfo_t → field → Int → Int → Int → Int → List Nat
  /-- The value returned by bcnd(), given the calls issued before it -/
  bcnd : List call → ℚ

/-- Issue a call to one of the methods listed in `call`. -/
def impl.call (p : impl) (c : call) : impl :=
  { p with log := p.log ++ [c] }

/-- The call pimpl->init_e2l(arr, key, ext_x, ext_y, ext_z, offset): stores the mapping in l2e[key]. -/
def impl.init_e2l (h : helpers) (p : impl) (arr : arrinfo_t) (key : field)
    (ext_x ext_y ext_z : Int) (offset : Int) : impl :=
  let q := p.call (.init_e2l arr key ext_x ext_y ext_z offset)
  match key with
  | .courant_x => { q with l2e_courant_x := h.init_e2l arr key ext_x ext_y ext_z offset }
  | .courant_y => { q with l2e_courant_y := h.init_e2l arr key ext_x ext_y ext_z offset }
  | .courant_z => { q with l2e_courant_z := h.init_e2l arr key ext_x ext_y ext_z offset }
  | _ => q

/-- The routine particles::init of particles_init.ipp. -/
def init (p : impl) (n_of_lnrd : unary_function) : outcome impl Unit :=
  let p := p.call (.init_dry n_of_lnrd)
  let p := p.call .init_xyz
  let p := p.call .init_Tpr
  let p := p.call .init_wet
  ⟨p, .ok ()⟩

/-- Lines 37-39 of particles_step.ipp: the body of the guard on l2e[&courant_x]. -/
def impl.bind_e2l (h : helpers) (p : impl) (courant_x courant_y courant_z : arrinfo_t) : impl :=
  let p := if !courant_x.is_null then p.init_e2l h courant_x .courant_x 1 0 0 0 else p
  let p := if !courant_y.is_null then
      p.init_e2l h courant_y .courant_y 0 1 0 (p.n_x_bfr * p.opts_init.nz) else p
  let p := if !courant_z.is_null then
      p.init_e2l h courant_z .courant_z 0 0 1 (p.n_x_bfr * max 1 p.opts_init.ny) else p
  p

/-- Lines 43-48 of particles_step.ipp: syncing in Eulerian fields. -/
def impl.sync_in_all (p : impl) (th rv courant_x courant_y courant_z rhod : arrinfo_t) : impl :=
  (((((p.call (.sync_in th .th)).call (.sync_in rv .rv)).call
    (.sync_in courant_x .courant_x)).call (.sync_in courant_y .courant_y)).call
    (.sync_in courant_z .courant_z)).call (.sync_in rhod .rhod)

/-- Lines 55-57 of particles_step.ipp: the body of the condensation loop. -/
def impl.cond_substep (opts : opts_t) (rhod : arrinfo_t) (p : impl) (step : Nat) : impl :=
  ((p.call (.sstp_step step (!rhod.is_null))).call .hskpng_Tpr).call
    (.cond (p.opts_init.dt / p.opts_init.sstp_cond) opts.RH_max)

/-- Lines 51-63 of particles_step.ipp: condensation/evaporation and syncing out. -/
def impl.cond_all (p : impl) (opts : opts_t) (th rv rhod : arrinfo_t) : impl :=
  if opts.cond then
    (((List.range p.opts_init.sstp_cond.toNat).foldl (impl.cond_substep opts rhod) p).call
      (.sync_out .th th)).call (.sync_out .rv rv)
  else p

/-- The routine particles_t::step_sync of particles_step.ipp. -/
def step_sync (h : helpers) (p : impl) (opts : opts_t)
    (th rv courant_x courant_y courant_z rhod : arrinfo_t) : outcome impl Unit :=
  if !p.init_called then ⟨p, .error .init_not_called⟩
  else if p.should_now_run_async then ⟨p, .error .async_expected⟩
  else
    let p := if p.l2e_courant_x.length == 0 then p.bind_e2l h courant_x courant_y courant_z else p
    let p := p.sync_in_all th rv courant_x courant_y courant_z rhod
    let p := p.cond_all opts th rv rhod
    ⟨{ p with should_now_run_async := true, selected_before_counting := false }, .ok ()⟩

/-- Lines 83-103 of particles_step.ipp: from saving rv to sedimentation. -/
def impl.transport (p : impl) (opts : opts_t) : impl :=
  -- saving rv to be used as rv_old
  let p := if opts.cond then p.call .sstp_save else p
  -- updating Tpr look-up table (includes RH update)
  let p := p.call .hskpng_Tpr
  -- advection
  let p := if opts.adve then p.call .adve else p
  -- updating terminal velocities
  let p := if opts.sedi || opts.coal then p.call .hskpng_vterm_all else p
  -- advection with terminal velocity
  if opts.sedi then p.call .sedi else p

/-- Lines 106-112 of particles_step.ipp: chemistry sub-steps. -/
def impl.chem_all (p : impl) (opts : opts_t) : impl :=
  if opts.chem_dsl || opts.chem_dsc || opts.chem_rct then
    (List.range p.opts_init.sstp_chem.toNat).foldl
      (fun (q : impl) (_ : Nat) =>
        q.call (.chem (q.opts_init.dt / q.opts_init.sstp_chem) opts.chem_gas
          opts.chem_dsl opts.chem_dsc opts.chem_rct)) p
  else p

/-- Lines 119-124 of particles_step.ipp: the body of the coalescence loop. -/
def impl.coal_substep (p : impl) (step : Nat) : impl :=
  -- collide
  let q := p.call (.coal (p.opts_init.dt / p.opts_init.sstp_coal))
  -- update invalid vterm
  if (step : Int) + 1 != q.opts_init.sstp_coal then q.call .hskpng_vterm_invalid else q

/-- Lines 115-126 of particles_step.ipp: coalescence sub-steps. -/
def impl.coal_all (p : impl) (opts : opts_t) : impl :=
  if opts.coal then (List.range p.opts_init.sstp_coal.toNat).foldl impl.coal_substep p
  else p

/-- Lines 134-142 of particles_step.ipp: the step counter and the aerosol source. -/
def impl.src_count (p : impl) : impl :=
  -- update the step counter since src was turned on
  let p := { p with stp_ctr := p.stp_ctr + 1 }
  -- introduce new particles with the given time interval
  if p.stp_ctr == p.opts_init.supstp_src then
    { p.call (.src (p.opts_init.supstp_src * p.opts_init.dt)) with stp_ctr := 0 }
  else p

/-- Lines 151-161 of particles_step.ipp: boundary condition, finalisation, return. -/
def impl.finish (h : helpers) (p : impl) : outcome impl ℚ :=
  let ret := h.bcnd p.log
  let p := p.call .bcnd
  let p := if p.opts_init.dev_count < 2 then p.call .step_finalize else p
  ⟨{ p with selected_before_counting := false }, .ok ret⟩

/-- The routine particles_t::step_async of particles_step.ipp. -/
def step_async (h : helpers) (p : impl) (opts : opts_t) : outcome impl ℚ :=
  if !p.should_now_run_async then ⟨p, .error .sync_expected⟩
  else
    let p := { p with should_now_run_async := false }
    -- sanity checks
    if (opts.chem_dsl || opts.chem_dsc || opts.chem_rct) && !p.opts_init.chem_switch then
      ⟨p, .error .chem_off⟩
    else if opts.coal && !p.opts_init.coal_switch then ⟨p, .error .coal_off⟩
    else if opts.sedi && !p.opts_init.sedi_switch then ⟨p, .error .sedi_off⟩
    else
      let p := ((p.transport opts).chem_all opts).coal_all opts
      -- aerosol source
      if opts.src then
        -- sanity check
        if p.opts_init.src_switch == false then ⟨p, .error .src_off⟩
        else (p.src_count).finish h
      else
        -- reset the counter if source was turned off
        impl.finish h { p with stp_ctr := 0 }

/-- A call of one of the two stepping routines, with its arguments. -/
inductive step_call where
  | sync (opts : opts_t) (th rv courant_x courant_y courant_z rhod : arrinfo_t)
  | async (opts : opts_t)

/-- Issue one call of a stepping routine; step_async hands back the precipitation. -/
def step (h : helpers) (p : impl) : step_call → outcome impl (Option ℚ)
  | .sync opts th rv courant_x courant_y courant_z rhod =>
    let o := step_sync h p opts th rv courant_x courant_y courant_z rhod
    ⟨o.state, o.result.map (fun _ => none)⟩
  | .async opts =>
    let o := step_async h p opts
    ⟨o.state, o.result.map some⟩

/-- A history of calls issued one after another on the same engine: the final
state and the result of every call, in order. A fatal error is recorded and
the next call is issued on the state the failed call left behind. -/
def run (h : helpers) : impl → List step_call → impl × List (Except error (Option ℚ))
  | p, [] => (p, [])
  | p, c :: cs =>
    let o := step h p c
    let r := run h o.state cs
    (r.1, o.result :: r.2)

/-! ## Particle arrays: moment aggregator and field coupler -/

/-- The members of `impl` used by the moment and field-coupling routines. -/
structure arrays where
  sorted : Bool
  n_part : Nat
  n_cell : Nat
  /-- The grid steps opts.dx, opts.dy, opts.dz -/
  dx : ℚ
  dy : ℚ
  dz : ℚ
  /-- Multiplicities -/
  n : List Nat
  ijk : List Nat
  sorted_id : List Nat
  sorted_ijk : List Nat
  tmp_device_real_part : List ℚ
  tmp_device_real_cell : List ℚ
  count_ijk : List Nat
  count_mom : List ℚ
  count_n : Nat
  rv : List ℚ
  th : List ℚ
  T : List ℚ
  deriving DecidableEq

/-- Writing the sequence `out` through an output iterator that starts at the
beginning of the vector `old`: the entries behind the written ones are kept. -/
def write_front {α : Type} (out old : List α) : List α :=
  out ++ old.drop out.length

/-- The loop of thrust::reduce_by_key once a first key is open: `key` is the key
of the current run and `acc` the sum of its values so far. -/
def reduce_by_key_run (key : Nat) (acc : ℚ) : List (Nat × ℚ) → List (Nat × ℚ)
  | [] => [(key, acc)]
  | (k, v) :: rest =>
    if k = key then reduce_by_key_run key (acc + v) rest
    else (key, acc) :: reduce_by_key_run k v rest

/-- The primitive thrust::reduce_by_key with the default equality and plus: one
(key, sum) pair for every run of consecutive equal keys. -/
def reduce_by_key (keys : List Nat) (values : List ℚ) : List (Nat × ℚ) :=
  match keys.zip values with
  | [] => []
  | (k, v) :: rest => reduce_by_key_run k v rest

/-- The functor detail::range_filter, applied as operator()(y, x). -/
def range_filter (min max scl : ℚ) (y x : ℚ) : ℚ :=
  if x > min ∧ x < max then scl * y else 0

/-- The functor detail::moment_counter; `pw` is the library function pow. -/
def moment_counter (pw : ℚ → ℚ → ℚ) (xp : ℚ) (tpl : ℚ × ℚ) : ℚ :=
  let n_over_dv := tpl.1
  let x := tpl.2
  n_over_dv * pw x xp

/-- Modelled from the spec: hskpng_sort, whose body is outside the embedded
files. "sort() reorders an index permutation (not necessarily the underlying
arrays) so that particles are grouped by ascending flattened cell index,
stable [...]. Postcondition: sorted-order flag set." -/
def hskpng_sort (d : arrays) : arrays :=
  let ids := List.insertionSort (fun a b => d.ijk.getD a 0 ≤ d.ijk.getD b 0) (List.range d.n_part)
  { d with sorted_id := ids, sorted_ijk := ids.map (fun i => d.ijk.getD i 0), sorted := true }

/-- The routine impl::moms_rng of particles_impl_moms.ipp. -/
def moms_rng (d : arrays) (min max : ℚ) (radii : List ℚ) : arrays :=
  let d := hskpng_sort d
  -- transforming n -> n/dv if within range, else 0
  let out := (List.range d.n_part).map (fun k =>
    range_filter min max (1 / (d.dx * d.dy * d.dz))
      (d.n.getD (d.sorted_id.getD k 0) 0 : ℚ) (radii.getD (d.sorted_id.getD k 0) 0))
  { d with tmp_device_real_part := write_front out d.tmp_device_real_part }

/-- The routine impl::moms_calc of particles_impl_moms.ipp; `pw` is the library function pow. -/
def moms_calc (pw : ℚ → ℚ → ℚ) (d : arrays) (radii : List ℚ) (power : ℚ) :
    outcome arrays Unit :=
  let values := (List.range d.sorted_ijk.length).map (fun k =>
    moment_counter pw power
      (d.tmp_device_real_part.getD k 0, radii.getD (d.sorted_id.getD k 0) 0))
  let n := reduce_by_key d.sorted_ijk values
  let d : arrays := { d with
    count_ijk := write_front (n.map Prod.fst) d.count_ijk
    count_mom := write_front (n.map Prod.snd) d.count_mom
    count_n := n.length }
  if d.count_n > 0 ∧ d.count_n ≤ d.n_cell then ⟨d, .ok ()⟩
  else ⟨d, .error .assertion_failed⟩

/-- The functor detail::dth; `d_th_d_rv` is common::theta_dry::d_th_d_rv. -/
def dth (d_th_d_rv : ℚ → ℚ → ℚ) (tpl : ℚ × ℚ × ℚ) : ℚ :=
  let drv := tpl.1
  let T := tpl.2.1
  let th := tpl.2.2
  drv * d_th_d_rv T th

/-- The primitive thrust::min_element, dereferenced: none on an empty range. -/
def min_element : List ℚ → Option ℚ
  | [] => none
  | x :: xs => some (xs.foldl (fun m y => if y < m then y else m) x)

/-- The routine impl::update_th_rv of particles_impl_update_th_rv.ipp. -/
def update_th_rv (d_th_d_rv : ℚ → ℚ → ℚ) (d : arrays) (drv : List ℚ) : outcome arrays Unit :=
  if !d.sorted then ⟨d, .error .th_rv_unsorted⟩
  else
    -- updating rv
    match min_element d.rv with
    | none => ⟨d, .error .empty_range⟩
    | some m =>
      if ¬ m ≥ 0 then ⟨d, .error .assertion_failed⟩
      else
        let d : arrays := { d with
          rv := (List.range d.rv.length).map (fun i => d.rv.getD i 0 + drv.getD i 0) }
        match min_element d.rv with
        | none => ⟨d, .error .empty_range⟩
        | some m =>
          if ¬ m ≥ 0 then ⟨d, .error .assertion_failed⟩
          else
            -- updating th
            let d : arrays := { d with
              th := (List.range d.th.length).map (fun i =>
                d.th.getD i 0 + dth d_th_d_rv (drv.getD i 0, d.T.getD i 0, d.th.getD i 0)) }
            ⟨d, .ok ()⟩

/-- The routine impl::update_pstate of particles_impl_update_th_rv.ipp; the
second component of the state is the vector `pstate` passed by reference. -/
def update_pstate (d : arrays) (pstate pdstate : List ℚ) : outcome (arrays × List ℚ) Unit :=
  if !d.sorted then ⟨(d, pstate), .error .pstate_unsorted⟩
  else
    -- cell-wise change in state, init dstate with 0s
    let dstate := d.tmp_device_real_cell.map (fun _ => (0 : ℚ))
    -- calc sum of pdstate in each cell
    let values := (List.range d.sorted_ijk.length).map (fun k =>
      pdstate.getD (d.sorted_ijk.getD k 0) 0)
    let n := reduce_by_key d.sorted_ijk values
    let count_ijk := write_front (n.map Prod.fst) d.count_ijk
    let count_mom := write_front (n.map Prod.snd) d.count_mom
    let count_n := n.length
    -- add this sum to dstate
    let dstate := (List.range count_n).foldl (fun (ds : List ℚ) (j : Nat) =>
      ds.set (count_ijk.getD j 0) (count_mom.getD j 0 + ds.getD (count_ijk.getD j 0) 0)) dstate
    -- add dstate to pstate
    let pstate := (List.range pstate.length).map (fun p =>
      pstate.getD p 0 + dstate.getD (d.ijk.getD p 0) 0)
    ⟨({ d with tmp_device_real_cell := dstate, count_ijk := count_ijk,
               count_mom := count_mom, count_n := count_n }, pstate), .ok ()⟩

/-- The routine impl::update_state of particles_impl_update_th_rv.ipp; the
second component of the state is the vector `state` passed by reference. -/
def update_state (d : arrays) (state pstate : List ℚ) : outcome (arrays × List ℚ) Unit :=
  let state := (List.range pstate.length).foldl (fun (st : List ℚ) (p : Nat) =>
    st.set (d.ijk.getD p 0) (pstate.getD p 0)) state
  ⟨(d, state), .ok ()⟩

/-! ## Particle store: init_hskpng_npart -/

/-- A device vector together with the capacity reserved for it. -/
structure device_vector (α : Type) where
  data : List α
  capacity : Nat

/-- The method reserve(n): the capacity becomes at least n, the content stays. -/
def device_vector.reserve {α : Type} (v : device_vector α) (n : Nat) : device_vector α :=
  { v with capacity := max v.capacity n }

/-- The primitive thrust::fill over the whole vector. -/
def device_vector.fill {α : Type} (v : device_vector α) (a : α) : device_vector α :=
  { v with data := v.data.map (fun _ => a) }

/-- The method resize(n): the vector is cut or padded (with `a`) to n entries. -/
def device_vector.resize {α : Type} (v : device_vector α) (n : Nat) (a : α) : device_vector α :=
  { data := v.data.take n ++ List.replicate (n - v.data.length) a
    capacity := max v.capacity n }

/-- The conversion of an integer expression to the size_t argument of reserve and resize. -/
def to_size_t (x : Int) : Nat :=
  (x % 2 ^ 64).toNat

/-- The members of `impl` that init_hskpng_npart reads and writes. -/
structure particle_store where
  n_dims : Int
  opts_init : opts_init_t
  i : device_vector Nat
  j : device_vector Nat
  k : device_vector Nat
  ijk : device_vector Nat
  x : device_vector ℚ
  y : device_vector ℚ
  z : device_vector ℚ
  vt : device_vector ℚ
  sorted_id : device_vector Nat
  sorted_ijk : device_vector Nat
  tmp_device_real_part : device_vector ℚ
  tmp_device_n_part : device_vector Nat
  rd3 : device_vector ℚ
  rw2 : device_vector ℚ
  n : device_vector Nat
  kpa : device_vector ℚ
  in_n_bfr : device_vector Nat
  out_n_bfr : device_vector Nat
  in_real_bfr : device_vector ℚ
  out_real_bfr : device_vector ℚ

/-- The routine impl::init_hskpng_npart of particles_impl_init_hskpng_npart.ipp. -/
def init_hskpng_npart (s : particle_store) : particle_store :=
  let oi := s.opts_init
  -- memory allocation
  let s := if oi.nx != 0 then { s with i := s.i.reserve (to_size_t oi.n_sd_max) } else s
  let s := if oi.ny != 0 then { s with j := s.j.reserve (to_size_t oi.n_sd_max) } else s
  let s := if oi.nz != 0 then { s with k := s.k.reserve (to_size_t oi.n_sd_max) } else s
  let s := { s with ijk := s.ijk.reserve (to_size_t oi.n_sd_max) }
  let s := if s.n_dims == 0 then { s with ijk := s.ijk.fill 0 } else s
  let s := if oi.nx != 0 then { s with x := s.x.reserve (to_size_t oi.n_sd_max) } else s
  let s := if oi.ny != 0 then { s with y := s.y.reserve (to_size_t oi.n_sd_max) } else s
  let s := if oi.nz != 0 then { s with z := s.z.reserve (to_size_t oi.n_sd_max) } else s
  let s := { s with vt := (s.vt.reserve (to_size_t oi.n_sd_max)).fill 0 }
  let s := { s with
    sorted_id := s.sorted_id.reserve (to_size_t oi.n_sd_max)
    sorted_ijk := s.sorted_ijk.reserve (to_size_t oi.n_sd_max)
    tmp_device_real_part := s.tmp_device_real_part.reserve (to_size_t oi.n_sd_max)
    tmp_device_n_part := s.tmp_device_n_part.reserve (to_size_t oi.n_sd_max)
    rd3 := s.rd3.reserve (to_size_t oi.n_sd_max)
    rw2 := s.rw2.reserve (to_size_t oi.n_sd_max)
    n := s.n.reserve (to_size_t oi.n_sd_max)
    kpa := s.kpa.reserve (to_size_t oi.n_sd_max) }
  -- reserve memory for in/out buffers
  { s with
    in_n_bfr := s.in_n_bfr.resize (to_size_t (oi.ny * oi.nz * oi.sd_conc)) 0
    out_n_bfr := s.out_n_bfr.resize (to_size_t (oi.ny * oi.nz * oi.sd_conc)) 0
    in_real_bfr := s.in_real_bfr.resize (to_size_t (6 * oi.ny * oi.nz * oi.sd_conc)) 0
    out_real_bfr := s.out_real_bfr.resize (to_size_t (6 * oi.ny * oi.nz * oi.sd_conc)) 0 }

/-! ## Equilibrium solver: kappa_koehler.hpp -/

/-- The numerical routines kappa_koehler.hpp takes from outside the embedded files. -/
structure numerics where
  /-- The library function pow -/
  pow : ℚ → ℚ → ℚ
  /-- The Kelvin term kelvin::klvntrm(rw, T) of kelvin_term.hpp -/
  klvntrm : ℚ → ℚ → ℚ
  /-- The value of sizeof(real_t) -/
  sizeof_real_t : Nat
  /-- The routine boost::math::tools::toms748_solve(f, min, max, eps_tolerance(bits), iters):
  the bracket it returns, and the iteration count it writes back into iters -/
  toms748_solve : (ℚ → ℚ) → ℚ → ℚ → Nat → Nat → (ℚ × ℚ) × Nat

/-- The function rw3_eq_nokelvin of kappa_koehler.hpp, real_t read as the rationals (exact
arithmetic). -/
def rw3_eq_nokelvin (rd3 kappa vap_ratio : ℚ) : ℚ :=
  rd3 * (1 - vap_ratio * (1 - kappa)) / (1 - vap_ratio)

/-- The function a_w of kappa_koehler.hpp: activity of water in solution. -/
def a_w (rw3 rd3 kappa : ℚ) : ℚ :=
  (rw3 - rd3) / (rw3 - rd3 * (1 - kappa))

/-- The local functor f of rw3_eq, applied as operator()(rw3). -/
def rw3_eq_f (nm : numerics) (vap_ratio rd3 kappa T : ℚ) (rw3 : ℚ) : ℚ :=
  vap_ratio - a_w rw3 rd3 kappa * nm.klvntrm (nm.pow rw3 (1 / 3)) T

/-- The function rw3_eq of kappa_koehler.hpp. -/
def rw3_eq (nm : numerics) (rd3 kappa vap_ratio T : ℚ) : ℚ :=
  let iters := 20
  let range := nm.toms748_solve (rw3_eq_f nm vap_ratio rd3 kappa T)
    rd3 (rw3_eq_nokelvin rd3 kappa vap_ratio) (nm.sizeof_real_t * 8 / 2) iters
  (range.1.1 + range.1.2) / 2

/-! ### The closed-form bound at a floating-point real_t -/

/-- Round to the nearest integer, ties to the even one. -/
def round_half_even (y : ℚ) : ℤ :=
  if y - ⌊y⌋ < 1 / 2 then ⌊y⌋
  else if 1 / 2 < y - ⌊y⌋ then ⌊y⌋ + 1
  else if ⌊y⌋ % 2 = 0 then ⌊y⌋ else ⌊y⌋ + 1

/-- A binary floating-point format: the number of significand bits and the exponent of
the smallest normal number. -/
structure float_format where
  prec : Nat
  emin : Int

/-- The format of double: 53 significand bits, smallest normal number 2 ^ (-1022). -/
def binary64 : float_format := ⟨53, -1022⟩

/-- The exponent of the unit in the last place at the exact value q: for
2 ^ e ≤ |q| < 2 ^ (e + 1) it is e - (prec - 1), and it is not less than that of the
smallest normal number (below it the numbers are subnormal). -/
def float_format.ulp_exp (F : float_format) (q : ℚ) : Int :=
  max (Int.log 2 |q|) F.emin - (F.prec - 1)

/-- The result of one floating-point operation whose exact result is q: q rounded to
the nearest number of the format, ties to even (the default rounding of the machine).
Overflow to infinity, infinities and NaN are outside this model. -/
def float_format.round (F : float_format) (q : ℚ) : ℚ :=
  round_half_even (q / 2 ^ F.ulp_exp q) * 2 ^ F.ulp_exp q

/-- The function rw3_eq_nokelvin of kappa_koehler.hpp with real_t a floating-point type:
the same expression, rd3 * (1 - vap_ratio * (1 - kappa)) / (1 - vap_ratio), each of its
six operations rounded. -/
def rw3_eq_nokelvin_fp (F : float_format) (rd3 kappa vap_ratio : ℚ) : ℚ :=
  F.round (F.round (rd3 * F.round (1 - F.round (vap_ratio * F.round (1 - kappa)))) /
    F.round (1 - vap_ratio))

/-- The members of the engine state that no call to a method outside the
embedded files touches: the flags, the step counter and the configuration. -/
def impl.ctl (p : impl) : Bool × Bool × Bool × Int × Int × opts_init_t :=
  (p.init_called, p.should_now_run_async, p.selected_before_counting, p.stp_ctr, p.n_x_bfr,
    p.opts_init)

/-- A sample configuration: every process switched off at initialisation. -/
def sample_opts_init : opts_init_t where
  nx := 2
  ny := 0
  nz := 2
  sd_conc := 8
  n_sd_max := 64
  dt := 1
  sstp_cond := 2
  sstp_chem := 1
  sstp_coal := 2
  supstp_src := 3
  chem_switch := false
  coal_switch := false
  sedi_switch := false
  src_switch := false
  dev_count := 1

/-- A sample engine as the constructor leaves it: init not called, nothing run. -/
def sample_fresh : impl where
  init_called := false
  should_now_run_async := false
  selected_before_counting := false
  stp_ctr := 0
  n_x_bfr := 0
  opts_init := sample_opts_init
  l2e_courant_x := []
  l2e_courant_y := []
  l2e_courant_z := []
  log := []

/-- A sample engine that is initialised and waits for step_sync. -/
def sample_ready : impl :=
  { sample_fresh with init_called := true }

/-- A sample engine that is initialised and waits for step_async. -/
def sample_pending : impl :=
  { sample_fresh with init_called := true, should_now_run_async := true }

/-- Sample answers of the methods outside the embedded files. -/
def sample_helpers : helpers where
  init_e2l := fun _ _ _ _ _ _ => [0, 1, 2, 3]
  bcnd := fun _ => 0

/-- A sample non-null field view. -/
def sample_view : arrinfo_t := ⟨some [1, 2, 3, 4], some [2, 1]⟩

/-- The NULL-NULL field view. -/
def null_view : arrinfo_t := ⟨none, none⟩

/-- Sample per-step options: nothing requested. -/
def sample_opts : opts_t where
  cond := false
  adve := false
  sedi := false
  coal := false
  src := false
  chem_dsl := false
  chem_dsc := false
  chem_rct := false
  RH_max := 1
  chem_gas := []

/-- A sample dry-size distribution. -/
def sample_distribution : unary_function := fun x => x

/-- The values moms_calc feeds to reduce_by_key, one per sorted position. -/
def moms_calc_values (pw : ℚ → ℚ → ℚ) (d : arrays) (radii : List ℚ) (power : ℚ) : List ℚ :=
  (List.range d.sorted_ijk.length).map (fun k =>
    moment_counter pw power
      (d.tmp_device_real_part.getD k 0, radii.getD (d.sorted_id.getD k 0) 0))

/-- The moment of cell `c` as the contract of the Moment Aggregator words it: the sum
of (n_i / cell_volume) · r_i^power over the particles i of cell c whose radius lies in
the half-open range [min, max). -/
def moment_spec (pw : ℚ → ℚ → ℚ) (d : arrays) (min max : ℚ) (radii : List ℚ) (power : ℚ)
    (c : Nat) : ℚ :=
  (((List.range d.n_part).filter (fun i =>
      d.ijk.getD i 0 = c ∧ min ≤ radii.getD i 0 ∧ radii.getD i 0 < max)).map (fun i =>
      ((d.n.getD i 0 : ℚ) / (d.dx * d.dy * d.dz)) * pw (radii.getD i 0) power)).sum

/-- The value of pstate at particle `p` as the contract of update_pstate words it:
the old value plus the sum of the particle-indexed deltas over the particles that
share the cell of p. -/
def pstate_spec (d : arrays) (pstate pdstate : List ℚ) (p : Nat) : ℚ :=
  pstate.getD p 0 +
    (((List.range d.n_part).filter (fun q => d.ijk.getD q 0 = d.ijk.getD p 0)).map
      (fun q => pdstate.getD q 0)).sum

/-- A sample particle set, not sorted: three particles, two cells, unit cell volume. -/
def sample_arrays : arrays where
  sorted := false
  n_part := 3
  n_cell := 2
  dx := 1
  dy := 1
  dz := 1
  n := [1, 2, 4]
  ijk := [1, 0, 1]
  sorted_id := [0, 0, 0]
  sorted_ijk := [0, 0, 0]
  tmp_device_real_part := [0, 0, 0]
  tmp_device_real_cell := [0, 0]
  count_ijk := [0, 0]
  count_mom := [0, 0]
  count_n := 0
  rv := [1, 1]
  th := [300, 300]
  T := [280, 280]

/-- The sample particle set after sorting by cell. -/
def sample_sorted : arrays :=
  { sample_arrays with sorted := true, sorted_id := [1, 0, 2], sorted_ijk := [0, 1, 1] }

/-- Sample radii for the three particles of the sample set. -/
def sample_radii : List ℚ := [1, 2, 2]

/-- A sample pow, exact on the natural exponents. -/
def sample_pow : ℚ → ℚ → ℚ := fun x xp => x ^ xp.num.toNat

/-- The sum, over the (key, value) pairs with key `c`, of the values. -/
def key_sum (kvs : List (Nat × ℚ)) (c : Nat) : ℚ :=
  ((kvs.filter (fun kv => kv.1 = c)).map Prod.snd).sum

/-- The term particle `i` contributes in moms_rng followed by moms_calc. -/
def moms_term (pw : ℚ → ℚ → ℚ) (d : arrays) (min max : ℚ) (radii : List ℚ) (power : ℚ)
    (i : Nat) : ℚ :=
  moment_counter pw power
    (range_filter min max (1 / (d.dx * d.dy * d.dz)) (d.n.getD i 0 : ℚ) (radii.getD i 0),
      radii.getD i 0)

/-- The sum moms_rng followed by moms_calc accumulate for cell `c`: as moment_spec, but
over the open range (min, max). -/
def moment_open (pw : ℚ → ℚ → ℚ) (d : arrays) (min max : ℚ) (radii : List ℚ) (power : ℚ)
    (c : Nat) : ℚ :=
  (((List.range d.n_part).filter (fun i =>
      d.ijk.getD i 0 = c ∧ min < radii.getD i 0 ∧ radii.getD i 0 < max)).map (fun i =>
      ((d.n.getD i 0 : ℚ) / (d.dx * d.dy * d.dz)) * pw (radii.getD i 0) power)).sum

/-- Sample numerics: the root finder does one bisection step towards the lower end. -/
def sample_numerics : numerics where
  pow := fun x _ => x
  klvntrm := fun _ _ => 1
  sizeof_real_t := 8
  toms748_solve := fun _ a b _ it => ((a, (a + b) / 2), it - 1)

/-- The double nearest to 1e-22, 0x1.e392010175ee6p-74. -/
def sample_rd3_double : ℚ := 8507059173023462 / 2 ^ 126

/-- A sample store before allocation: every vector empty, a 2-D grid (ny = 0). -/
def sample_store : particle_store where
  n_dims := 2
  opts_init := sample_opts_init
  i := ⟨[], 0⟩
  j := ⟨[], 0⟩
  k := ⟨[], 0⟩
  ijk := ⟨[], 0⟩
  x := ⟨[], 0⟩
  y := ⟨[], 0⟩
  z := ⟨[], 0⟩
  vt := ⟨[], 0⟩
  sorted_id := ⟨[], 0⟩
  sorted_ijk := ⟨[], 0⟩
  tmp_device_real_part := ⟨[], 0⟩
  tmp_device_n_part := ⟨[], 0⟩
  rd3 := ⟨[], 0⟩
  rw2 := ⟨[], 0⟩
  n := ⟨[], 0⟩
  kpa := ⟨[], 0⟩
  in_n_bfr := ⟨[], 0⟩
  out_n_bfr := ⟨[], 0⟩
  in_real_bfr := ⟨[], 0⟩
  out_real_bfr := ⟨[], 0⟩

/-- The scatter of thrust::copy through a permutation iterator: for p = 0 .. n-1 in
turn, entry idx p of the target is overwritten with val p. -/
def scatter (idx : Nat → Nat) (val : Nat → ℚ) (n : Nat) (target : List ℚ) : List ℚ :=
  (List.range n).foldl (fun (st : List ℚ) (p : Nat) => st.set (idx p) (val p)) target

/-- The vector rv after the first transform of update_th_rv. -/
def rv_updated (d : arrays) (drv : List ℚ) : List ℚ :=
  (List.range d.rv.length).map (fun i => d.rv.getD i 0 + drv.getD i 0)

/-- The vector th after the second transform of update_th_rv. -/
def th_updated (d_th_d_rv : ℚ → ℚ → ℚ) (d : arrays) (drv : List ℚ) : List ℚ :=
  (List.range d.th.length).map (fun i =>
    d.th.getD i 0 + dth d_th_d_rv (drv.getD i 0, d.T.getD i 0, d.th.getD i 0))

/-- The calls lines 83-103 of particles_step.ipp issue, by the gates of the options. -/
def transport_calls (opts : opts_t) : List call :=
  (if opts.cond then [call.sstp_save] else []) ++ [call.hskpng_Tpr] ++
    (if opts.adve then [call.adve] else []) ++
    (if opts.sedi || opts.coal then [call.hskpng_vterm_all] else []) ++
    (if opts.sedi then [call.sedi] else [])

/-- The chemistry calls: sstp_chem sub-steps when any chemistry flag is set. -/
def chem_calls (oi : opts_init_t) (opts : opts_t) : List call :=
  if opts.chem_dsl || opts.chem_dsc || opts.chem_rct then
    List.replicate oi.sstp_chem.toNat
      (call.chem (oi.dt / oi.sstp_chem) opts.chem_gas opts.chem_dsl opts.chem_dsc opts.chem_rct)
  else []

/-- The calls of coalescence sub-step number `step` (counted from 0). -/
def coal_step_calls (oi : opts_init_t) (step : Nat) : List call :=
  call.coal (oi.dt / oi.sstp_coal) ::
    (if (step : Int) + 1 != oi.sstp_coal then [call.hskpng_vterm_invalid] else [])

/-- The coalescence calls: sstp_coal sub-steps when opts.coal is set. -/
def coal_calls (oi : opts_init_t) (opts : opts_t) : List call :=
  if opts.coal then (List.range oi.sstp_coal.toNat).flatMap (coal_step_calls oi) else []

/-- The source call: issued when opts.src is set and the incremented counter reaches supstp_src. -/
def src_calls (oi : opts_init_t) (stp_ctr : Int) (opts : opts_t) : List call :=
  if opts.src = true ∧ stp_ctr + 1 = oi.supstp_src then [call.src (oi.supstp_src * oi.dt)]
  else []

/-- The closing calls: boundary handling, and finalisation unless there are two or more devices. -/
def finish_calls (oi : opts_init_t) : List call :=
  call.bcnd :: (if oi.dev_count < 2 then [call.step_finalize] else [])

/-- All calls of one successful step_async, in order. -/
def async_calls (oi : opts_init_t) (stp_ctr : Int) (opts : opts_t) : List call :=
  transport_calls opts ++ chem_calls oi opts ++ coal_calls oi opts ++
    src_calls oi stp_ctr opts ++ finish_calls oi

/-- The step counter after one successful step_async. -/
def next_stp_ctr (oi : opts_init_t) (stp_ctr : Int) (opts : opts_t) : Int :=
  if opts.src then (if stp_ctr + 1 = oi.supstp_src then 0 else stp_ctr + 1) else 0

/-- Calls of the collision process. -/
def is_coal : call → Bool
  | .coal _ => true
  | _ => false

/-- Calls that invalidate the terminal velocities. -/
def is_vterm_invalid : call → Bool
  | .hskpng_vterm_invalid => true
  | _ => false

/-- Calls of the coalescence phase: collisions and invalidations. -/
def is_coal_phase (c : call) : Bool :=
  is_coal c || is_vterm_invalid c

/-- The coalescence sub-steps as the orchestrator contract words them: N collisions with
time step `dt`, terminal velocities invalidated after each of them except the last. -/
def coal_pattern (N : Nat) (dt : ℚ) : List call :=
  (List.replicate (N - 1) [call.coal dt, call.hskpng_vterm_invalid]).flatten ++ [call.coal dt]

/-- A sample engine waiting for step_async, coalescence switched on, two sub-steps. -/
def sample_coal_pending : impl :=
  { sample_pending with opts_init := { sample_opts_init with coal_switch := true } }

/-- One time step of the host model: a step_sync followed by a step_async. -/
structure host_step where
  sync_opts : opts_t
  th : arrinfo_t
  rv : arrinfo_t
  courant_x : arrinfo_t
  courant_y : arrinfo_t
  courant_z : arrinfo_t
  rhod : arrinfo_t
  async_opts : opts_t

/-- Issue the two calls of one host time step; the outcome is that of step_async. -/
def host_step.apply (h : helpers) (p : impl) (c : host_step) : outcome impl ℚ :=
  step_async h
    (step_sync h p c.sync_opts c.th c.rv c.courant_x c.courant_y c.courant_z c.rhod).state
    c.async_opts

/-- The engine after a sequence of host time steps. -/
def run_host_steps (h : helpers) (p : impl) (cs : List host_step) : impl :=
  cs.foldl (fun q c => (c.apply h q).state) p

/-- The number of consecutive step_async calls with opts.src set at the end of a sequence:
the position of the last call within its maximal run of calls with opts.src set. -/
def src_run_length (cs : List host_step) : Nat :=
  ((cs.map (fun c => c.async_opts.src)).reverse.takeWhile id).length

/-- The time spans of the source calls among a list of calls. -/
def src_dts (l : List call) : List ℚ :=
  l.filterMap (fun c => match c with
    | .src dt => some dt
    | _ => none)

/-- Options that request no process switched off at initialisation. -/
def opts_t.legal (opts : opts_t) (oi : opts_init_t) : Prop :=
  ((opts.chem_dsl || opts.chem_dsc || opts.chem_rct) = true → oi.chem_switch = true) ∧
  (opts.coal = true → oi.coal_switch = true) ∧
  (opts.sedi = true → oi.sedi_switch = true) ∧
  (opts.src = true → oi.src_switch = true)

/-- A sample engine waiting for step_sync, sources switched on, interval 3. -/
def sample_src_ready : impl :=
  { sample_ready with opts_init := { sample_opts_init with src_switch := true } }

/-- A sample host time step that requests the source. -/
def sample_src_step : host_step where
  sync_opts := sample_opts
  th := sample_view
  rv := sample_view
  courant_x := null_view
  courant_y := null_view
  courant_z := null_view
  rhod := null_view
  async_opts := { sample_opts with src := true }

/-- Calls that refresh the ambient snapshot (temperature, pressure, relative humidity). -/
def is_hskpng_Tpr : call → Bool
  | .hskpng_Tpr => true
  | _ => false

/-- Calls of the boundary handling. -/
def is_bcnd : call → Bool
  | .bcnd => true
  | _ => false

/-- The calls of one step_async that precede the boundary handling. -/
def process_calls (oi : opts_init_t) (stp_ctr : Int) (opts : opts_t) : List call :=
  transport_calls opts ++ chem_calls oi opts ++ coal_calls oi opts ++ src_calls oi stp_ctr opts

/-- The mapping calls of step_sync (lines 30-40 of particles_step.ipp): issued while
l2e[&courant_x] is empty, one for each non-null Courant view. -/
def e2l_calls (p : impl) (courant_x courant_y courant_z : arrinfo_t) : List call :=
  if p.l2e_courant_x.length == 0 then
    (if !courant_x.is_null then [call.init_e2l courant_x .courant_x 1 0 0 0] else []) ++
    (if !courant_y.is_null then
      [call.init_e2l courant_y .courant_y 0 1 0 (p.n_x_bfr * p.opts_init.nz)] else []) ++
    (if !courant_z.is_null then
      [call.init_e2l courant_z .courant_z 0 0 1 (p.n_x_bfr * max 1 p.opts_init.ny)] else [])
  else []

/-- The six copies from the host views into the internal mirrors. -/
def sync_in_calls (th rv courant_x courant_y courant_z rhod : arrinfo_t) : List call :=
  [call.sync_in th .th, call.sync_in rv .rv, call.sync_in courant_x .courant_x,
    call.sync_in courant_y .courant_y, call.sync_in courant_z .courant_z,
    call.sync_in rhod .rhod]

/-- The calls of condensation sub-step number `step` (counted from 0). -/
def cond_step_calls (oi : opts_init_t) (opts : opts_t) (rhod : arrinfo_t) (step : Nat) :
    List call :=
  [call.sstp_step step (!rhod.is_null), call.hskpng_Tpr,
    call.cond (oi.dt / oi.sstp_cond) opts.RH_max]

/-- The condensation calls of step_sync: sstp_cond sub-steps and the two copies back
to the host when opts.cond is set. -/
def cond_calls (oi : opts_init_t) (opts : opts_t) (th rv rhod : arrinfo_t) : List call :=
  if opts.cond then
    (List.range oi.sstp_cond.toNat).flatMap (cond_step_calls oi opts rhod) ++
      [call.sync_out .th th, call.sync_out .rv rv]
  else []

/-- Calls that build the index mapping of a Courant field. -/
def is_init_e2l : call → Bool
  | .init_e2l _ _ _ _ _ _ => true
  | _ => false

/-- Calls that build the index mapping of the field `key`. -/
def is_init_e2l_of (key : field) : call → Bool
  | .init_e2l _ k _ _ _ _ => k == key
  | _ => false

/-- A sample step_sync of a host model without velocity along x: courant_x is null,
courant_y is supplied. -/
def sample_sync_courant_y : step_call :=
  .sync sample_opts sample_view sample_view null_view sample_view null_view null_view

/-- The four errors thrown when an option requests a process switched off in opts_init. -/
def error.is_config : error → Bool
  | .chem_off => true
  | .coal_off => true
  | .sedi_off => true
  | .src_off => true
  | _ => false

/-- Whether a call of a history is a step_sync (true) or a step_async (false). -/
def step_call.is_sync : step_call → Bool
  | .sync _ _ _ _ _ _ _ => true
  | .async _ => false

/-- A call that returned normally. -/
def succeeded : Except error (Option ℚ) → Bool
  | .ok _ => true
  | .error _ => false

/-- A call that got past the sequencing checks of its routine: it returned normally
or threw a configuration error. -/
def admitted : Except error (Option ℚ) → Bool
  | .ok _ => true
  | .error e => e.is_config

/-- The kinds (true for step_sync, false for step_async) of those calls of a history
whose result satisfies `keep`, in the order of the calls. -/
def kept_kinds (keep : Except error (Option ℚ) → Bool) :
    List step_call → List (Except error (Option ℚ)) → List Bool
  | c :: cs, r :: rs =>
    if keep r then c.is_sync :: kept_kinds keep cs rs else kept_kinds keep cs rs
  | _, _ => []

/-- Strict alternation of a list of kinds, the first of which has to be `b`. -/
def alternating : Bool → List Bool → Bool
  | _, [] => true
  | b, x :: xs => (x == b) && alternating (!b) xs

/-- Every step_async (false) of the list comes right after a step_sync (true); `prev`
tells whether the list is preceded by a step_sync. -/
def async_after_sync : Bool → List Bool → Bool
  | _, [] => true
  | prev, x :: xs => (x || prev) && async_after_sync x xs

/-- Calls of the physics processes of step_async: vapor save, ambient refresh, advection,
terminal-velocity update, sedimentation, chemistry, coalescence. -/
def is_physics : call → Bool
  | .sstp_save => true
  | .hskpng_Tpr => true
  | .adve => true
  | .hskpng_vterm_all => true
  | .sedi => true
  | .chem _ _ _ _ _ => true
  | .coal _ => true
  | _ => false

/-- A sample step_sync without Courant views. -/
def sample_sync : step_call :=
  .sync sample_opts sample_view sample_view null_view null_view null_view null_view

/-! ## Sequencing of init, step_sync and step_async -/

theorem ctl_call (p : impl) (c : call) : (p.call c).ctl = p.ctl := rfl

theorem ctl_init_e2l (h : helpers) (p : impl) (a : arrinfo_t) (k : field) (x y z o : Int) :
    (p.init_e2l h a k x y z o).ctl = p.ctl := by
  cases k <;> rfl

theorem ctl_foldl {β : Type} (f : impl → β → impl) (hf : ∀ q b, (f q b).ctl = q.ctl)
    (l : List β) (p : impl) : (l.foldl f p).ctl = p.ctl := by
  induction l generalizing p with
  | nil => rfl
  | cons b l ih => rw [List.foldl_cons, ih, hf]

theorem ctl_bind_e2l (h : helpers) (p : impl) (cx cy cz : arrinfo_t) :
    (p.bind_e2l h cx cy cz).ctl = p.ctl := by
  unfold impl.bind_e2l
  simp only []
  split_ifs <;> simp only [ctl_init_e2l]

theorem ctl_sync_in_all (p : impl) (th rv cx cy cz rhod : arrinfo_t) :
    (p.sync_in_all th rv cx cy cz rhod).ctl = p.ctl := by
  unfold impl.sync_in_all
  simp only [ctl_call]

theorem ctl_cond_all (p : impl) (opts : opts_t) (th rv rhod : arrinfo_t) :
    (p.cond_all opts th rv rhod).ctl = p.ctl := by
  unfold impl.cond_all
  split_ifs
  · rw [ctl_call, ctl_call]
    exact ctl_foldl _ (fun q b => by unfold impl.cond_substep; simp only [ctl_call]) _ _
  · rfl

theorem ctl_transport (p : impl) (opts : opts_t) : (p.transport opts).ctl = p.ctl := by
  unfold impl.transport
  simp only []
  split_ifs <;> simp only [ctl_call]

theorem ctl_chem_all (p : impl) (opts : opts_t) : (p.chem_all opts).ctl = p.ctl := by
  unfold impl.chem_all
  split_ifs
  · exact ctl_foldl _ (fun q b => ctl_call _ _) _ _
  · rfl

theorem ctl_coal_substep (p : impl) (step : Nat) : (p.coal_substep step).ctl = p.ctl := by
  unfold impl.coal_substep
  simp only []
  split_ifs <;> simp only [ctl_call]

theorem ctl_coal_all (p : impl) (opts : opts_t) : (p.coal_all opts).ctl = p.ctl := by
  unfold impl.coal_all
  split_ifs
  · exact ctl_foldl _ ctl_coal_substep _ _
  · rfl

theorem ctl_processes (p : impl) (opts : opts_t) :
    (((p.transport opts).chem_all opts).coal_all opts).ctl = p.ctl := by
  rw [ctl_coal_all, ctl_chem_all, ctl_transport]

theorem opts_init_of_ctl {p q : impl} (hc : q.ctl = p.ctl) : q.opts_init = p.opts_init :=
  congrArg (fun c => c.2.2.2.2.2) hc

theorem init_called_of_ctl {p q : impl} (hc : q.ctl = p.ctl) : q.init_called = p.init_called :=
  congrArg (fun c => c.1) hc

theorem stp_ctr_of_ctl {p q : impl} (hc : q.ctl = p.ctl) : q.stp_ctr = p.stp_ctr :=
  congrArg (fun c => c.2.2.2.1) hc

/-- Whenever the flag should_now_run_async is set, step_sync throws and leaves the state as it was. -/
theorem step_sync_error_of_flag (h : helpers) (p : impl) (opts : opts_t)
    (th rv courant_x courant_y courant_z rhod : arrinfo_t)
    (hp : p.should_now_run_async = true) :
    ∃ e, step_sync h p opts th rv courant_x courant_y courant_z rhod = ⟨p, .error e⟩ := by
  unfold step_sync
  by_cases hi : p.init_called = true
  · exact ⟨.async_expected, by simp [hi, hp]⟩
  · exact ⟨.init_not_called, by simp [hi]⟩

/-- Whenever the flag should_now_run_async is unset, step_async throws at its first statement. -/
theorem step_async_error_of_flag (h : helpers) (p : impl) (opts : opts_t)
    (hp : p.should_now_run_async = false) :
    step_async h p opts = ⟨p, .error .sync_expected⟩ := by
  unfold step_async
  simp [hp]

/-- The path of step_sync behind its two guards. -/
theorem step_sync_of_ready (h : helpers) (p : impl) (opts : opts_t)
    (th rv courant_x courant_y courant_z rhod : arrinfo_t)
    (hi : p.init_called = true) (hp : p.should_now_run_async = false) :
    step_sync h p opts th rv courant_x courant_y courant_z rhod =
      ⟨{ (((if p.l2e_courant_x.length == 0 then p.bind_e2l h courant_x courant_y courant_z
            else p).sync_in_all th rv courant_x courant_y courant_z rhod).cond_all opts th rv rhod)
          with should_now_run_async := true, selected_before_counting := false }, .ok ()⟩ := by
  unfold step_sync
  simp [hi, hp]

/-- The routine step_sync returns normally exactly when init_called is set and no step_async is due. -/
theorem step_sync_ok_iff (h : helpers) (p : impl) (opts : opts_t)
    (th rv courant_x courant_y courant_z rhod : arrinfo_t) :
    (step_sync h p opts th rv courant_x courant_y courant_z rhod).result = .ok () ↔
      (p.init_called = true ∧ p.should_now_run_async = false) := by
  constructor
  · intro hok
    unfold step_sync at hok
    by_cases hi : p.init_called = true
    · by_cases hp : p.should_now_run_async = true
      · simp [hi, hp] at hok
      · exact ⟨hi, by simpa using hp⟩
    · simp [hi] at hok
  · rintro ⟨hi, hp⟩
    rw [step_sync_of_ready h p opts th rv courant_x courant_y courant_z rhod hi hp]

/-- A successful step_sync leaves init_called set and sets should_now_run_async. -/
theorem step_sync_ok_flags (h : helpers) (p : impl) (opts : opts_t)
    (th rv courant_x courant_y courant_z rhod : arrinfo_t)
    (hok : (step_sync h p opts th rv courant_x courant_y courant_z rhod).result = .ok ()) :
    (step_sync h p opts th rv courant_x courant_y courant_z rhod).state.init_called = true ∧
    (step_sync h p opts th rv courant_x courant_y courant_z rhod).state.should_now_run_async
      = true := by
  obtain ⟨hi, hp⟩ := (step_sync_ok_iff h p opts th rv courant_x courant_y courant_z rhod).1 hok
  rw [step_sync_of_ready h p opts th rv courant_x courant_y courant_z rhod hi hp]
  refine ⟨?_, rfl⟩
  show (((if p.l2e_courant_x.length == 0 then p.bind_e2l h courant_x courant_y courant_z
            else p).sync_in_all th rv courant_x courant_y courant_z rhod).cond_all opts th rv
            rhod).init_called = true
  rw [init_called_of_ctl (ctl_cond_all _ _ _ _ _),
    init_called_of_ctl (ctl_sync_in_all _ _ _ _ _ _ _)]
  split_ifs
  · rw [init_called_of_ctl (ctl_bind_e2l _ _ _ _ _)]; exact hi
  · exact hi

theorem flag_of_ctl {p q : impl} (hc : q.ctl = p.ctl) :
    q.should_now_run_async = p.should_now_run_async :=
  congrArg (fun c => c.2.1) hc

theorem finish_flag (h : helpers) (p : impl) :
    (p.finish h).state.should_now_run_async = p.should_now_run_async := by
  unfold impl.finish
  simp only []
  split_ifs <;> rfl

theorem src_count_flag (p : impl) :
    p.src_count.should_now_run_async = p.should_now_run_async := by
  unfold impl.src_count
  simp only []
  split_ifs <;> rfl

/-- Whatever its outcome, step_async leaves should_now_run_async unset. -/
theorem step_async_clears_flag (h : helpers) (p : impl) (opts : opts_t) :
    (step_async h p opts).state.should_now_run_async = false := by
  by_cases hp : p.should_now_run_async = true
  · have hq : (((({ p with should_now_run_async := false } : impl).transport opts).chem_all
        opts).coal_all opts).should_now_run_async = false := by
      rw [flag_of_ctl (ctl_processes _ _)]
    unfold step_async
    simp only [hp, Bool.not_true, Bool.false_eq_true, if_false]
    split_ifs
    · rfl
    · rfl
    · rfl
    · exact hq
    · rw [finish_flag, src_count_flag]; exact hq
    · rw [finish_flag]; exact hq
  · have hp' : p.should_now_run_async = false := by simpa using hp
    rw [step_async_error_of_flag h p opts hp']
    exact hp'

/-- The routine init leaves both flags as they were. -/
theorem init_flags (p : impl) (n_of_lnrd : unary_function) :
    (init p n_of_lnrd).state.should_now_run_async = p.should_now_run_async ∧
    (init p n_of_lnrd).state.init_called = p.init_called :=
  ⟨rfl, rfl⟩

/-- C1: on the state reached by a successful step_sync the flag should_now_run_async is
set, and a second step_sync issued on that state (before any step_async), with any
options and field views, throws the sequencing error and leaves the whole engine state
(flags, counter, index mappings, calls issued) as it was. -/
theorem step_sync_twice_fails (h : helpers) (p : impl) (opts : opts_t)
    (th rv courant_x courant_y courant_z rhod : arrinfo_t)
    (hok : (step_sync h p opts th rv courant_x courant_y courant_z rhod).result = .ok ())
    (opts2 : opts_t) (th2 rv2 courant_x2 courant_y2 courant_z2 rhod2 : arrinfo_t) :
    (step_sync h p opts th rv courant_x courant_y courant_z rhod).state.should_now_run_async
      = true ∧
    step_sync h (step_sync h p opts th rv courant_x courant_y courant_z rhod).state
        opts2 th2 rv2 courant_x2 courant_y2 courant_z2 rhod2 =
      ⟨(step_sync h p opts th rv courant_x courant_y courant_z rhod).state,
        .error .async_expected⟩ := by
  obtain ⟨hi, hp⟩ := step_sync_ok_flags h p opts th rv courant_x courant_y courant_z rhod hok
  refine ⟨hp, ?_⟩
  generalize (step_sync h p opts th rv courant_x courant_y courant_z rhod).state = q at hi hp
  unfold step_sync
  simp [hi, hp]

/-- Witness of C1: a ready sample engine, stepped with condensation requested. -/
theorem step_sync_twice_fails_witness :
    (step_sync sample_helpers sample_ready { sample_opts with cond := true }
        sample_view sample_view sample_view null_view sample_view null_view).result = .ok () ∧
    step_sync sample_helpers
        (step_sync sample_helpers sample_ready { sample_opts with cond := true }
          sample_view sample_view sample_view null_view sample_view null_view).state
        sample_opts sample_view sample_view null_view null_view null_view null_view =
      ⟨(step_sync sample_helpers sample_ready { sample_opts with cond := true }
          sample_view sample_view sample_view null_view sample_view null_view).state,
        .error .async_expected⟩ :=
  ⟨(step_sync_ok_iff _ _ _ _ _ _ _ _ _).2 ⟨rfl, rfl⟩,
   (step_sync_twice_fails sample_helpers sample_ready { sample_opts with cond := true }
      sample_view sample_view sample_view null_view sample_view null_view
      ((step_sync_ok_iff _ _ _ _ _ _ _ _ _).2 ⟨rfl, rfl⟩)
      sample_opts sample_view sample_view null_view null_view null_view null_view).2⟩

/-- C2: in every state in which should_now_run_async is false, and for every options
value, step_async throws the sequencing error, issues no call (the calls issued so far
are unchanged) and leaves the whole engine state as it was. -/
theorem step_async_needs_sync (h : helpers) (p : impl) (opts : opts_t)
    (hp : p.should_now_run_async = false) :
    step_async h p opts = ⟨p, .error .sync_expected⟩ :=
  step_async_error_of_flag h p opts hp

/-- Witness of C2: the ready sample engine, on which no step_sync was issued yet. -/
theorem step_async_needs_sync_witness :
    sample_ready.should_now_run_async = false ∧
    step_async sample_helpers sample_ready sample_opts = ⟨sample_ready, .error .sync_expected⟩ :=
  ⟨rfl, step_async_needs_sync sample_helpers sample_ready sample_opts rfl⟩

/-- Calls of the stepping routines on an engine with both flags unset all fail and change nothing. -/
theorem step_before_init (h : helpers) (p : impl)
    (hi : p.init_called = false) (hp : p.should_now_run_async = false) (c : step_call) :
    ∃ e, step h p c = ⟨p, .error e⟩ := by
  cases c with
  | sync opts th rv cx cy cz rhod =>
    refine ⟨.init_not_called, ?_⟩
    unfold step step_sync
    simp [hi]
    rfl
  | async opts =>
    refine ⟨.sync_expected, ?_⟩
    simp only [step, step_async_error_of_flag h p opts hp]
    rfl

/-- C3: on an engine on which init has not been called (init_called unset, and
should_now_run_async still unset as no step_sync can have succeeded), every step_sync
throws, every step_async throws, whatever the arguments, the state stays as it was (no
field is synchronised, no process is run), and this holds along every history of calls. -/
theorem steps_fail_before_init (h : helpers) (p : impl)
    (hi : p.init_called = false) (hp : p.should_now_run_async = false) :
    (∀ opts th rv courant_x courant_y courant_z rhod,
      step_sync h p opts th rv courant_x courant_y courant_z rhod
        = ⟨p, .error .init_not_called⟩) ∧
    (∀ opts, step_async h p opts = ⟨p, .error .sync_expected⟩) ∧
    (∀ cs : List step_call, (run h p cs).1 = p ∧ (run h p cs).2.length = cs.length ∧
      ∀ r ∈ (run h p cs).2, ∃ e, r = .error e) := by
  refine ⟨?_, ?_, ?_⟩
  · intro opts th rv cx cy cz rhod
    unfold step_sync
    simp [hi]
  · intro opts
    exact step_async_error_of_flag h p opts hp
  · intro cs
    induction cs with
    | nil => simp [run]
    | cons c cs ih =>
      obtain ⟨e, he⟩ := step_before_init h p hi hp c
      simp only [run, he, List.length_cons, List.mem_cons]
      refine ⟨ih.1, by rw [ih.2.1], ?_⟩
      rintro r (rfl | hr)
      · exact ⟨e, rfl⟩
      · exact ih.2.2 r hr

/-- Witness of C3: the sample engine as constructed. -/
theorem steps_fail_before_init_witness :
    sample_fresh.init_called = false ∧ sample_fresh.should_now_run_async = false ∧
    (run sample_helpers sample_fresh
      [.sync sample_opts sample_view sample_view null_view null_view null_view null_view,
       .async sample_opts]).1 = sample_fresh :=
  ⟨rfl, rfl,
   ((steps_fail_before_init sample_helpers sample_fresh rfl rfl).2.2
      [.sync sample_opts sample_view sample_view null_view null_view null_view null_view,
       .async sample_opts]).1⟩

/-- Counterexample to C4 as stated: a second init on the sample engine is not rejected,
it returns normally after running the four initialisation stages a second time. -/
theorem init_twice_not_rejected :
    (init (init sample_fresh sample_distribution).state sample_distribution).result = .ok () ∧
    (init (init sample_fresh sample_distribution).state sample_distribution).state.log =
      [.init_dry sample_distribution, .init_xyz, .init_Tpr, .init_wet,
       .init_dry sample_distribution, .init_xyz, .init_Tpr, .init_wet] :=
  ⟨rfl, rfl⟩

/-- C4 (amended): init has no guard against repeated calls: on every engine state,
initialised before or not, and with any dry-size distribution, init runs init_dry,
init_xyz, init_Tpr and init_wet in this order, returns normally and changes nothing else. -/
theorem init_runs_stages (p : impl) (n_of_lnrd : unary_function) :
    init p n_of_lnrd =
      ⟨{ p with log := p.log ++ [.init_dry n_of_lnrd, .init_xyz, .init_Tpr, .init_wet] },
        .ok ()⟩ := by
  simp [init, impl.call]

/-- C5: whenever step_async is otherwise legal (should_now_run_async set) and the options
request chemistry, coalescence, sedimentation or sourcing while the matching switch of
opts_init is off, step_async throws one of the four configuration errors instead of
returning a precipitation value. -/
theorem step_async_config_mismatch (h : helpers) (p : impl) (opts : opts_t)
    (hp : p.should_now_run_async = true)
    (hm : ((opts.chem_dsl = true ∨ opts.chem_dsc = true ∨ opts.chem_rct = true) ∧
            p.opts_init.chem_switch = false) ∨
          (opts.coal = true ∧ p.opts_init.coal_switch = false) ∨
          (opts.sedi = true ∧ p.opts_init.sedi_switch = false) ∨
          (opts.src = true ∧ p.opts_init.src_switch = false)) :
    ∃ e, (e = .chem_off ∨ e = .coal_off ∨ e = .sedi_off ∨ e = .src_off) ∧
      (step_async h p opts).result = .error e := by
  have hs : (((({ p with should_now_run_async := false } : impl).transport opts).chem_all
      opts).coal_all opts).opts_init = p.opts_init := by
    rw [opts_init_of_ctl (ctl_processes _ _)]
  unfold step_async
  simp only [hp, Bool.not_true, Bool.false_eq_true, if_false]
  split_ifs with h1 h2 h3 h4 h5
  · exact ⟨.chem_off, Or.inl rfl, rfl⟩
  · exact ⟨.coal_off, Or.inr (Or.inl rfl), rfl⟩
  · exact ⟨.sedi_off, Or.inr (Or.inr (Or.inl rfl)), rfl⟩
  · exact ⟨.src_off, Or.inr (Or.inr (Or.inr rfl)), rfl⟩
  · exfalso
    rw [hs] at h5
    simp only [Bool.and_eq_true, Bool.or_eq_true, Bool.not_eq_true', not_and,
      Bool.not_eq_false, beq_iff_eq] at h1 h2 h3 h5
    rcases hm with ⟨hc, hw⟩ | ⟨hc, hw⟩ | ⟨hc, hw⟩ | ⟨hc, hw⟩
    · have := h1 (by tauto); simp_all
    · have := h2 hc; simp_all
    · have := h3 hc; simp_all
    · rw [hw] at h5; exact absurd h5 (by decide)
  · exfalso
    simp only [Bool.and_eq_true, Bool.or_eq_true, Bool.not_eq_true', not_and,
      Bool.not_eq_false] at h1 h2 h3
    rcases hm with ⟨hc, hw⟩ | ⟨hc, hw⟩ | ⟨hc, hw⟩ | ⟨hc, hw⟩
    · have := h1 (by tauto); simp_all
    · have := h2 hc; simp_all
    · have := h3 hc; simp_all
    · exact h4 hc

/-- Witness of C5: sourcing requested on the pending sample engine, whose src_switch is off. -/
theorem step_async_config_mismatch_witness :
    sample_pending.should_now_run_async = true ∧
    ∃ e, (e = .chem_off ∨ e = .coal_off ∨ e = .sedi_off ∨ e = .src_off) ∧
      (step_async sample_helpers sample_pending
        { sample_opts with src := true, adve := true }).result = .error e :=
  ⟨rfl, step_async_config_mismatch sample_helpers sample_pending
    { sample_opts with src := true, adve := true } rfl
    (Or.inr (Or.inr (Or.inr ⟨rfl, rfl⟩)))⟩

/-! ## Moment aggregator -/

theorem reduce_by_key_run_mem (kvs : List (Nat × ℚ)) (key : Nat) (acc : ℚ) (c : Nat) :
    c ∈ (reduce_by_key_run key acc kvs).map Prod.fst ↔ c = key ∨ c ∈ kvs.map Prod.fst := by
  induction kvs generalizing key acc with
  | nil => simp [reduce_by_key_run]
  | cons kv rest ih =>
    obtain ⟨k, v⟩ := kv
    unfold reduce_by_key_run
    split_ifs with hk
    · rw [ih]; subst hk; simp
    · simp only [List.map_cons, List.mem_cons, ih]

theorem reduce_by_key_run_sorted (kvs : List (Nat × ℚ)) (key : Nat) (acc : ℚ)
    (hs : (key :: kvs.map Prod.fst).Sorted (· ≤ ·)) :
    ((reduce_by_key_run key acc kvs).map Prod.fst).Sorted (· < ·) := by
  induction kvs generalizing key acc with
  | nil => simp [reduce_by_key_run]
  | cons kv rest ih =>
    obtain ⟨k, v⟩ := kv
    simp only [List.map_cons] at hs
    have hs' := List.sorted_cons.1 hs
    have hs'' := List.sorted_cons.1 hs'.2
    unfold reduce_by_key_run
    split_ifs with hk
    · subst hk
      exact ih _ _ hs'.2
    · simp only [List.map_cons]
      refine List.sorted_cons.2 ⟨?_, ih _ _ hs'.2⟩
      intro b hb
      have hkk : key < k := lt_of_le_of_ne (hs'.1 k (List.mem_cons_self _ _)) (Ne.symm hk)
      rcases (reduce_by_key_run_mem rest k v b).1 hb with rfl | hb
      · exact hkk
      · exact lt_of_lt_of_le hkk (hs''.1 b hb)

/-- The keys reduce_by_key writes are the keys it reads. -/
theorem reduce_by_key_keys_mem (keys : List Nat) (values : List ℚ)
    (hl : values.length = keys.length) (c : Nat) :
    c ∈ (reduce_by_key keys values).map Prod.fst ↔ c ∈ keys := by
  unfold reduce_by_key
  cases keys with
  | nil => simp
  | cons k ks =>
    cases values with
    | nil => simp at hl
    | cons v vs =>
      simp only [List.zip_cons_cons, reduce_by_key_run_mem, List.mem_cons]
      rw [List.map_fst_zip]
      simp only [List.length_cons, add_left_inj] at hl
      omega

/-- On keys in ascending order reduce_by_key writes strictly ascending keys. -/
theorem reduce_by_key_keys_sorted (keys : List Nat) (values : List ℚ)
    (hl : values.length = keys.length) (hs : keys.Sorted (· ≤ ·)) :
    ((reduce_by_key keys values).map Prod.fst).Sorted (· < ·) := by
  unfold reduce_by_key
  cases keys with
  | nil => simp
  | cons k ks =>
    cases values with
    | nil => simp at hl
    | cons v vs =>
      simp only [List.zip_cons_cons]
      apply reduce_by_key_run_sorted
      rw [List.map_fst_zip]
      · exact hs
      · simp only [List.length_cons, add_left_inj] at hl
        omega

theorem write_front_take {α : Type} (out old : List α) :
    (write_front out old).take out.length = out := by
  unfold write_front
  simp

/-- The state moms_calc leaves, whether or not its assertion holds. -/
theorem moms_calc_state (pw : ℚ → ℚ → ℚ) (d : arrays) (radii : List ℚ) (power : ℚ) :
    (moms_calc pw d radii power).state =
      { d with
        count_ijk := write_front
          ((reduce_by_key d.sorted_ijk (moms_calc_values pw d radii power)).map Prod.fst)
          d.count_ijk
        count_mom := write_front
          ((reduce_by_key d.sorted_ijk (moms_calc_values pw d radii power)).map Prod.snd)
          d.count_mom
        count_n := (reduce_by_key d.sorted_ijk (moms_calc_values pw d radii power)).length } := by
  unfold moms_calc moms_calc_values
  simp only []
  split_ifs <;> rfl

/-- The assertion of moms_calc passes when the number of pairs is within (0, n_cell]. -/
theorem moms_calc_result (pw : ℚ → ℚ → ℚ) (d : arrays) (radii : List ℚ) (power : ℚ)
    (h0 : 0 < (reduce_by_key d.sorted_ijk (moms_calc_values pw d radii power)).length)
    (h1 : (reduce_by_key d.sorted_ijk (moms_calc_values pw d radii power)).length ≤ d.n_cell) :
    (moms_calc pw d radii power).result = .ok () := by
  unfold moms_calc_values at h0 h1
  unfold moms_calc
  simp only [gt_iff_lt, h0, h1, and_self, if_true]

theorem moms_calc_values_length (pw : ℚ → ℚ → ℚ) (d : arrays) (radii : List ℚ) (power : ℚ) :
    (moms_calc_values pw d radii power).length = d.sorted_ijk.length := by
  simp [moms_calc_values]

theorem key_sum_cons (kv : Nat × ℚ) (kvs : List (Nat × ℚ)) (c : Nat) :
    key_sum (kv :: kvs) c = (if kv.1 = c then kv.2 else 0) + key_sum kvs c := by
  unfold key_sum
  by_cases h : kv.1 = c
  · simp [List.filter_cons, h]
  · simp [List.filter_cons, h]

theorem key_sum_eq_zero (kvs : List (Nat × ℚ)) (c : Nat) (h : ∀ k ∈ kvs.map Prod.fst, k ≠ c) :
    key_sum kvs c = 0 := by
  unfold key_sum
  have : kvs.filter (fun kv => kv.1 = c) = [] := by
    rw [List.filter_eq_nil_iff]
    intro kv hkv
    have := h kv.1 (List.mem_map_of_mem _ hkv)
    simpa using this
  rw [this]
  rfl

theorem reduce_by_key_run_sum (kvs : List (Nat × ℚ)) (key : Nat) (acc : ℚ)
    (hs : (key :: kvs.map Prod.fst).Sorted (· ≤ ·)) (c : Nat) (s : ℚ)
    (hmem : (c, s) ∈ reduce_by_key_run key acc kvs) :
    s = (if c = key then acc else 0) + key_sum kvs c := by
  induction kvs generalizing key acc with
  | nil =>
    simp only [reduce_by_key_run, List.mem_singleton, Prod.mk.injEq] at hmem
    obtain ⟨rfl, rfl⟩ := hmem
    simp [key_sum]
  | cons kv rest ih =>
    obtain ⟨k, v⟩ := kv
    simp only [List.map_cons] at hs
    have hs' := List.sorted_cons.1 hs
    have hs'' := List.sorted_cons.1 hs'.2
    unfold reduce_by_key_run at hmem
    rw [key_sum_cons]
    split_ifs at hmem with hk
    · subst hk
      have := ih _ _ hs'.2 hmem
      rw [this]
      by_cases hc : c = k
      · subst hc; simp; ring
      · have hc' : ¬ k = c := fun h => hc h.symm
        simp [hc, hc']
    · have hkk : key < k := lt_of_le_of_ne (hs'.1 k (List.mem_cons_self _ _)) (Ne.symm hk)
      rcases List.mem_cons.1 hmem with heq | hmem'
      · simp only [Prod.mk.injEq] at heq
        obtain ⟨rfl, rfl⟩ := heq
        have hz : key_sum rest c = 0 := by
          apply key_sum_eq_zero
          intro k' hk'
          have := hs''.1 k' hk'
          omega
        simp [hk, hz]
      · have hck : c = k ∨ c ∈ rest.map Prod.fst :=
          (reduce_by_key_run_mem rest k v c).1 (List.mem_map_of_mem Prod.fst hmem')
        have hne : c ≠ key := by
          rcases hck with rfl | hc
          · omega
          · have := hs''.1 c hc
            omega
        rw [ih _ _ hs'.2 hmem']
        by_cases hc : c = k
        · subst hc; simp [hne]
        · have hc' : ¬ k = c := fun h => hc h.symm
          simp [hc, hc', hne]

/-- On ascending keys every pair written by reduce_by_key carries the sum of all the values of its key. -/
theorem reduce_by_key_sum (keys : List Nat) (values : List ℚ)
    (hl : values.length = keys.length) (hs : keys.Sorted (· ≤ ·)) (c : Nat) (s : ℚ)
    (hmem : (c, s) ∈ reduce_by_key keys values) :
    s = key_sum (keys.zip values) c := by
  unfold reduce_by_key at hmem
  cases keys with
  | nil => simp at hmem
  | cons k ks =>
    cases values with
    | nil => simp at hl
    | cons v vs =>
      simp only [List.zip_cons_cons] at hmem ⊢
      have hl' : vs.length = ks.length := by simpa using hl
      have := reduce_by_key_run_sum (ks.zip vs) k v
        (by rw [List.map_fst_zip _ _ (by omega)]; exact hs) c s hmem
      rw [this, key_sum_cons]
      by_cases hc : c = k
      · subst hc; simp
      · have hc' : ¬ k = c := fun h => hc h.symm
        simp [hc, hc']

theorem hskpng_sort_perm (d : arrays) :
    (hskpng_sort d).sorted_id.Perm (List.range d.n_part) := by
  unfold hskpng_sort
  exact List.perm_insertionSort _ _

theorem hskpng_sort_ijk (d : arrays) :
    (hskpng_sort d).sorted_ijk = (hskpng_sort d).sorted_id.map (fun i => d.ijk.getD i 0) := by
  rfl

theorem hskpng_sort_sorted (d : arrays) : (hskpng_sort d).sorted_ijk.Sorted (· ≤ ·) := by
  rw [hskpng_sort_ijk]
  unfold hskpng_sort
  simp only []
  haveI : IsTotal Nat (fun a b => d.ijk.getD a 0 ≤ d.ijk.getD b 0) :=
    ⟨fun a b => le_total _ _⟩
  haveI : IsTrans Nat (fun a b => d.ijk.getD a 0 ≤ d.ijk.getD b 0) :=
    ⟨fun a b c hab hbc => le_trans hab hbc⟩
  have h := List.sorted_insertionSort (fun a b => d.ijk.getD a 0 ≤ d.ijk.getD b 0)
    (List.range d.n_part)
  exact List.pairwise_map.2 h

theorem map_getD_range {α : Type} (g : Nat → α) (l : List Nat) :
    (List.range l.length).map (fun k => g (l.getD k 0)) = l.map g := by
  apply List.ext_getElem
  · simp
  · intro i h1 h2
    simp only [List.getElem_map, List.getElem_range]
    congr 1
    simp only [List.length_map, List.length_range] at h1
    simp [List.getElem?_eq_getElem h1]

theorem write_front_getD {α : Type} (out old : List α) (k : Nat) (a : α) (hk : k < out.length) :
    (write_front out old).getD k a = out.getD k a := by
  unfold write_front
  simp [List.getD_eq_getElem?_getD, List.getElem?_append_left hk]

theorem moms_values (pw : ℚ → ℚ → ℚ) (d : arrays) (min max : ℚ) (radii : List ℚ) (power : ℚ) :
    moms_calc_values pw (moms_rng d min max radii) radii power =
      (hskpng_sort d).sorted_id.map (moms_term pw d min max radii power) := by
  have hlen : (hskpng_sort d).sorted_id.length = d.n_part := by
    rw [(hskpng_sort_perm d).length_eq, List.length_range]
  rw [← map_getD_range (moms_term pw d min max radii power) (hskpng_sort d).sorted_id]
  unfold moms_calc_values
  have h1 : (moms_rng d min max radii).sorted_ijk.length = (hskpng_sort d).sorted_id.length := by
    show (hskpng_sort d).sorted_ijk.length = _
    rw [hskpng_sort_ijk, List.length_map]
  rw [h1]
  apply List.map_congr_left
  intro k hk
  rw [List.mem_range, hlen] at hk
  unfold moms_term
  congr 2
  show (write_front _ _).getD k 0 = _
  rw [write_front_getD _ _ _ _ (by simpa using hk)]
  show List.getD (List.map _ (List.range d.n_part)) k 0 = _
  rw [List.getD_eq_getElem _ _ (by simpa using hk)]
  simp only [List.getElem_map, List.getElem_range]
  rfl

theorem key_sum_map (ids : List Nat) (key : Nat → Nat) (f : Nat → ℚ) (c : Nat) :
    key_sum ((ids.map key).zip (ids.map f)) c = ((ids.filter (fun i => key i = c)).map f).sum := by
  induction ids with
  | nil => simp [key_sum]
  | cons i ids ih =>
    simp only [List.map_cons, List.zip_cons_cons, key_sum_cons, ih]
    by_cases h : key i = c
    · simp [List.filter_cons, h]
    · simp [List.filter_cons, h]

theorem sum_filter_ite (l : List Nat) (P Q : Nat → Prop) [DecidablePred P] [DecidablePred Q]
    (g : Nat → ℚ) :
    ((l.filter (fun i => P i)).map (fun i => if Q i then g i else 0)).sum =
      ((l.filter (fun i => P i ∧ Q i)).map g).sum := by
  induction l with
  | nil => simp
  | cons i l ih =>
    by_cases hp : P i
    · by_cases hq : Q i
      · simp [List.filter_cons, hp, hq, ih]
      · simp [List.filter_cons, hp, hq, ih]
    · simp [List.filter_cons, hp, ih]

theorem moms_term_eq (pw : ℚ → ℚ → ℚ) (d : arrays) (min max : ℚ) (radii : List ℚ) (power : ℚ)
    (i : Nat) :
    moms_term pw d min max radii power i =
      if min < radii.getD i 0 ∧ radii.getD i 0 < max then
        ((d.n.getD i 0 : ℚ) / (d.dx * d.dy * d.dz)) * pw (radii.getD i 0) power
      else 0 := by
  unfold moms_term moment_counter range_filter
  simp only [gt_iff_lt]
  split_ifs
  · ring
  · ring

/-- Every pair reduced by moms_calc after moms_rng carries, for its cell, the sum of
(n_i / dv) · pow(r_i, power) over the particles i of the cell with min < r_i < max. -/
theorem moms_cell_sum (pw : ℚ → ℚ → ℚ) (d : arrays) (min max : ℚ) (radii : List ℚ) (power : ℚ)
    (c : Nat) (s : ℚ)
    (hmem : (c, s) ∈ reduce_by_key (moms_rng d min max radii).sorted_ijk
      (moms_calc_values pw (moms_rng d min max radii) radii power)) :
    s = moment_open pw d min max radii power c := by
  have hs : (moms_rng d min max radii).sorted_ijk.Sorted (· ≤ ·) := hskpng_sort_sorted d
  rw [reduce_by_key_sum _ _ (moms_calc_values_length _ _ _ _) hs c s hmem, moms_values]
  have hk : (moms_rng d min max radii).sorted_ijk
      = (hskpng_sort d).sorted_id.map (fun i => d.ijk.getD i 0) := hskpng_sort_ijk d
  rw [hk, key_sum_map, ((((hskpng_sort_perm d).filter _).map _).sum_eq)]
  unfold moment_open
  have hf : moms_term pw d min max radii power = fun i =>
      if min < radii.getD i 0 ∧ radii.getD i 0 < max then
        ((d.n.getD i 0 : ℚ) / (d.dx * d.dy * d.dz)) * pw (radii.getD i 0) power
      else 0 := funext (moms_term_eq pw d min max radii power)
  rw [hf]
  exact sum_filter_ite (List.range d.n_part) (fun i => d.ijk.getD i 0 = c)
    (fun i => min < radii.getD i 0 ∧ radii.getD i 0 < max) _

/-- What moms_rng followed by moms_calc leave in count_mom: at each of the first count_n
positions, the sum over the open range (min, max) for the cell named at the same
position of count_ijk. -/
theorem moms_open_range (pw : ℚ → ℚ → ℚ) (d : arrays) (min max : ℚ) (radii : List ℚ)
    (power : ℚ) (j : Nat)
    (hj : j < (moms_calc pw (moms_rng d min max radii) radii power).state.count_n) :
    (moms_calc pw (moms_rng d min max radii) radii power).state.count_mom.getD j 0 =
      moment_open pw d min max radii power
        ((moms_calc pw (moms_rng d min max radii) radii power).state.count_ijk.getD j 0) := by
  rw [moms_calc_state] at hj ⊢
  simp only [] at hj ⊢
  generalize hr : reduce_by_key (moms_rng d min max radii).sorted_ijk
      (moms_calc_values pw (moms_rng d min max radii) radii power) = r at hj
  have hmem : ∀ c s, (c, s) ∈ r → s = moment_open pw d min max radii power c := by
    intro c s h
    exact moms_cell_sum pw d min max radii power c s (hr ▸ h)
  rw [write_front_getD _ _ _ _ (by simpa using hj), write_front_getD _ _ _ _ (by simpa using hj)]
  rw [List.getD_eq_getElem _ _ (by simpa using hj), List.getD_eq_getElem _ _ (by simpa using hj)]
  simp only [List.getElem_map]
  exact hmem _ _ (List.getElem_mem hj)

theorem sum_filter_split (l : List Nat) (P : Nat → Prop) [DecidablePred P] (r : Nat → ℚ)
    (g : Nat → ℚ) (lo mid hi : ℚ) (h1 : lo ≤ mid) (h2 : mid ≤ hi)
    (hne : ∀ i ∈ l, r i ≠ mid) :
    ((l.filter (fun i => P i ∧ lo < r i ∧ r i < mid)).map g).sum +
      ((l.filter (fun i => P i ∧ mid < r i ∧ r i < hi)).map g).sum =
      ((l.filter (fun i => P i ∧ lo < r i ∧ r i < hi)).map g).sum := by
  induction l with
  | nil => simp
  | cons i l ih =>
    have ih' := ih (fun j hj => hne j (List.mem_cons_of_mem _ hj))
    have hi' : r i ≠ mid := hne i (List.mem_cons_self _ _)
    simp only [Bool.decide_and] at ih' ⊢
    by_cases hp : P i
    · rcases lt_or_gt_of_ne hi' with hlt | hgt
      · have hA : ¬ mid < r i := not_lt.2 hlt.le
        have hB : r i < hi := lt_of_lt_of_le hlt h2
        by_cases hlo : lo < r i
        · simp only [List.filter_cons, hp, hlt, hA, hB, hlo, decide_True, decide_False,
            Bool.and_true, Bool.and_false, Bool.true_and, if_true, Bool.false_eq_true, if_false,
            List.map_cons, List.sum_cons]
          linarith
        · simp only [List.filter_cons, hp, hlt, hA, hB, hlo, decide_True, decide_False,
            Bool.and_true, Bool.and_false, Bool.true_and, Bool.false_and, if_true,
            Bool.false_eq_true, if_false, List.map_cons, List.sum_cons]
          linarith
      · have hA : ¬ r i < mid := not_lt.2 hgt.le
        have hB : lo < r i := lt_of_le_of_lt h1 hgt
        by_cases hhi : r i < hi
        · simp only [List.filter_cons, hp, hgt, hA, hB, hhi, decide_True, decide_False,
            Bool.and_true, Bool.and_false, Bool.true_and, if_true, Bool.false_eq_true, if_false,
            List.map_cons, List.sum_cons]
          linarith
        · simp only [List.filter_cons, hp, hgt, hA, hB, hhi, decide_True, decide_False,
            Bool.and_true, Bool.and_false, Bool.true_and, Bool.false_and, if_true,
            Bool.false_eq_true, if_false, List.map_cons, List.sum_cons]
          linarith
    · simp only [List.filter_cons, hp, decide_False, Bool.false_and, Bool.false_eq_true,
        if_false]
      exact ih'

/-- Away from the split point the sums over (lo, mid) and (mid, hi) add up to the sum
over (lo, hi): the only particles lost by a split are those whose radius equals mid. -/
theorem moment_open_additive (pw : ℚ → ℚ → ℚ) (d : arrays) (radii : List ℚ) (power : ℚ)
    (c : Nat) (lo mid hi : ℚ) (h1 : lo ≤ mid) (h2 : mid ≤ hi)
    (hne : ∀ i < d.n_part, radii.getD i 0 ≠ mid) :
    moment_open pw d lo mid radii power c + moment_open pw d mid hi radii power c =
      moment_open pw d lo hi radii power c := by
  unfold moment_open
  exact sum_filter_split (List.range d.n_part) (fun i => d.ijk.getD i 0 = c)
    (fun i => radii.getD i 0) _ lo mid hi h1 h2 (fun i hi' => hne i (List.mem_range.1 hi'))

theorem hskpng_sort_sample : hskpng_sort sample_arrays = sample_sorted := by
  decide

/-- C6, the code at the failing input: three particles with multiplicities 1, 2, 4 in
cells 1, 0, 1 and radii 1, 2, 2, unit cell volume, range from 1 to 3, power 0.
The particle of cell 1 whose radius equals the lower bound is left out by
range_filter (x > min), so moms_rng + moms_calc give 4 for cell 1, whereas the sum over
the half-open range [1, 3) is 5. -/
theorem moms_lower_bound_excluded :
    (moms_calc sample_pow (moms_rng sample_arrays 1 3 sample_radii) sample_radii 0).result
      = .ok () ∧
    (moms_calc sample_pow (moms_rng sample_arrays 1 3 sample_radii) sample_radii 0).state.count_n
      = 2 ∧
    (moms_calc sample_pow (moms_rng sample_arrays 1 3 sample_radii) sample_radii 0).state.count_ijk
      = [0, 1] ∧
    (moms_calc sample_pow (moms_rng sample_arrays 1 3 sample_radii) sample_radii 0).state.count_mom
      = [2, 4] ∧
    moment_spec sample_pow sample_arrays 1 3 sample_radii 0 0 = 2 ∧
    moment_spec sample_pow sample_arrays 1 3 sample_radii 0 1 = 5 := by
  refine ⟨?_, ?_, ?_, ?_, ?_, ?_⟩
  · simp [moms_calc, moms_rng, hskpng_sort, sample_arrays, sample_radii, List.range_succ,
      range_filter, write_front, reduce_by_key, reduce_by_key_run, moment_counter]
  · simp [moms_calc, moms_rng, hskpng_sort, sample_arrays, sample_radii, List.range_succ,
      range_filter, write_front, reduce_by_key, reduce_by_key_run, moment_counter]
  · simp [moms_calc, moms_rng, hskpng_sort, sample_arrays, sample_radii, List.range_succ,
      range_filter, write_front, reduce_by_key, reduce_by_key_run, moment_counter]
  · simp [moms_calc, moms_rng, hskpng_sort, sample_arrays, sample_radii, List.range_succ,
      range_filter, write_front, reduce_by_key, reduce_by_key_run, moment_counter, sample_pow]
    norm_num
  · simp [moment_spec, sample_arrays, sample_radii, List.range_succ, sample_pow, List.filter]
    norm_num
  · simp [moment_spec, sample_arrays, sample_radii, List.range_succ, sample_pow, List.filter]
    norm_num

/-- C7, the code at the failing input: the sample particles, power 0, ranges split at
r_mid = 1, the radius of a particle of cell 1. That particle is counted in neither
sub-range, so for cell 1 the moments over (0, 1) and (1, 3) add up to 0 + 4, whereas the
moment over (0, 3) is 5. -/
theorem moms_not_additive_at_split :
    (moms_calc sample_pow (moms_rng sample_arrays 0 1 sample_radii) sample_radii 0).state.count_mom
      = [0, 0] ∧
    (moms_calc sample_pow (moms_rng sample_arrays 1 3 sample_radii) sample_radii 0).state.count_mom
      = [2, 4] ∧
    (moms_calc sample_pow (moms_rng sample_arrays 0 3 sample_radii) sample_radii 0).state.count_mom
      = [2, 5] ∧
    (moms_calc sample_pow (moms_rng sample_arrays 0 1 sample_radii) sample_radii
        0).state.count_mom.getD 1 0 +
      (moms_calc sample_pow (moms_rng sample_arrays 1 3 sample_radii) sample_radii
        0).state.count_mom.getD 1 0 ≠
      (moms_calc sample_pow (moms_rng sample_arrays 0 3 sample_radii) sample_radii
        0).state.count_mom.getD 1 0 := by
  have h1 : (moms_calc sample_pow (moms_rng sample_arrays 0 1 sample_radii) sample_radii
      0).state.count_mom = [0, 0] := by
    simp [moms_calc, moms_rng, hskpng_sort, sample_arrays, sample_radii, List.range_succ,
      range_filter, write_front, reduce_by_key, reduce_by_key_run, moment_counter, sample_pow]
  have h2 : (moms_calc sample_pow (moms_rng sample_arrays 1 3 sample_radii) sample_radii
      0).state.count_mom = [2, 4] := by
    simp [moms_calc, moms_rng, hskpng_sort, sample_arrays, sample_radii, List.range_succ,
      range_filter, write_front, reduce_by_key, reduce_by_key_run, moment_counter, sample_pow]
    norm_num
  have h3 : (moms_calc sample_pow (moms_rng sample_arrays 0 3 sample_radii) sample_radii
      0).state.count_mom = [2, 5] := by
    simp [moms_calc, moms_rng, hskpng_sort, sample_arrays, sample_radii, List.range_succ,
      range_filter, write_front, reduce_by_key, reduce_by_key_run, moment_counter, sample_pow]
    norm_num
  refine ⟨h1, h2, h3, ?_⟩
  rw [h1, h2, h3]
  norm_num

/-- C8: on a non-empty sorted_ijk in ascending order with all entries below n_cell,
moms_calc passes its assertion, count_n is the number of distinct cell indices present,
the first count_n entries of count_ijk are exactly those indices in strictly ascending
order (so without repetition), and 0 < count_n ≤ n_cell. -/
theorem moms_calc_one_pair_per_cell (pw : ℚ → ℚ → ℚ) (d : arrays) (radii : List ℚ) (power : ℚ)
    (hne : d.sorted_ijk ≠ [])
    (hs : d.sorted_ijk.Sorted (· ≤ ·))
    (hlt : ∀ c ∈ d.sorted_ijk, c < d.n_cell) :
    (moms_calc pw d radii power).result = .ok () ∧
    (moms_calc pw d radii power).state.count_n = d.sorted_ijk.toFinset.card ∧
    ((moms_calc pw d radii power).state.count_ijk.take
      (moms_calc pw d radii power).state.count_n).Sorted (· < ·) ∧
    (∀ c, c ∈ (moms_calc pw d radii power).state.count_ijk.take
      (moms_calc pw d radii power).state.count_n ↔ c ∈ d.sorted_ijk) ∧
    ((moms_calc pw d radii power).state.count_mom.take
      (moms_calc pw d radii power).state.count_n).length
        = (moms_calc pw d radii power).state.count_n ∧
    0 < (moms_calc pw d radii power).state.count_n ∧
    (moms_calc pw d radii power).state.count_n ≤ d.n_cell := by
  have hl := moms_calc_values_length pw d radii power
  have hsort := reduce_by_key_keys_sorted _ _ hl hs
  have hmem := reduce_by_key_keys_mem _ _ hl
  generalize hr : reduce_by_key d.sorted_ijk (moms_calc_values pw d radii power) = r
    at hsort hmem
  have hcard : r.length = d.sorted_ijk.toFinset.card := by
    rw [← List.length_map r Prod.fst, ← List.toFinset_card_of_nodup hsort.nodup]
    congr 1
    ext c
    simp only [List.mem_toFinset, hmem]
  have hpos : 0 < r.length := by
    rw [hcard, Finset.card_pos]
    obtain ⟨c, hc⟩ := List.exists_mem_of_ne_nil _ hne
    exact ⟨c, List.mem_toFinset.2 hc⟩
  have hle : r.length ≤ d.n_cell := by
    rw [hcard, ← Finset.card_range d.n_cell]
    apply Finset.card_le_card
    intro c hc
    exact Finset.mem_range.2 (hlt c (List.mem_toFinset.1 hc))
  have htake : (moms_calc pw d radii power).state.count_ijk.take
      (moms_calc pw d radii power).state.count_n = r.map Prod.fst := by
    rw [moms_calc_state, hr]
    have := write_front_take (r.map Prod.fst) d.count_ijk
    rw [List.length_map] at this
    exact this
  have htake2 : (moms_calc pw d radii power).state.count_mom.take
      (moms_calc pw d radii power).state.count_n = r.map Prod.snd := by
    rw [moms_calc_state, hr]
    have := write_front_take (r.map Prod.snd) d.count_mom
    rw [List.length_map] at this
    exact this
  have hn : (moms_calc pw d radii power).state.count_n = r.length := by
    rw [moms_calc_state, hr]
  refine ⟨moms_calc_result pw d radii power (hr ▸ hpos) (hr ▸ hle), ?_, ?_, ?_, ?_, ?_, ?_⟩
  · rw [hn, hcard]
  · rw [htake]; exact hsort
  · intro c; rw [htake]; exact hmem c
  · rw [htake2, hn, List.length_map]
  · rw [hn]; exact hpos
  · rw [hn]; exact hle

/-- Witness of C8: the sorted sample set, whose sorted_ijk is 0, 1, 1 with two cells. -/
theorem moms_calc_one_pair_per_cell_witness :
    sample_sorted.sorted_ijk ≠ [] ∧ sample_sorted.sorted_ijk.Sorted (· ≤ ·) ∧
    (∀ c ∈ sample_sorted.sorted_ijk, c < sample_sorted.n_cell) ∧
    (moms_calc sample_pow sample_sorted sample_radii 0).state.count_n
      = sample_sorted.sorted_ijk.toFinset.card :=
  ⟨by decide, by decide, by decide,
   (moms_calc_one_pair_per_cell sample_pow sample_sorted sample_radii 0
      (by decide) (by decide) (by decide)).2.1⟩

/-! ## Field coupler -/

/-- Counterexample to C9 as stated: on the unsorted sample set moms_calc raises no
error and overwrites count_n (and count_ijk). -/
theorem moms_calc_ignores_sorted_flag :
    sample_arrays.sorted = false ∧
    (moms_calc sample_pow sample_arrays sample_radii 0).result = .ok () ∧
    sample_arrays.count_n = 0 ∧
    (moms_calc sample_pow sample_arrays sample_radii 0).state.count_n = 1 := by
  refine ⟨rfl, ?_, rfl, ?_⟩
  · simp [moms_calc, sample_arrays, List.range_succ, reduce_by_key, reduce_by_key_run]
  · simp [moms_calc, sample_arrays, List.range_succ, reduce_by_key, reduce_by_key_run]

/-- C9 (amended): on every state whose sorted flag is unset, update_th_rv and
update_pstate throw and leave every array (and the vector passed by reference) as it
was; moms_calc does not consult the flag: its result and the arrays it writes are the
same whatever the value of the flag. -/
theorem unsorted_guards (d_th_d_rv : ℚ → ℚ → ℚ) (pw : ℚ → ℚ → ℚ) (d : arrays)
    (drv pstate pdstate radii : List ℚ) (power : ℚ) (hs : d.sorted = false) :
    update_th_rv d_th_d_rv d drv = ⟨d, .error .th_rv_unsorted⟩ ∧
    update_pstate d pstate pdstate = ⟨(d, pstate), .error .pstate_unsorted⟩ ∧
    (∀ b : Bool,
      (moms_calc pw { d with sorted := b } radii power).result
        = (moms_calc pw d radii power).result ∧
      (moms_calc pw { d with sorted := b } radii power).state
        = { (moms_calc pw d radii power).state with sorted := b }) := by
  refine ⟨?_, ?_, ?_⟩
  · unfold update_th_rv
    simp [hs]
  · unfold update_pstate
    simp [hs]
  · intro b
    constructor
    · unfold moms_calc
      simp only []
      split_ifs <;> rfl
    · rw [moms_calc_state, moms_calc_state]
      rfl

/-- Witness of C9 (amended): the unsorted sample set. -/
theorem unsorted_guards_witness :
    sample_arrays.sorted = false ∧
    update_pstate sample_arrays [100, 200, 300] [10, 1, 5]
      = ⟨(sample_arrays, [100, 200, 300]), .error .pstate_unsorted⟩ :=
  ⟨rfl, (unsorted_guards (fun _ _ => 0) sample_pow sample_arrays [0, 0] [100, 200, 300]
    [10, 1, 5] sample_radii 0 rfl).2.1⟩

/-- C10, the code at the failing input: the sorted sample set (cells 1, 0, 1),
pstate = 100, 200, 300 and particle deltas pdstate = 10, 1, 5. The reduction reads
pdstate through sorted_ijk, that is pdstate[0], pdstate[1], pdstate[1], so particle 0
(cell 1) gets 100 + 2, whereas the sum of the deltas of the particles of cell 1 is
10 + 5 and the contract gives 115. -/
theorem update_pstate_reads_by_cell_index :
    sample_sorted.sorted = true ∧
    (update_pstate sample_sorted [100, 200, 300] [10, 1, 5]).result = .ok () ∧
    (update_pstate sample_sorted [100, 200, 300] [10, 1, 5]).state.2 = [102, 210, 302] ∧
    pstate_spec sample_sorted [100, 200, 300] [10, 1, 5] 0 = 115 ∧
    pstate_spec sample_sorted [100, 200, 300] [10, 1, 5] 1 = 201 ∧
    pstate_spec sample_sorted [100, 200, 300] [10, 1, 5] 2 = 315 := by
  refine ⟨rfl, ?_, ?_, ?_, ?_, ?_⟩
  · simp [update_pstate, sample_sorted]
  · simp [update_pstate, sample_sorted, sample_arrays, List.range_succ, write_front,
      reduce_by_key, reduce_by_key_run, List.getElem_cons]
    norm_num
  · simp [pstate_spec, sample_sorted, sample_arrays, List.range_succ, List.filter]
    norm_num
  · simp [pstate_spec, sample_sorted, sample_arrays, List.range_succ, List.filter]
    norm_num
  · simp [pstate_spec, sample_sorted, sample_arrays, List.range_succ, List.filter]
    norm_num

/-! ## Equilibrium solver -/

/-- The closed-form bound is not below the dry volume (exact arithmetic). -/
theorem rw3_eq_nokelvin_ge (rd3 kappa S : ℚ) (hrd : 0 < rd3) (hk0 : 0 ≤ kappa)
    (hS0 : 0 < S) (hS1 : S < 1) : rd3 ≤ rw3_eq_nokelvin rd3 kappa S := by
  unfold rw3_eq_nokelvin
  have h1 : 0 < 1 - S := by linarith
  rw [le_div_iff₀ h1]
  have : 0 ≤ rd3 * (S * kappa) := by positivity
  nlinarith

/-- Without solute the closed-form bound is the dry volume itself (exact arithmetic). -/
theorem rw3_eq_nokelvin_insoluble (rd3 S : ℚ) (hS : S ≠ 1) : rw3_eq_nokelvin rd3 0 S = rd3 := by
  unfold rw3_eq_nokelvin
  have h1 : (1 : ℚ) - S ≠ 0 := sub_ne_zero.2 (Ne.symm hS)
  field_simp

/-! ### Rounding -/

theorem round_half_even_floor (y : ℚ) (f : ℤ) (h1 : (f : ℚ) ≤ y) (h2 : y < f + 1 / 2) :
    round_half_even y = f := by
  have hf : ⌊y⌋ = f := by
    rw [Int.floor_eq_iff]
    constructor
    · exact h1
    · linarith
  unfold round_half_even
  rw [hf, if_pos (by linarith)]

theorem round_half_even_ceil (y : ℚ) (f : ℤ) (h1 : (f : ℚ) + 1 / 2 < y) (h2 : y < f + 1) :
    round_half_even y = f + 1 := by
  have hf : ⌊y⌋ = f := by
    rw [Int.floor_eq_iff]
    constructor
    · linarith
    · exact h2
  unfold round_half_even
  rw [hf, if_neg (by linarith), if_pos (by linarith)]

theorem round_half_even_tie (y : ℚ) (f : ℤ) (h : y = f + 1 / 2) :
    round_half_even y = if f % 2 = 0 then f else f + 1 := by
  have hf : ⌊y⌋ = f := by
    rw [Int.floor_eq_iff]
    constructor <;> linarith
  unfold round_half_even
  rw [hf, if_neg (by linarith), if_neg (by linarith)]

theorem log_eq_of_bounds (q : ℚ) (e : ℤ) (h1 : (2 : ℚ) ^ e ≤ q) (h2 : q < 2 ^ (e + 1)) :
    Int.log 2 q = e := by
  have hq : 0 < q := lt_of_lt_of_le (by positivity) h1
  apply le_antisymm
  · have := (Int.lt_zpow_iff_log_lt (b := 2) (by norm_num) hq (x := e + 1)).1
      (by exact_mod_cast h2)
    omega
  · exact (Int.zpow_le_iff_le_log (b := 2) (by norm_num) hq).1 (by exact_mod_cast h1)

/-- The rounding of a positive value of the normal range, from its binade 2 ^ e ≤ q <
2 ^ (e + 1) and the nearest-even integer n of q in units of the last place. -/
theorem round_eq_of (F : float_format) (q : ℚ) (e n : ℤ) (h1 : (2 : ℚ) ^ e ≤ q)
    (h2 : q < 2 ^ (e + 1)) (he : F.emin ≤ e)
    (hn : round_half_even (q / 2 ^ (e - (F.prec - 1))) = n) :
    F.round q = n * 2 ^ (e - (F.prec - 1)) := by
  have hq : 0 < q := lt_of_lt_of_le (by positivity) h1
  have hu : F.ulp_exp q = e - (F.prec - 1) := by
    unfold float_format.ulp_exp
    rw [abs_of_pos hq, log_eq_of_bounds q e h1 h2, max_eq_left he]
  unfold float_format.round
  rw [hu, hn]

/-- Rounding to double of a value less than half a unit above n units of the last place. -/
theorem round64_floor (q : ℚ) (e n : ℤ) (h1 : (2 : ℚ) ^ e ≤ q) (h2 : q < 2 ^ (e + 1))
    (he : -1022 ≤ e) (h3 : (n : ℚ) * 2 ^ (e - 52) ≤ q)
    (h4 : q < ((n : ℚ) + 1 / 2) * 2 ^ (e - 52)) :
    binary64.round q = n * 2 ^ (e - 52) := by
  have hp : (0 : ℚ) < 2 ^ (e - 52) := by positivity
  exact round_eq_of binary64 q e n h1 h2 he
    (round_half_even_floor _ n ((le_div_iff₀ hp).2 h3) ((div_lt_iff₀ hp).2 h4))

/-- Rounding to double of a value more than half a unit above n units of the last place. -/
theorem round64_ceil (q : ℚ) (e n : ℤ) (h1 : (2 : ℚ) ^ e ≤ q) (h2 : q < 2 ^ (e + 1))
    (he : -1022 ≤ e) (h3 : ((n : ℚ) + 1 / 2) * 2 ^ (e - 52) < q)
    (h4 : q < ((n : ℚ) + 1) * 2 ^ (e - 52)) :
    binary64.round q = (n + 1) * 2 ^ (e - 52) := by
  have hp : (0 : ℚ) < 2 ^ (e - 52) := by positivity
  have := round_eq_of binary64 q e (n + 1) h1 h2 he
    (round_half_even_ceil _ n ((lt_div_iff₀ hp).2 h3) ((div_lt_iff₀ hp).2 h4))
  simpa using this

/-- Rounding to double of a value exactly half a unit above n units of the last place. -/
theorem round64_tie (q : ℚ) (e n : ℤ) (h1 : (2 : ℚ) ^ e ≤ q) (h2 : q < 2 ^ (e + 1))
    (he : -1022 ≤ e) (h3 : q = ((n : ℚ) + 1 / 2) * 2 ^ (e - 52)) :
    binary64.round q = (if n % 2 = 0 then n else n + 1 : ℤ) * 2 ^ (e - 52) := by
  have hp : (0 : ℚ) < 2 ^ (e - 52) := by positivity
  exact round_eq_of binary64 q e _ h1 h2 he
    (round_half_even_tie _ n ((div_eq_iff (ne_of_gt hp)).2 h3))

theorem round64_one : binary64.round (1 - 0) = 1 := by
  rw [round64_floor (1 - 0) 0 4503599627370496 (by norm_num) (by norm_num) (by norm_num)
    (by norm_num) (by norm_num)]
  norm_num

/-- Counterexample to C14 as stated: real_t = double, rd3 the double nearest to 1e-22
(0x1.e392010175ee6p-74), kappa = 0 and S = 0.25, all of them doubles inside the domain
of the claim. The upper end of the bracket as the code computes it, each operation
rounded to nearest even, is 0x1.e392010175ee5p-74, one unit in the last place below
rd3: the bracket handed to the root finder is not well formed. -/
theorem bracket_inverted_in_double :
    binary64.round (1 / 10 ^ 22) = sample_rd3_double ∧
    binary64.round (1 / 4) = 1 / 4 ∧
    0 < sample_rd3_double ∧
    rw3_eq_nokelvin_fp binary64 sample_rd3_double 0 (1 / 4) = 8507059173023461 / 2 ^ 126 ∧
    rw3_eq_nokelvin_fp binary64 sample_rd3_double 0 (1 / 4) < sample_rd3_double := by
  have h2 : binary64.round (1 / 4 * 1) = 1 / 4 := by
    rw [round64_floor (1 / 4 * 1) (-2) 4503599627370496 (by norm_num) (by norm_num)
      (by norm_num) (by norm_num) (by norm_num)]
    norm_num
  have h3 : binary64.round (1 - 1 / 4) = 3 / 4 := by
    rw [round64_floor (1 - 1 / 4) (-1) 6755399441055744 (by norm_num) (by norm_num)
      (by norm_num) (by norm_num) (by norm_num)]
    norm_num
  have h4 : binary64.round (sample_rd3_double * (3 / 4)) = 6380294379767596 / 2 ^ 126 := by
    unfold sample_rd3_double
    rw [round64_tie (8507059173023462 / 2 ^ 126 * (3 / 4)) (-74) 6380294379767596
      (by norm_num) (by norm_num) (by norm_num) (by norm_num)]
    norm_num
  have h5 : binary64.round (6380294379767596 / 2 ^ 126 / (3 / 4))
      = 8507059173023461 / 2 ^ 126 := by
    rw [round64_floor (6380294379767596 / 2 ^ 126 / (3 / 4)) (-74) 8507059173023461
      (by norm_num) (by norm_num) (by norm_num) (by norm_num) (by norm_num)]
    norm_num
  have hv : rw3_eq_nokelvin_fp binary64 sample_rd3_double 0 (1 / 4)
      = 8507059173023461 / 2 ^ 126 := by
    unfold rw3_eq_nokelvin_fp
    rw [round64_one, h2, h3, h4, h5]
  refine ⟨?_, ?_, ?_, hv, ?_⟩
  · unfold sample_rd3_double
    rw [round64_ceil (1 / 10 ^ 22) (-74) 8507059173023461 (by norm_num) (by norm_num)
      (by norm_num) (by norm_num) (by norm_num)]
    norm_num
  · rw [round64_floor (1 / 4) (-2) 4503599627370496 (by norm_num) (by norm_num)
      (by norm_num) (by norm_num) (by norm_num)]
    norm_num
  · unfold sample_rd3_double
    norm_num
  · rw [hv]
    unfold sample_rd3_double
    norm_num

/-- C14 (amended): in exact arithmetic, for rd3 > 0, 0 ≤ kappa ≤ 1, 0 < S < 1 and T > 0
the bracket handed to the root finder is well formed, rd3 ≤ rw3_eq_nokelvin(rd3, kappa,
S), and, given that the root finder returns a sub-interval of the bracket it was given,
the value returned by rw3_eq lies between rd3 and rw3_eq_nokelvin(rd3, kappa, S). -/
theorem rw3_eq_bounds (nm : numerics) (rd3 kappa S T : ℚ) (hrd : 0 < rd3) (hk0 : 0 ≤ kappa)
    (_hk1 : kappa ≤ 1) (hS0 : 0 < S) (hS1 : S < 1) (_hT : 0 < T)
    (hsolve :
      rd3 ≤ (nm.toms748_solve (rw3_eq_f nm S rd3 kappa T) rd3 (rw3_eq_nokelvin rd3 kappa S)
        (nm.sizeof_real_t * 8 / 2) 20).1.1 ∧
      (nm.toms748_solve (rw3_eq_f nm S rd3 kappa T) rd3 (rw3_eq_nokelvin rd3 kappa S)
        (nm.sizeof_real_t * 8 / 2) 20).1.1 ≤
        (nm.toms748_solve (rw3_eq_f nm S rd3 kappa T) rd3 (rw3_eq_nokelvin rd3 kappa S)
          (nm.sizeof_real_t * 8 / 2) 20).1.2 ∧
      (nm.toms748_solve (rw3_eq_f nm S rd3 kappa T) rd3 (rw3_eq_nokelvin rd3 kappa S)
        (nm.sizeof_real_t * 8 / 2) 20).1.2 ≤ rw3_eq_nokelvin rd3 kappa S) :
    rd3 ≤ rw3_eq_nokelvin rd3 kappa S ∧
    rd3 ≤ rw3_eq nm rd3 kappa S T ∧
    rw3_eq nm rd3 kappa S T ≤ rw3_eq_nokelvin rd3 kappa S := by
  have hb := rw3_eq_nokelvin_ge rd3 kappa S hrd hk0 hS0 hS1
  obtain ⟨h1, h2, h3⟩ := hsolve
  refine ⟨hb, ?_, ?_⟩
  · unfold rw3_eq
    simp only []
    linarith
  · unfold rw3_eq
    simp only []
    linarith

/-- Witness of C14 (amended): rd3 = 1, kappa = 1/2, S = 1/2, T = 300 with the sample
numerics, whose root finder hands back the lower half [1, 5/4] of the bracket [1, 3/2]. -/
theorem rw3_eq_bounds_witness :
    (0 : ℚ) < 1 ∧ (0 : ℚ) ≤ 1 / 2 ∧ (1 / 2 : ℚ) ≤ 1 ∧ (0 : ℚ) < 1 / 2 ∧ (1 / 2 : ℚ) < 1 ∧
    (0 : ℚ) < 300 ∧
    (1 : ℚ) ≤ rw3_eq sample_numerics 1 (1 / 2) (1 / 2) 300 ∧
    rw3_eq sample_numerics 1 (1 / 2) (1 / 2) 300 ≤ rw3_eq_nokelvin 1 (1 / 2) (1 / 2) :=
  ⟨by norm_num, by norm_num, by norm_num, by norm_num, by norm_num, by norm_num,
   (rw3_eq_bounds sample_numerics 1 (1 / 2) (1 / 2) 300 (by norm_num) (by norm_num)
      (by norm_num) (by norm_num) (by norm_num) (by norm_num)
      (by norm_num [sample_numerics, rw3_eq_nokelvin])).2⟩

/-- C15: for rd3 > 0, kappa > 0 and 0 < S < 1 (exact arithmetic) the closed-form bound
rw3_eq_nokelvin(rd3, kappa, S) = rd3 · (1 − S(1 − kappa)) / (1 − S) is the exact
equilibrium without the Kelvin term: the water activity a_w there equals S. -/
theorem a_w_rw3_eq_nokelvin (rd3 kappa S : ℚ) (hrd : 0 < rd3) (hk : 0 < kappa)
    (_hS0 : 0 < S) (hS1 : S < 1) :
    a_w (rw3_eq_nokelvin rd3 kappa S) rd3 kappa = S ∧
    rw3_eq_nokelvin rd3 kappa S = rd3 * (1 - S * (1 - kappa)) / (1 - S) := by
  refine ⟨?_, rfl⟩
  unfold a_w rw3_eq_nokelvin
  have h1 : (1 : ℚ) - S ≠ 0 := by
    have : 0 < 1 - S := by linarith
    exact ne_of_gt this
  have h2 : rd3 ≠ 0 := ne_of_gt hrd
  have h3 : kappa ≠ 0 := ne_of_gt hk
  have hnum : rd3 * (1 - S * (1 - kappa)) / (1 - S) - rd3 = rd3 * kappa * S / (1 - S) := by
    field_simp
    ring
  have hden : rd3 * (1 - S * (1 - kappa)) / (1 - S) - rd3 * (1 - kappa)
      = rd3 * kappa / (1 - S) := by
    field_simp
    ring
  rw [hnum, hden]
  field_simp

/-- Witness of C15: rd3 = 1, kappa = 1/2, S = 1/2. -/
theorem a_w_rw3_eq_nokelvin_witness :
    (0 : ℚ) < 1 ∧ (0 : ℚ) < 1 / 2 ∧ (1 / 2 : ℚ) < 1 ∧
    a_w (rw3_eq_nokelvin 1 (1 / 2) (1 / 2)) 1 (1 / 2) = 1 / 2 :=
  ⟨by norm_num, by norm_num, by norm_num,
   (a_w_rw3_eq_nokelvin 1 (1 / 2) (1 / 2) (by norm_num) (by norm_num) (by norm_num)
      (by norm_num)).1⟩

/-- C16: for every input rw3_eq hands the root finder the functor f, the bracket
[rd3, rw3_eq_nokelvin(rd3, kappa, S)], the tolerance sizeof(real_t) * 8 / 2 bits and the
iteration cap 20, and returns the midpoint of the bracket that comes back; the iteration
count the root finder reports (cap exhausted or not) has no influence on the result. -/
theorem rw3_eq_midpoint (nm : numerics) (rd3 kappa S T : ℚ) :
    rw3_eq nm rd3 kappa S T =
      ((nm.toms748_solve (rw3_eq_f nm S rd3 kappa T) rd3 (rw3_eq_nokelvin rd3 kappa S)
          (nm.sizeof_real_t * 8 / 2) 20).1.1 +
        (nm.toms748_solve (rw3_eq_f nm S rd3 kappa T) rd3 (rw3_eq_nokelvin rd3 kappa S)
          (nm.sizeof_real_t * 8 / 2) 20).1.2) / 2 ∧
    ∀ count : (ℚ → ℚ) → ℚ → ℚ → Nat → Nat → Nat,
      rw3_eq { nm with toms748_solve := fun f a b tol it =>
          ((nm.toms748_solve f a b tol it).1, count f a b tol it) } rd3 kappa S T =
        rw3_eq nm rd3 kappa S T := by
  refine ⟨rfl, ?_⟩
  intro count
  rfl

theorem resize_length {α : Type} (v : device_vector α) (n : Nat) (a : α) :
    (v.resize n a).data.length = n := by
  unfold device_vector.resize
  simp only [List.length_append, List.length_take, List.length_replicate]
  omega

theorem to_size_t_of_nonneg (x : Int) (h0 : 0 ≤ x) (h1 : x < 2 ^ 64) : (to_size_t x : Int) = x := by
  unfold to_size_t
  rw [Int.emod_eq_of_lt h0 h1]
  exact Int.toNat_of_nonneg h0

/-- The sizes init_hskpng_npart gives the four boundary buffers. -/
theorem init_hskpng_npart_buffers (s : particle_store) :
    (init_hskpng_npart s).in_n_bfr.data.length
      = to_size_t (s.opts_init.ny * s.opts_init.nz * s.opts_init.sd_conc) ∧
    (init_hskpng_npart s).out_n_bfr.data.length
      = to_size_t (s.opts_init.ny * s.opts_init.nz * s.opts_init.sd_conc) ∧
    (init_hskpng_npart s).in_real_bfr.data.length
      = to_size_t (6 * s.opts_init.ny * s.opts_init.nz * s.opts_init.sd_conc) ∧
    (init_hskpng_npart s).out_real_bfr.data.length
      = to_size_t (6 * s.opts_init.ny * s.opts_init.nz * s.opts_init.sd_conc) := by
  unfold init_hskpng_npart
  simp only [resize_length, and_self]

/-- On a grid with ny ≥ 1 and nz ≥ 1 the count buffers hold ny · nz · sd_conc entries
and the real buffers six times as many. -/
theorem init_hskpng_npart_buffers_3d (s : particle_store)
    (hy : 1 ≤ s.opts_init.ny) (hz : 1 ≤ s.opts_init.nz) (hc : 0 ≤ s.opts_init.sd_conc)
    (hmax : 6 * s.opts_init.ny * s.opts_init.nz * s.opts_init.sd_conc < 2 ^ 64) :
    ((init_hskpng_npart s).in_n_bfr.data.length : Int)
      = max 1 s.opts_init.ny * max 1 s.opts_init.nz * s.opts_init.sd_conc ∧
    (init_hskpng_npart s).out_n_bfr.data.length = (init_hskpng_npart s).in_n_bfr.data.length ∧
    (init_hskpng_npart s).in_real_bfr.data.length
      = 6 * (init_hskpng_npart s).in_n_bfr.data.length ∧
    (init_hskpng_npart s).out_real_bfr.data.length
      = 6 * (init_hskpng_npart s).in_n_bfr.data.length := by
  obtain ⟨h1, h2, h3, h4⟩ := init_hskpng_npart_buffers s
  have hp : 0 ≤ s.opts_init.ny * s.opts_init.nz * s.opts_init.sd_conc :=
    mul_nonneg (mul_nonneg (by omega) (by omega)) hc
  have hp6 : 6 * s.opts_init.ny * s.opts_init.nz * s.opts_init.sd_conc
      = 6 * (s.opts_init.ny * s.opts_init.nz * s.opts_init.sd_conc) := by ring
  have e1 := to_size_t_of_nonneg _ hp (by rw [hp6] at hmax; omega)
  have e6 := to_size_t_of_nonneg _ (by rw [hp6]; omega) hmax
  refine ⟨?_, ?_, ?_, ?_⟩
  · rw [h1, e1, max_eq_right hy, max_eq_right hz]
  · rw [h1, h2]
  · have : ((init_hskpng_npart s).in_real_bfr.data.length : Int)
        = 6 * ((init_hskpng_npart s).in_n_bfr.data.length : Int) := by
      rw [h3, h1, e1, e6, hp6]
    exact_mod_cast this
  · have : ((init_hskpng_npart s).out_real_bfr.data.length : Int)
        = 6 * ((init_hskpng_npart s).in_n_bfr.data.length : Int) := by
      rw [h4, h1, e1, e6, hp6]
    exact_mod_cast this

/-- C18, the code at the failing input: a 2-D grid with nx = 2, ny = 0, nz = 2 and
sd_conc = 8. The buffers are resized to ny * nz * sd_conc = 0 entries (and 6 * 0), whereas
a slab face of max(1, ny) · max(1, nz) = 2 cells needs room for 16 particles. -/
theorem init_hskpng_npart_2d_buffers_empty :
    sample_store.opts_init.ny = 0 ∧ sample_store.opts_init.nz = 2 ∧
    sample_store.opts_init.sd_conc = 8 ∧
    (init_hskpng_npart sample_store).in_n_bfr.data.length = 0 ∧
    (init_hskpng_npart sample_store).out_n_bfr.data.length = 0 ∧
    (init_hskpng_npart sample_store).in_real_bfr.data.length = 0 ∧
    (init_hskpng_npart sample_store).out_real_bfr.data.length = 0 ∧
    max 1 sample_store.opts_init.ny * max 1 sample_store.opts_init.nz
      * sample_store.opts_init.sd_conc = 16 := by
  obtain ⟨h1, h2, h3, h4⟩ := init_hskpng_npart_buffers sample_store
  refine ⟨rfl, rfl, rfl, ?_, ?_, ?_, ?_, by decide⟩
  · rw [h1]; decide
  · rw [h2]; decide
  · rw [h3]; decide
  · rw [h4]; decide

/-! ## Field coupler: update_state -/

theorem scatter_succ (idx : Nat → Nat) (val : Nat → ℚ) (n : Nat) (target : List ℚ) :
    scatter idx val (n + 1) target = (scatter idx val n target).set (idx n) (val n) := by
  unfold scatter
  rw [List.range_succ, List.foldl_append]
  rfl

theorem scatter_length (idx : Nat → Nat) (val : Nat → ℚ) (n : Nat) (target : List ℚ) :
    (scatter idx val n target).length = target.length := by
  induction n with
  | zero => rfl
  | succ n ih => rw [scatter_succ, List.length_set, ih]

/-- An entry no index points at keeps its value. -/
theorem scatter_untouched (idx : Nat → Nat) (val : Nat → ℚ) (n : Nat) (target : List ℚ)
    (c : Nat) (hc : ∀ p < n, idx p ≠ c) :
    (scatter idx val n target).getD c 0 = target.getD c 0 := by
  induction n with
  | zero => rfl
  | succ n ih =>
    rw [scatter_succ]
    have h1 := ih (fun p hp => hc p (Nat.lt_succ_of_lt hp))
    have h2 : idx n ≠ c := hc n (Nat.lt_succ_self n)
    simp only [List.getD_eq_getElem?_getD] at h1 ⊢
    rw [List.getElem?_set_ne h2, h1]

/-- An entry that some index points at, all indices pointing at it carrying the same
value, ends up with that value. -/
theorem scatter_uniform (idx : Nat → Nat) (val : Nat → ℚ) (n : Nat) (target : List ℚ)
    (p : Nat) (hp : p < n) (hin : idx p < target.length)
    (hu : ∀ q < n, idx q = idx p → val q = val p) :
    (scatter idx val n target).getD (idx p) 0 = val p := by
  induction n with
  | zero => omega
  | succ n ih =>
    rw [scatter_succ]
    simp only [List.getD_eq_getElem?_getD]
    by_cases hn : idx n = idx p
    · rw [hn, List.getElem?_set_self (by rw [scatter_length]; exact hin)]
      simp only [Option.getD_some]
      exact hu n (Nat.lt_succ_self n) hn
    · rw [List.getElem?_set_ne hn]
      have hpn : p < n := by
        rcases Nat.lt_succ_iff_lt_or_eq.1 hp with h | h
        · exact h
        · exact absurd (by rw [h]) hn
      have := ih hpn (fun q hq => hu q (Nat.lt_succ_of_lt hq))
      simpa only [List.getD_eq_getElem?_getD] using this

theorem update_state_eq (d : arrays) (state pstate : List ℚ) :
    update_state d state pstate =
      ⟨(d, scatter (fun p => d.ijk.getD p 0) (fun p => pstate.getD p 0) pstate.length state),
        .ok ()⟩ := rfl

/-- Counterexample to C11 as stated: the sorted sample set (cells 1, 0, 1), a particle
array 7, 8, 9 as first argument and the per-cell values 100, 200 as second argument.
The call writes into entries ijk[0] and ijk[1] of the first argument and leaves
particle 2 at 9, whereas the value of its cell is 200. -/
theorem update_state_not_broadcast :
    (update_state sample_sorted [7, 8, 9] [100, 200]).state.2 = [200, 100, 9] ∧
    (update_state sample_sorted [7, 8, 9] [100, 200]).state.2.getD 2 0 ≠
      ([100, 200] : List ℚ).getD (sample_sorted.ijk.getD 2 0) 0 := by
  have h : (update_state sample_sorted [7, 8, 9] [100, 200]).state.2 = [200, 100, 9] := by
    simp [update_state, sample_sorted, sample_arrays, List.range_succ]
  refine ⟨h, ?_⟩
  rw [h]
  simp [sample_sorted, sample_arrays]

/-- C11 (amended): update_state(state, pstate) gathers from particles to cells: it
returns normally, leaves the particle arrays (ijk among them) as they were, and for
every particle p whose cell lies within state, pstate being uniform within that cell,
the cell entry state[ijk[p]] equals pstate[p] after the call; pstate is only read. -/
theorem update_state_gathers (d : arrays) (state pstate : List ℚ) (p : Nat)
    (hp : p < pstate.length) (hin : d.ijk.getD p 0 < state.length)
    (hu : ∀ q < pstate.length, d.ijk.getD q 0 = d.ijk.getD p 0 →
      pstate.getD q 0 = pstate.getD p 0) :
    (update_state d state pstate).result = .ok () ∧
    (update_state d state pstate).state.1 = d ∧
    (update_state d state pstate).state.2.getD (d.ijk.getD p 0) 0 = pstate.getD p 0 := by
  rw [update_state_eq]
  exact ⟨rfl, rfl, scatter_uniform (fun p => d.ijk.getD p 0) (fun p => pstate.getD p 0)
    pstate.length state p hp hin hu⟩

/-- Witness of C11 (amended): cell values 7, 8 and the particle values 100, 200, 100 on
the sorted sample set; particle 0 sits in cell 1. -/
theorem update_state_gathers_witness :
    (update_state sample_sorted [7, 8] [100, 200, 100]).state.2.getD
      (sample_sorted.ijk.getD 0 0) 0 = ([100, 200, 100] : List ℚ).getD 0 0 :=
  (update_state_gathers sample_sorted [7, 8] [100, 200, 100] 0 (by decide) (by decide)
    (by
      intro q hq hc
      have hq3 : q < 3 := hq
      interval_cases q
      · rfl
      · exact absurd hc (by decide)
      · rfl)).2.2

/-! ## Field coupler: update_th_rv -/

theorem foldl_min_nonneg (xs : List ℚ) (x : ℚ) :
    0 ≤ xs.foldl (fun m y => if y < m then y else m) x ↔ 0 ≤ x ∧ ∀ y ∈ xs, 0 ≤ y := by
  induction xs generalizing x with
  | nil => simp
  | cons y ys ih =>
    rw [List.foldl_cons, ih]
    simp only [List.mem_cons, forall_eq_or_imp]
    split_ifs with h
    · constructor
      · rintro ⟨h1, h2⟩
        exact ⟨by linarith, h1, h2⟩
      · rintro ⟨_, h1, h2⟩
        exact ⟨h1, h2⟩
    · constructor
      · rintro ⟨h1, h2⟩
        exact ⟨h1, by linarith, h2⟩
      · rintro ⟨h1, _, h2⟩
        exact ⟨h1, h2⟩

/-- The dereferenced minimum of a non-empty range is non-negative exactly when every entry is. -/
theorem min_element_nonneg (l : List ℚ) (hne : l ≠ []) :
    ∃ m, min_element l = some m ∧ (0 ≤ m ↔ ∀ y ∈ l, 0 ≤ y) := by
  cases l with
  | nil => exact absurd rfl hne
  | cons x xs =>
    refine ⟨_, rfl, ?_⟩
    rw [foldl_min_nonneg]
    simp only [List.mem_cons, forall_eq_or_imp]

theorem rv_updated_length (d : arrays) (drv : List ℚ) :
    (rv_updated d drv).length = d.rv.length := by
  simp [rv_updated]

theorem rv_updated_getD (d : arrays) (drv : List ℚ) (i : Nat) (hi : i < d.rv.length) :
    (rv_updated d drv).getD i 0 = d.rv.getD i 0 + drv.getD i 0 := by
  unfold rv_updated
  rw [List.getD_eq_getElem _ _ (by simpa using hi)]
  simp only [List.getElem_map, List.getElem_range]

theorem th_updated_getD (d_th_d_rv : ℚ → ℚ → ℚ) (d : arrays) (drv : List ℚ) (i : Nat)
    (hi : i < d.th.length) :
    (th_updated d_th_d_rv d drv).getD i 0 =
      d.th.getD i 0 + drv.getD i 0 * d_th_d_rv (d.T.getD i 0) (d.th.getD i 0) := by
  unfold th_updated
  rw [List.getD_eq_getElem _ _ (by simpa using hi)]
  simp only [List.getElem_map, List.getElem_range]
  rfl

theorem all_nonneg_iff_getD (l : List ℚ) :
    (∀ y ∈ l, 0 ≤ y) ↔ ∀ i < l.length, 0 ≤ l.getD i 0 := by
  constructor
  · intro h i hi
    rw [List.getD_eq_getElem _ _ hi]
    exact h _ (List.getElem_mem hi)
  · intro h y hy
    obtain ⟨i, hi, rfl⟩ := List.getElem_of_mem hy
    have := h i hi
    rwa [List.getD_eq_getElem _ _ hi] at this

/-- The routine update_th_rv on a sorted set with a non-empty rv, by its two checks. -/
theorem update_th_rv_cases (d_th_d_rv : ℚ → ℚ → ℚ) (d : arrays) (drv : List ℚ)
    (hs : d.sorted = true) (hne : d.rv ≠ []) :
    ((∀ y ∈ d.rv, 0 ≤ y) ∧ (∀ y ∈ rv_updated d drv, 0 ≤ y) ∧
      update_th_rv d_th_d_rv d drv =
        ⟨{ d with rv := rv_updated d drv, th := th_updated d_th_d_rv d drv }, .ok ()⟩) ∨
    ((¬ ((∀ y ∈ d.rv, 0 ≤ y) ∧ (∀ y ∈ rv_updated d drv, 0 ≤ y))) ∧
      (update_th_rv d_th_d_rv d drv).result = .error .assertion_failed) := by
  obtain ⟨m, hm, hmn⟩ := min_element_nonneg d.rv hne
  have hne' : rv_updated d drv ≠ [] := by
    intro h
    have := rv_updated_length d drv
    rw [h] at this
    exact hne (List.length_eq_zero.1 this.symm)
  obtain ⟨m', hm', hmn'⟩ := min_element_nonneg (rv_updated d drv) hne'
  unfold update_th_rv
  simp only [hs, Bool.not_true, Bool.false_eq_true, if_false, hm, ge_iff_le]
  by_cases h1 : 0 ≤ m
  · simp only [h1, not_true_eq_false, if_false]
    change rv_updated d drv ≠ [] at hne'
    have hm'' : min_element ((List.range d.rv.length).map
        (fun i => d.rv.getD i 0 + drv.getD i 0)) = some m' := hm'
    simp only [hm'']
    by_cases h2 : 0 ≤ m'
    · left
      simp only [h2, not_true_eq_false, if_false]
      exact ⟨hmn.1 h1, hmn'.1 h2, rfl⟩
    · right
      simp only [h2, not_false_eq_true, if_true]
      exact ⟨fun h => h2 (hmn'.2 h.2), trivial⟩
  · right
    simp only [h1, not_false_eq_true, if_true]
    exact ⟨fun h => h1 (hmn.2 h.1), trivial⟩

theorem rv_updated_nonneg_iff (d : arrays) (drv : List ℚ) :
    (∀ y ∈ rv_updated d drv, 0 ≤ y) ↔ ∀ i < d.rv.length, 0 ≤ d.rv.getD i 0 + drv.getD i 0 := by
  rw [all_nonneg_iff_getD, rv_updated_length]
  constructor
  · intro h i hi
    rw [← rv_updated_getD d drv i hi]
    exact h i hi
  · intro h i hi
    rw [rv_updated_getD d drv i hi]
    exact h i hi

/-- C12: on a sorted set whose vapor mixing ratio passes the two defensive checks (rv
non-empty, rv ≥ 0 before and after), update_th_rv(drv) returns normally with
rv'[i] = rv[i] + drv[i] and th'[i] = th[i] + drv[i] · d_th_d_rv(T[i], th[i]), th[i] being
the value before the call, for every index i; the lengths of rv and th, the vector T
and every other array are as before (drv is only read). -/
theorem update_th_rv_computes (d_th_d_rv : ℚ → ℚ → ℚ) (d : arrays) (drv : List ℚ)
    (hs : d.sorted = true) (hne : d.rv ≠ [])
    (h1 : ∀ i < d.rv.length, 0 ≤ d.rv.getD i 0)
    (h2 : ∀ i < d.rv.length, 0 ≤ d.rv.getD i 0 + drv.getD i 0) :
    (update_th_rv d_th_d_rv d drv).result = .ok () ∧
    (∀ i < d.rv.length,
      (update_th_rv d_th_d_rv d drv).state.rv.getD i 0 = d.rv.getD i 0 + drv.getD i 0) ∧
    (∀ i < d.th.length,
      (update_th_rv d_th_d_rv d drv).state.th.getD i 0 =
        d.th.getD i 0 + drv.getD i 0 * d_th_d_rv (d.T.getD i 0) (d.th.getD i 0)) ∧
    (update_th_rv d_th_d_rv d drv).state.rv.length = d.rv.length ∧
    (update_th_rv d_th_d_rv d drv).state.th.length = d.th.length ∧
    (update_th_rv d_th_d_rv d drv).state.T = d.T ∧
    { (update_th_rv d_th_d_rv d drv).state with rv := d.rv, th := d.th } = d := by
  rcases update_th_rv_cases d_th_d_rv d drv hs hne with ⟨_, _, heq⟩ | ⟨hno, _⟩
  · rw [heq]
    refine ⟨rfl, fun i hi => rv_updated_getD d drv i hi,
      fun i hi => th_updated_getD d_th_d_rv d drv i hi, rv_updated_length d drv, ?_, rfl, rfl⟩
    simp [th_updated]
  · exact absurd ⟨(all_nonneg_iff_getD d.rv).2 h1, (rv_updated_nonneg_iff d drv).2 h2⟩ hno

/-- Witness of C12: the sorted sample set (rv = 1, 1) with drv = -1/2, 1. -/
theorem update_th_rv_computes_witness :
    sample_sorted.sorted = true ∧ sample_sorted.rv ≠ [] ∧
    (update_th_rv (fun T th => th / T) sample_sorted [-1 / 2, 1]).result = .ok () :=
  ⟨rfl, by decide,
   (update_th_rv_computes (fun T th => th / T) sample_sorted [-1 / 2, 1] rfl (by decide)
      (by
        intro i hi
        have hi2 : i < 2 := hi
        interval_cases i <;> simp [sample_sorted, sample_arrays])
      (by
        intro i hi
        have hi2 : i < 2 := hi
        interval_cases i <;> norm_num [sample_sorted, sample_arrays])).1⟩

/-- C13: on a sorted set with a non-empty rv, update_th_rv passes both defensive checks
(and so returns normally) if and only if rv[i] ≥ 0 and rv[i] + drv[i] ≥ 0 for every
index i; consequently, whenever it returns normally every entry of rv is ≥ 0. -/
theorem update_th_rv_checks (d_th_d_rv : ℚ → ℚ → ℚ) (d : arrays) (drv : List ℚ)
    (hs : d.sorted = true) (hne : d.rv ≠ []) :
    ((update_th_rv d_th_d_rv d drv).result = .ok () ↔
      ∀ i < d.rv.length, 0 ≤ d.rv.getD i 0 ∧ 0 ≤ d.rv.getD i 0 + drv.getD i 0) ∧
    ((update_th_rv d_th_d_rv d drv).result = .ok () →
      ∀ y ∈ (update_th_rv d_th_d_rv d drv).state.rv, 0 ≤ y) := by
  rcases update_th_rv_cases d_th_d_rv d drv hs hne with ⟨ha, hb, heq⟩ | ⟨hno, herr⟩
  · rw [heq]
    refine ⟨⟨fun _ i hi => ⟨(all_nonneg_iff_getD d.rv).1 ha i hi,
      (rv_updated_nonneg_iff d drv).1 hb i hi⟩, fun _ => rfl⟩, fun _ => hb⟩
  · rw [herr]
    refine ⟨⟨fun h => (by cases h), fun h => ?_⟩, fun h => (by cases h)⟩
    exact absurd ⟨(all_nonneg_iff_getD d.rv).2 (fun i hi => (h i hi).1),
      (rv_updated_nonneg_iff d drv).2 (fun i hi => (h i hi).2)⟩ hno

/-- Witness of C13: the sorted sample set (rv = 1, 1) with drv = -2, 0, which fails the
second check. -/
theorem update_th_rv_checks_witness :
    sample_sorted.sorted = true ∧ sample_sorted.rv ≠ [] ∧
    ((update_th_rv (fun T th => th / T) sample_sorted [-2, 0]).result = .ok () ↔
      ∀ i < sample_sorted.rv.length,
        0 ≤ sample_sorted.rv.getD i 0 ∧
        0 ≤ sample_sorted.rv.getD i 0 + ([-2, 0] : List ℚ).getD i 0) :=
  ⟨rfl, by decide,
   (update_th_rv_checks (fun T th => th / T) sample_sorted [-2, 0] rfl (by decide)).1⟩

/-! ## The calls issued by step_async -/

theorem foldl_log {β : Type} (f : impl → β → impl) (g : opts_init_t → β → List call)
    (hlog : ∀ q b, (f q b).log = q.log ++ g q.opts_init b)
    (hctl : ∀ q b, (f q b).ctl = q.ctl) (l : List β) (p : impl) :
    (l.foldl f p).log = p.log ++ l.flatMap (g p.opts_init) := by
  induction l generalizing p with
  | nil => simp
  | cons b l ih =>
    rw [List.foldl_cons, ih, hlog, opts_init_of_ctl (hctl p b)]
    simp [List.flatMap_cons, List.append_assoc]

theorem transport_log (p : impl) (opts : opts_t) :
    (p.transport opts).log = p.log ++ transport_calls opts := by
  unfold impl.transport transport_calls
  simp only []
  split_ifs <;> simp [impl.call]

theorem chem_all_log (p : impl) (opts : opts_t) :
    (p.chem_all opts).log = p.log ++ chem_calls p.opts_init opts := by
  unfold impl.chem_all chem_calls
  split_ifs
  · rw [foldl_log _ (fun oi (_ : Nat) => [call.chem (oi.dt / oi.sstp_chem) opts.chem_gas
      opts.chem_dsl opts.chem_dsc opts.chem_rct]) (fun _ _ => rfl) (fun q _ => ctl_call _ _)]
    congr 1
    generalize p.opts_init.sstp_chem.toNat = n
    induction n with
    | zero => rfl
    | succ n ih =>
      rw [List.range_succ, List.flatMap_append, ih, List.replicate_succ']
      simp
  · simp

theorem coal_substep_log (p : impl) (step : Nat) :
    (p.coal_substep step).log = p.log ++ coal_step_calls p.opts_init step := by
  unfold impl.coal_substep coal_step_calls
  simp only []
  split_ifs with h1 h2 h2
  · simp [impl.call]
  · exact absurd h1 h2
  · exact absurd h2 h1
  · simp [impl.call]

theorem coal_all_log (p : impl) (opts : opts_t) :
    (p.coal_all opts).log = p.log ++ coal_calls p.opts_init opts := by
  unfold impl.coal_all coal_calls
  split_ifs
  · exact foldl_log _ coal_step_calls coal_substep_log ctl_coal_substep _ _
  · simp

theorem src_count_log (p : impl) :
    p.src_count.log = p.log ++
      (if p.stp_ctr + 1 = p.opts_init.supstp_src
        then [call.src (p.opts_init.supstp_src * p.opts_init.dt)] else []) ∧
    p.src_count.stp_ctr = (if p.stp_ctr + 1 = p.opts_init.supstp_src then 0
      else p.stp_ctr + 1) ∧
    p.src_count.opts_init = p.opts_init ∧ p.src_count.init_called = p.init_called := by
  unfold impl.src_count
  simp only [beq_iff_eq]
  split_ifs <;> simp [impl.call]

theorem finish_state (h : helpers) (p : impl) :
    (p.finish h).state.log = p.log ++ finish_calls p.opts_init ∧
    (p.finish h).state.stp_ctr = p.stp_ctr ∧
    (p.finish h).state.opts_init = p.opts_init ∧
    (p.finish h).state.init_called = p.init_called ∧
    (p.finish h).result = .ok (h.bcnd p.log) := by
  have hoi : (p.call call.bcnd).opts_init = p.opts_init := rfl
  unfold impl.finish finish_calls
  simp only [hoi]
  split_ifs <;> simp [impl.call]

theorem n_x_bfr_of_ctl {p q : impl} (hc : q.ctl = p.ctl) : q.n_x_bfr = p.n_x_bfr :=
  congrArg (fun c => c.2.2.2.2.1) hc

/-- The state after the three process phases of step_async. -/
theorem processes_state (p : impl) (opts : opts_t) :
    (((p.transport opts).chem_all opts).coal_all opts).log =
      p.log ++ transport_calls opts ++ chem_calls p.opts_init opts ++
        coal_calls p.opts_init opts ∧
    (((p.transport opts).chem_all opts).coal_all opts).stp_ctr = p.stp_ctr ∧
    (((p.transport opts).chem_all opts).coal_all opts).opts_init = p.opts_init ∧
    (((p.transport opts).chem_all opts).coal_all opts).init_called = p.init_called := by
  refine ⟨?_, stp_ctr_of_ctl (ctl_processes p opts), opts_init_of_ctl (ctl_processes p opts),
    init_called_of_ctl (ctl_processes p opts)⟩
  rw [coal_all_log, chem_all_log, transport_log,
    opts_init_of_ctl (ctl_chem_all _ _), opts_init_of_ctl (ctl_transport _ _)]

/-- A step_async that returns normally: the flag was set, and the calls it issued, the
step counter, the configuration and the flags it leaves are as listed. -/
theorem step_async_ok (h : helpers) (p : impl) (opts : opts_t) (ret : ℚ)
    (hok : (step_async h p opts).result = .ok ret) :
    p.should_now_run_async = true ∧
    (step_async h p opts).state.log = p.log ++ async_calls p.opts_init p.stp_ctr opts ∧
    (step_async h p opts).state.stp_ctr = next_stp_ctr p.opts_init p.stp_ctr opts ∧
    (step_async h p opts).state.opts_init = p.opts_init ∧
    (step_async h p opts).state.init_called = p.init_called ∧
    (opts.src = true → p.opts_init.src_switch = true) := by
  by_cases hp : p.should_now_run_async = true
  · refine ⟨hp, ?_⟩
    obtain ⟨hl, hc, ho, hi⟩ := processes_state ({ p with should_now_run_async := false }) opts
    unfold step_async at hok ⊢
    simp only [hp, Bool.not_true, Bool.false_eq_true, if_false] at hok ⊢
    split_ifs at hok ⊢ with h1 h2 h3 h4 h5
    · obtain ⟨sl, sc, so, si⟩ := src_count_log
        ((({ p with should_now_run_async := false } : impl).transport opts).chem_all
          opts |>.coal_all opts)
      obtain ⟨fl, fc, fo, fi, _⟩ := finish_state h
        ((({ p with should_now_run_async := false } : impl).transport opts).chem_all
          opts |>.coal_all opts).src_count
      rw [ho] at h5
      refine ⟨?_, ?_, ?_, ?_, fun _ => by simpa using h5⟩
      · rw [fl, sl, hl, so, ho, hc]
        simp [async_calls, src_calls, h4, List.append_assoc]
      · rw [fc, sc, hc, ho]
        simp [next_stp_ctr, h4]
      · rw [fo, so, ho]
      · rw [fi, si, hi]
    · obtain ⟨fl, fc, fo, fi, _⟩ := finish_state h
        { ((({ p with should_now_run_async := false } : impl).transport opts).chem_all
          opts |>.coal_all opts) with stp_ctr := 0 }
      refine ⟨?_, ?_, ?_, ?_, fun hs => absurd hs h4⟩
      · rw [fl]
        show (((({ p with should_now_run_async := false } : impl).transport opts).chem_all
          opts |>.coal_all opts)).log ++ _ = _
        rw [hl]
        show _ ++ finish_calls (((({ p with should_now_run_async := false } : impl).transport
          opts).chem_all opts |>.coal_all opts)).opts_init = _
        rw [ho]
        simp [async_calls, src_calls, h4, List.append_assoc]
      · rw [fc]
        simp [next_stp_ctr, h4]
      · rw [fo]
        exact ho
      · rw [fi]
        exact hi
  · have hp' : p.should_now_run_async = false := by simpa using hp
    rw [step_async_error_of_flag h p opts hp'] at hok
    cases hok

/-! ## Coalescence sub-steps -/

theorem flatMap_range_const {α : Type} (g : Nat → List α) (c : List α) (m : Nat)
    (hg : ∀ step < m, g step = c) :
    (List.range m).flatMap g = (List.replicate m c).flatten := by
  induction m with
  | zero => rfl
  | succ m ih =>
    rw [List.range_succ, List.flatMap_append, ih (fun s hs => hg s (Nat.lt_succ_of_lt hs)),
      List.replicate_succ', List.flatten_append]
    simp [hg m (Nat.lt_succ_self m)]

/-- With opts.coal set and sstp_coal ≥ 1 the coalescence calls are the pattern of the contract. -/
theorem coal_calls_pattern (oi : opts_init_t) (opts : opts_t) (hc : opts.coal = true)
    (hN : 1 ≤ oi.sstp_coal) :
    coal_calls oi opts = coal_pattern oi.sstp_coal.toNat (oi.dt / oi.sstp_coal) := by
  unfold coal_calls coal_pattern
  simp only [hc, if_true]
  obtain ⟨m, hm⟩ : ∃ m : Nat, oi.sstp_coal.toNat = m + 1 :=
    ⟨oi.sstp_coal.toNat - 1, by omega⟩
  have hN' : oi.sstp_coal = (m : Int) + 1 := by omega
  rw [hm, List.range_succ, List.flatMap_append, Nat.add_sub_cancel]
  rw [flatMap_range_const (coal_step_calls oi)
    [call.coal (oi.dt / oi.sstp_coal), call.hskpng_vterm_invalid] m]
  · congr 1
    simp [coal_step_calls, hN']
  · intro step hs
    have : ((step : Int) + 1 != oi.sstp_coal) = true := by
      simp only [bne_iff_ne, ne_eq]
      omega
    simp [coal_step_calls, this]

theorem filter_coal_pattern (N : Nat) (dt : ℚ) :
    (coal_pattern N dt).filter is_coal = List.replicate (N - 1 + 1) (call.coal dt) ∧
    (coal_pattern N dt).filter is_vterm_invalid
      = List.replicate (N - 1) call.hskpng_vterm_invalid ∧
    (coal_pattern N dt).filter is_coal_phase = coal_pattern N dt := by
  unfold coal_pattern
  generalize N - 1 = m
  induction m with
  | zero => exact ⟨rfl, rfl, rfl⟩
  | succ m ih =>
    refine ⟨?_, ?_, ?_⟩
    · rw [List.replicate_succ, List.flatten_cons, List.append_assoc, List.filter_append, ih.1]
      rfl
    · rw [List.replicate_succ, List.flatten_cons, List.append_assoc, List.filter_append, ih.2.1]
      rfl
    · rw [List.replicate_succ, List.flatten_cons, List.append_assoc, List.filter_append,
        ih.2.2]
      rfl

theorem filter_other_calls (oi : opts_init_t) (stp_ctr : Int) (opts : opts_t) :
    (async_calls oi stp_ctr opts).filter is_coal = (coal_calls oi opts).filter is_coal ∧
    (async_calls oi stp_ctr opts).filter is_vterm_invalid
      = (coal_calls oi opts).filter is_vterm_invalid ∧
    (async_calls oi stp_ctr opts).filter is_coal_phase
      = (coal_calls oi opts).filter is_coal_phase := by
  have h1 : ∀ q : call → Bool, (q = is_coal ∨ q = is_vterm_invalid ∨ q = is_coal_phase) →
      (transport_calls opts).filter q = [] ∧ (chem_calls oi opts).filter q = [] ∧
      (src_calls oi stp_ctr opts).filter q = [] ∧ (finish_calls oi).filter q = [] := by
    intro q hq
    refine ⟨?_, ?_, ?_, ?_⟩
    · unfold transport_calls
      rcases hq with rfl | rfl | rfl <;> split_ifs <;> rfl
    · unfold chem_calls
      split_ifs
      · rw [List.filter_eq_nil_iff]
        intro c hc
        rw [List.eq_of_mem_replicate hc]
        rcases hq with rfl | rfl | rfl <;> simp [is_coal, is_vterm_invalid, is_coal_phase]
      · rfl
    · unfold src_calls
      rcases hq with rfl | rfl | rfl <;> split_ifs <;> rfl
    · unfold finish_calls
      rcases hq with rfl | rfl | rfl <;> split_ifs <;> rfl
  obtain ⟨a1, a2, a3, a4⟩ := h1 is_coal (Or.inl rfl)
  obtain ⟨b1, b2, b3, b4⟩ := h1 is_vterm_invalid (Or.inr (Or.inl rfl))
  obtain ⟨c1, c2, c3, c4⟩ := h1 is_coal_phase (Or.inr (Or.inr rfl))
  unfold async_calls
  simp only [List.filter_append, a1, a2, a3, a4, b1, b2, b3, b4, c1, c2, c3, c4,
    List.nil_append, List.append_nil, and_self]

/-- C20: for every step_async that returns normally: with opts.coal set and
sstp_coal = N ≥ 1 the collisions and invalidations among the calls of the step are, in
order, coal(dt / N), hskpng_vterm_invalid, ..., coal(dt / N): N collisions, each with
time step dt / N, and N − 1 invalidations of the terminal velocities, one after each
collision but the last; with opts.coal unset the step issues neither. -/
theorem coal_substeps (h : helpers) (p : impl) (opts : opts_t) (ret : ℚ)
    (hok : (step_async h p opts).result = .ok ret) :
    (opts.coal = true → 1 ≤ p.opts_init.sstp_coal →
      ((step_async h p opts).state.log.drop p.log.length).filter is_coal_phase =
        coal_pattern p.opts_init.sstp_coal.toNat (p.opts_init.dt / p.opts_init.sstp_coal) ∧
      ((step_async h p opts).state.log.drop p.log.length).filter is_coal =
        List.replicate p.opts_init.sstp_coal.toNat
          (call.coal (p.opts_init.dt / p.opts_init.sstp_coal)) ∧
      ((step_async h p opts).state.log.drop p.log.length).filter is_vterm_invalid =
        List.replicate (p.opts_init.sstp_coal.toNat - 1) call.hskpng_vterm_invalid) ∧
    (opts.coal = false →
      ((step_async h p opts).state.log.drop p.log.length).filter is_coal_phase = []) := by
  obtain ⟨_, hlog, _⟩ := step_async_ok h p opts ret hok
  have hnew : (step_async h p opts).state.log.drop p.log.length
      = async_calls p.opts_init p.stp_ctr opts := by
    rw [hlog, List.drop_left]
  obtain ⟨f1, f2, f3⟩ := filter_other_calls p.opts_init p.stp_ctr opts
  rw [hnew, f1, f2, f3]
  constructor
  · intro hc hN
    have hpat := coal_calls_pattern p.opts_init opts hc hN
    obtain ⟨g1, g2, g3⟩ := filter_coal_pattern p.opts_init.sstp_coal.toNat
      (p.opts_init.dt / p.opts_init.sstp_coal)
    have hn : p.opts_init.sstp_coal.toNat - 1 + 1 = p.opts_init.sstp_coal.toNat := by omega
    rw [hn] at g1
    rw [hpat]
    exact ⟨g3, g1, g2⟩
  · intro hc
    simp [coal_calls, hc]

/-- Witness of C20: coalescence requested on the sample engine with sstp_coal = 2. -/
theorem coal_substeps_witness :
    (step_async sample_helpers sample_coal_pending { sample_opts with coal := true }).result
      = .ok 0 ∧
    ((step_async sample_helpers sample_coal_pending
        { sample_opts with coal := true }).state.log.drop
        sample_coal_pending.log.length).filter is_coal_phase =
      coal_pattern 2 (1 / 2) :=
  ⟨rfl, ((coal_substeps sample_helpers sample_coal_pending { sample_opts with coal := true } 0
    rfl).1 rfl (by decide)).1⟩

/-! ## Source scheduling -/

theorem src_run_length_snoc (cs : List host_step) (c : host_step) :
    src_run_length (cs ++ [c]) = if c.async_opts.src then src_run_length cs + 1 else 0 := by
  unfold src_run_length
  simp only [List.map_append, List.map_cons, List.map_nil, List.reverse_append,
    List.reverse_cons, List.reverse_nil, List.nil_append, List.singleton_append]
  cases hs : c.async_opts.src <;> simp [List.takeWhile_cons]

theorem run_host_steps_snoc (h : helpers) (p : impl) (cs : List host_step) (c : host_step) :
    run_host_steps h p (cs ++ [c]) = (c.apply h (run_host_steps h p cs)).state := by
  unfold run_host_steps
  rw [List.foldl_append]
  rfl

theorem src_dts_append (l1 l2 : List call) : src_dts (l1 ++ l2) = src_dts l1 ++ src_dts l2 := by
  unfold src_dts
  rw [List.filterMap_append]

theorem src_dts_call (p : impl) (c : call) (hc : src_dts [c] = []) :
    src_dts (p.call c).log = src_dts p.log := by
  show src_dts (p.log ++ [c]) = _
  rw [src_dts_append, hc, List.append_nil]

theorem src_dts_init_e2l (h : helpers) (p : impl) (a : arrinfo_t) (k : field) (x y z o : Int) :
    src_dts (p.init_e2l h a k x y z o).log = src_dts p.log := by
  have : (p.init_e2l h a k x y z o).log = (p.call (.init_e2l a k x y z o)).log := by
    cases k <;> rfl
  rw [this]
  exact src_dts_call p _ rfl

theorem src_dts_foldl {β : Type} (f : impl → β → impl)
    (hf : ∀ q b, src_dts (f q b).log = src_dts q.log) (l : List β) (p : impl) :
    src_dts (l.foldl f p).log = src_dts p.log := by
  induction l generalizing p with
  | nil => rfl
  | cons b l ih => rw [List.foldl_cons, ih, hf]

/-- The routine step_sync issues no source call. -/
theorem src_dts_step_sync (h : helpers) (p : impl) (opts : opts_t)
    (th rv cx cy cz rhod : arrinfo_t) :
    src_dts (step_sync h p opts th rv cx cy cz rhod).state.log = src_dts p.log := by
  have hb : ∀ q : impl, src_dts (q.bind_e2l h cx cy cz).log = src_dts q.log := by
    intro q
    unfold impl.bind_e2l
    simp only []
    split_ifs <;> simp only [src_dts_init_e2l]
  have hs : ∀ q : impl, src_dts (q.sync_in_all th rv cx cy cz rhod).log = src_dts q.log := by
    intro q
    simp [impl.sync_in_all, impl.call, src_dts]
  have hc : ∀ q : impl, src_dts (q.cond_all opts th rv rhod).log = src_dts q.log := by
    intro q
    unfold impl.cond_all
    split_ifs
    · rw [src_dts_call _ (.sync_out .rv rv) rfl, src_dts_call _ (.sync_out .th th) rfl]
      apply src_dts_foldl
      intro r b
      simp [impl.cond_substep, impl.call, src_dts]
    · rfl
  by_cases hi : p.init_called = true
  · by_cases hp : p.should_now_run_async = true
    · obtain ⟨e, he⟩ := step_sync_error_of_flag h p opts th rv cx cy cz rhod hp
      rw [he]
    · rw [step_sync_of_ready h p opts th rv cx cy cz rhod hi (by simpa using hp)]
      show src_dts (((if p.l2e_courant_x.length == 0 then p.bind_e2l h cx cy cz
            else p).sync_in_all th rv cx cy cz rhod).cond_all opts th rv rhod).log = _
      rw [hc, hs]
      split_ifs
      · exact hb p
      · rfl
  · unfold step_sync
    simp [hi]

/-- The source calls among the calls of one successful step_async. -/
theorem src_dts_async_calls (oi : opts_init_t) (stp_ctr : Int) (opts : opts_t) :
    src_dts (async_calls oi stp_ctr opts) =
      if opts.src = true ∧ stp_ctr + 1 = oi.supstp_src then [oi.supstp_src * oi.dt] else [] := by
  have h1 : src_dts (transport_calls opts) = [] := by
    unfold transport_calls
    split_ifs <;> rfl
  have h2 : src_dts (chem_calls oi opts) = [] := by
    unfold chem_calls src_dts
    split_ifs
    · rw [List.filterMap_eq_nil_iff]
      intro c hc
      rw [List.eq_of_mem_replicate hc]
    · rfl
  have h3 : src_dts (coal_calls oi opts) = [] := by
    unfold coal_calls src_dts
    split_ifs
    · rw [List.filterMap_eq_nil_iff]
      intro c hc
      obtain ⟨step, _, hs⟩ := List.mem_flatMap.1 hc
      unfold coal_step_calls at hs
      split_ifs at hs
      · rcases List.mem_cons.1 hs with rfl | hs'
        · rfl
        · rw [List.mem_singleton.1 hs']
      · rw [List.mem_singleton.1 hs]
    · rfl
  have h4 : src_dts (finish_calls oi) = [] := by
    unfold finish_calls
    split_ifs <;> rfl
  unfold async_calls
  rw [src_dts_append, src_dts_append, src_dts_append, src_dts_append, h1, h2, h3, h4]
  unfold src_calls
  split_ifs <;> rfl

/-- With the flag set and legal options step_async returns normally. -/
theorem step_async_ok_of_legal (h : helpers) (p : impl) (opts : opts_t)
    (hp : p.should_now_run_async = true) (hl : opts.legal p.opts_init) :
    ∃ ret, (step_async h p opts).result = .ok ret := by
  obtain ⟨l1, l2, l3, l4⟩ := hl
  have hs : (((({ p with should_now_run_async := false } : impl).transport opts).chem_all
      opts).coal_all opts).opts_init = p.opts_init := by
    rw [opts_init_of_ctl (ctl_processes _ _)]
  unfold step_async
  simp only [hp, Bool.not_true, Bool.false_eq_true, if_false]
  split_ifs with h1 h2 h3 h4 h5
  · exfalso
    simp only [Bool.and_eq_true, Bool.not_eq_true'] at h1
    rw [l1 h1.1] at h1
    exact absurd h1.2 (by decide)
  · exfalso
    simp only [Bool.and_eq_true, Bool.not_eq_true'] at h2
    rw [l2 h2.1] at h2
    exact absurd h2.2 (by decide)
  · exfalso
    simp only [Bool.and_eq_true, Bool.not_eq_true'] at h3
    rw [l3 h3.1] at h3
    exact absurd h3.2 (by decide)
  · exfalso
    rw [hs, l4 h4] at h5
    exact absurd h5 (by decide)
  · exact ⟨_, (finish_state h _).2.2.2.2⟩
  · exact ⟨_, (finish_state h _).2.2.2.2⟩

theorem step_sync_keeps (h : helpers) (p : impl) (opts : opts_t)
    (th rv cx cy cz rhod : arrinfo_t) :
    (step_sync h p opts th rv cx cy cz rhod).state.opts_init = p.opts_init ∧
    (step_sync h p opts th rv cx cy cz rhod).state.stp_ctr = p.stp_ctr := by
  by_cases hi : p.init_called = true
  · by_cases hp : p.should_now_run_async = true
    · obtain ⟨e, he⟩ := step_sync_error_of_flag h p opts th rv cx cy cz rhod hp
      rw [he]
      exact ⟨rfl, rfl⟩
    · rw [step_sync_of_ready h p opts th rv cx cy cz rhod hi (by simpa using hp)]
      have hc : (((if p.l2e_courant_x.length == 0 then p.bind_e2l h cx cy cz
            else p).sync_in_all th rv cx cy cz rhod).cond_all opts th rv rhod).ctl = p.ctl := by
        rw [ctl_cond_all, ctl_sync_in_all]
        split_ifs
        · exact ctl_bind_e2l _ _ _ _ _
        · rfl
      show (((if p.l2e_courant_x.length == 0 then p.bind_e2l h cx cy cz
            else p).sync_in_all th rv cx cy cz rhod).cond_all opts th rv rhod).opts_init = _ ∧
        (((if p.l2e_courant_x.length == 0 then p.bind_e2l h cx cy cz
            else p).sync_in_all th rv cx cy cz rhod).cond_all opts th rv rhod).stp_ctr = _
      exact ⟨opts_init_of_ctl hc, stp_ctr_of_ctl hc⟩
  · unfold step_sync
    simp [hi]

theorem next_ctr_mod (k L : Int) (hk : 1 ≤ k) :
    (L % k + 1 = k ↔ (L + 1) % k = 0) ∧
    (if L % k + 1 = k then 0 else L % k + 1) = (L + 1) % k := by
  have ha0 : 0 ≤ L % k := Int.emod_nonneg _ (by omega)
  have ha1 : L % k < k := Int.emod_lt_of_pos _ (by omega)
  have hL : (L + 1) % k = (L % k + 1) % k := by rw [Int.emod_add_emod]
  by_cases ha : L % k + 1 = k
  · have hz : (L + 1) % k = 0 := by rw [hL, ha, Int.emod_self]
    simp [ha, hz]
  · have hs : (L + 1) % k = L % k + 1 := by
      rw [hL]
      exact Int.emod_eq_of_lt (by omega) (by omega)
    refine ⟨⟨fun h => absurd h ha, fun hz => ?_⟩, ?_⟩
    · rw [hs] at hz
      omega
    · simp only [ha, if_false]
      exact hs.symm

/-- One host time step on an initialised engine with legal options: both calls return
normally and the step counter, the flags and the source calls evolve as listed. -/
theorem host_step_effect (h : helpers) (q : impl) (c : host_step)
    (hi : q.init_called = true) (hf : q.should_now_run_async = false)
    (hl : c.async_opts.legal q.opts_init) :
    (∃ ret, (c.apply h q).result = .ok ret) ∧
    (c.apply h q).state.init_called = true ∧
    (c.apply h q).state.should_now_run_async = false ∧
    (c.apply h q).state.opts_init = q.opts_init ∧
    (c.apply h q).state.stp_ctr = next_stp_ctr q.opts_init q.stp_ctr c.async_opts ∧
    src_dts (c.apply h q).state.log = src_dts q.log ++
      (if c.async_opts.src = true ∧ q.stp_ctr + 1 = q.opts_init.supstp_src
        then [q.opts_init.supstp_src * q.opts_init.dt] else []) := by
  have hsok := (step_sync_ok_iff h q c.sync_opts c.th c.rv c.courant_x c.courant_y
    c.courant_z c.rhod).2 ⟨hi, hf⟩
  obtain ⟨si, sf⟩ := step_sync_ok_flags h q c.sync_opts c.th c.rv c.courant_x c.courant_y
    c.courant_z c.rhod hsok
  obtain ⟨so, sc⟩ := step_sync_keeps h q c.sync_opts c.th c.rv c.courant_x c.courant_y
    c.courant_z c.rhod
  have sd := src_dts_step_sync h q c.sync_opts c.th c.rv c.courant_x c.courant_y
    c.courant_z c.rhod
  unfold host_step.apply
  generalize (step_sync h q c.sync_opts c.th c.rv c.courant_x c.courant_y c.courant_z
    c.rhod).state = s at si sf so sc sd
  obtain ⟨ret, hret⟩ := step_async_ok_of_legal h s c.async_opts sf (so ▸ hl)
  obtain ⟨_, al, ac, ao, ai, _⟩ := step_async_ok h s c.async_opts ret hret
  refine ⟨⟨ret, hret⟩, ?_, step_async_clears_flag h s c.async_opts, ?_, ?_, ?_⟩
  · rw [ai, si]
  · rw [ao, so]
  · rw [ac, so, sc]
  · rw [al, src_dts_append, src_dts_async_calls, sd, so, sc]

/-- The invariant of a sequence of host time steps with legal options. -/
theorem run_host_steps_inv (h : helpers) (p : impl) (cs : List host_step)
    (hi : p.init_called = true) (hf : p.should_now_run_async = false)
    (h0 : p.stp_ctr = 0) (hk : 1 ≤ p.opts_init.supstp_src)
    (hl : ∀ c ∈ cs, c.async_opts.legal p.opts_init) :
    (run_host_steps h p cs).init_called = true ∧
    (run_host_steps h p cs).should_now_run_async = false ∧
    (run_host_steps h p cs).opts_init = p.opts_init ∧
    (run_host_steps h p cs).stp_ctr = (src_run_length cs : Int) % p.opts_init.supstp_src := by
  induction cs using List.reverseRecOn with
  | nil =>
    refine ⟨hi, hf, rfl, ?_⟩
    show p.stp_ctr = _
    rw [h0]
    simp [src_run_length]
  | append_singleton cs c ih =>
    obtain ⟨qi, qf, qo, qc⟩ := ih (fun c' hc' => hl c' (List.mem_append_left _ hc'))
    have hlc : c.async_opts.legal (run_host_steps h p cs).opts_init := by
      rw [qo]
      exact hl c (List.mem_append_right _ (List.mem_singleton_self c))
    obtain ⟨_, ei, ef, eo, ec, _⟩ := host_step_effect h (run_host_steps h p cs) c qi qf hlc
    rw [run_host_steps_snoc]
    refine ⟨ei, ef, eo.trans qo, ?_⟩
    rw [ec, qo, qc, src_run_length_snoc]
    unfold next_stp_ctr
    cases hs : c.async_opts.src
    · simp
    · simp only [if_true, Nat.cast_add, Nat.cast_one]
      exact (next_ctr_mod _ _ hk).2

/-- C19: with src_switch on, interval k = supstp_src ≥ 1 and the step counter at 0,
along every sequence of host time steps whose step_async options are legal every
step_async returns normally and, for the last call of the sequence: the step counter
afterwards is the position of the call within its maximal run of consecutive calls
with opts.src set, modulo k (0 when opts.src is unset), so 0 ≤ stp_ctr < k; and the
call runs the source, once and with time span k · dt, exactly when opts.src is set and
that position is a multiple of k (the k-th, 2k-th, ... call of the run). -/
theorem src_schedule (h : helpers) (p : impl) (cs : List host_step) (c : host_step)
    (hi : p.init_called = true) (hf : p.should_now_run_async = false)
    (h0 : p.stp_ctr = 0) (_hsw : p.opts_init.src_switch = true)
    (hk : 1 ≤ p.opts_init.supstp_src)
    (hl : ∀ c' ∈ cs ++ [c], c'.async_opts.legal p.opts_init) :
    (∃ ret, (c.apply h (run_host_steps h p cs)).result = .ok ret) ∧
    (run_host_steps h p (cs ++ [c])).stp_ctr
      = (src_run_length (cs ++ [c]) : Int) % p.opts_init.supstp_src ∧
    0 ≤ (run_host_steps h p (cs ++ [c])).stp_ctr ∧
    (run_host_steps h p (cs ++ [c])).stp_ctr < p.opts_init.supstp_src ∧
    (c.async_opts.src = false → (run_host_steps h p (cs ++ [c])).stp_ctr = 0) ∧
    src_dts (run_host_steps h p (cs ++ [c])).log =
      src_dts (run_host_steps h p cs).log ++
        (if c.async_opts.src = true ∧
            (src_run_length (cs ++ [c]) : Int) % p.opts_init.supstp_src = 0
          then [p.opts_init.supstp_src * p.opts_init.dt] else []) := by
  obtain ⟨qi, qf, qo, qc⟩ := run_host_steps_inv h p cs hi hf h0 hk
    (fun c' hc' => hl c' (List.mem_append_left _ hc'))
  obtain ⟨_, _, _, rc⟩ := run_host_steps_inv h p (cs ++ [c]) hi hf h0 hk hl
  have hlc : c.async_opts.legal (run_host_steps h p cs).opts_init := by
    rw [qo]
    exact hl c (List.mem_append_right _ (List.mem_singleton_self c))
  obtain ⟨eok, _, _, _, _, ed⟩ := host_step_effect h (run_host_steps h p cs) c qi qf hlc
  refine ⟨eok, rc, ?_, ?_, ?_, ?_⟩
  · rw [rc]
    exact Int.emod_nonneg _ (by omega)
  · rw [rc]
    exact Int.emod_lt_of_pos _ (by omega)
  · intro hs
    rw [rc, src_run_length_snoc, hs]
    simp
  · rw [run_host_steps_snoc, ed, qo, qc, src_run_length_snoc]
    cases hs : c.async_opts.src
    · simp
    · have hm := (next_ctr_mod p.opts_init.supstp_src (src_run_length cs) hk).1
      simp only [true_and, if_true, Nat.cast_add, Nat.cast_one, hm]

/-- Witness of C19: three host time steps with opts.src set and interval 3; the third
call runs the source with time span 3 · dt and leaves the counter at 0. -/
theorem src_schedule_witness :
    sample_src_ready.init_called = true ∧ sample_src_ready.should_now_run_async = false ∧
    sample_src_ready.stp_ctr = 0 ∧ sample_src_ready.opts_init.src_switch = true ∧
    1 ≤ sample_src_ready.opts_init.supstp_src ∧
    (run_host_steps sample_helpers sample_src_ready
      ([sample_src_step, sample_src_step] ++ [sample_src_step])).stp_ctr
      = (src_run_length ([sample_src_step, sample_src_step] ++ [sample_src_step]) : Int)
          % sample_src_ready.opts_init.supstp_src ∧
    src_dts (run_host_steps sample_helpers sample_src_ready
      ([sample_src_step, sample_src_step] ++ [sample_src_step])).log =
      src_dts (run_host_steps sample_helpers sample_src_ready
        [sample_src_step, sample_src_step]).log ++
        (if sample_src_step.async_opts.src = true ∧
            (src_run_length ([sample_src_step, sample_src_step] ++ [sample_src_step]) : Int)
              % sample_src_ready.opts_init.supstp_src = 0
          then [sample_src_ready.opts_init.supstp_src * sample_src_ready.opts_init.dt]
          else []) :=
  ⟨rfl, rfl, rfl, rfl, by decide,
   (src_schedule sample_helpers sample_src_ready [sample_src_step, sample_src_step]
      sample_src_step rfl rfl rfl rfl (by decide)
      (by
        intro c' hc'
        simp only [List.cons_append, List.nil_append, List.mem_cons, List.mem_singleton,
          List.not_mem_nil, or_false, or_self] at hc'
        subst hc'
        unfold opts_t.legal
        decide)).2.1,
   (src_schedule sample_helpers sample_src_ready [sample_src_step, sample_src_step]
      sample_src_step rfl rfl rfl rfl (by decide)
      (by
        intro c' hc'
        simp only [List.cons_append, List.nil_append, List.mem_cons, List.mem_singleton,
          List.not_mem_nil, or_false, or_self] at hc'
        subst hc'
        unfold opts_t.legal
        decide)).2.2.2.2.2⟩

/-! ## Field coupler: the frame of update_state -/

/-- C24: for every particle set whose cell indices lie within state and whose pstate
is uniform within each cell, update_state(state, pstate) returns normally and touches
nothing but the cell array: the particle arrays (ijk among them) are as they were,
state keeps its length, state[ijk[p]] = pstate[p] for every particle p, and every
entry of state that belongs to a cell without particles keeps its previous value;
pstate is only read. -/
theorem update_state_frame (d : arrays) (state pstate : List ℚ)
    (hin : ∀ p < pstate.length, d.ijk.getD p 0 < state.length)
    (hu : ∀ p < pstate.length, ∀ q < pstate.length, d.ijk.getD q 0 = d.ijk.getD p 0 →
      pstate.getD q 0 = pstate.getD p 0) :
    (update_state d state pstate).result = .ok () ∧
    (update_state d state pstate).state.1 = d ∧
    (update_state d state pstate).state.2.length = state.length ∧
    (∀ p < pstate.length,
      (update_state d state pstate).state.2.getD (d.ijk.getD p 0) 0 = pstate.getD p 0) ∧
    (∀ c, (∀ p < pstate.length, d.ijk.getD p 0 ≠ c) →
      (update_state d state pstate).state.2.getD c 0 = state.getD c 0) := by
  rw [update_state_eq]
  refine ⟨rfl, rfl, scatter_length _ _ _ _, fun p hp => ?_, fun c hc => ?_⟩
  · exact scatter_uniform (fun p => d.ijk.getD p 0) (fun p => pstate.getD p 0)
      pstate.length state p hp (hin p hp) (hu p hp)
  · exact scatter_untouched (fun p => d.ijk.getD p 0) (fun p => pstate.getD p 0)
      pstate.length state c hc

/-- Witness of C24: three cells 7, 8, 9 and the particle values 100, 200, 100 on the
sorted sample set (cells 1, 0, 1): cell 2 holds no particle and keeps the value 9. -/
theorem update_state_frame_witness :
    (update_state sample_sorted [7, 8, 9] [100, 200, 100]).state.1 = sample_sorted ∧
    (update_state sample_sorted [7, 8, 9] [100, 200, 100]).state.2.getD
      (sample_sorted.ijk.getD 2 0) 0 = ([100, 200, 100] : List ℚ).getD 2 0 ∧
    (update_state sample_sorted [7, 8, 9] [100, 200, 100]).state.2.getD 2 0
      = ([7, 8, 9] : List ℚ).getD 2 0 :=
  have hw := update_state_frame sample_sorted [7, 8, 9] [100, 200, 100]
    (by
      intro p hp
      have hp3 : p < 3 := hp
      interval_cases p <;> decide)
    (by
      intro p hp q hq hc
      have hp3 : p < 3 := hp
      have hq3 : q < 3 := hq
      interval_cases p <;> interval_cases q <;> first | rfl | exact absurd hc (by decide))
  ⟨hw.2.1, hw.2.2.2.1 2 (by decide), hw.2.2.2.2 2 (by
      intro p hp
      have hp3 : p < 3 := hp
      interval_cases p <;> decide)⟩

/-! ## The processes of one step_async -/

/-- The value a step_async that returns normally hands back: that of bcnd, called
after the processes of the step. -/
theorem step_async_ret (h : helpers) (p : impl) (opts : opts_t) (ret : ℚ)
    (hok : (step_async h p opts).result = .ok ret) :
    ret = h.bcnd (p.log ++ process_calls p.opts_init p.stp_ctr opts) := by
  by_cases hp : p.should_now_run_async = true
  · obtain ⟨hl, hc, ho, hi⟩ := processes_state ({ p with should_now_run_async := false }) opts
    unfold step_async at hok
    simp only [hp, Bool.not_true, Bool.false_eq_true, if_false] at hok
    split_ifs at hok with h1 h2 h3 h4 h5
    · obtain ⟨sl, sc, so, si⟩ := src_count_log
        ((({ p with should_now_run_async := false } : impl).transport opts).chem_all
          opts |>.coal_all opts)
      obtain ⟨_, _, _, _, fr⟩ := finish_state h
        ((({ p with should_now_run_async := false } : impl).transport opts).chem_all
          opts |>.coal_all opts).src_count
      rw [fr, sl, hl, ho, hc] at hok
      have := Except.ok.inj hok
      rw [← this]
      simp [process_calls, src_calls, h4, List.append_assoc]
    · obtain ⟨_, _, _, _, fr⟩ := finish_state h
        { ((({ p with should_now_run_async := false } : impl).transport opts).chem_all
          opts |>.coal_all opts) with stp_ctr := 0 }
      rw [fr] at hok
      have := Except.ok.inj hok
      rw [← this]
      show h.bcnd (((({ p with should_now_run_async := false } : impl).transport opts).chem_all
          opts |>.coal_all opts)).log = _
      rw [hl]
      simp [process_calls, src_calls, h4, List.append_assoc]
  · have hp' : p.should_now_run_async = false := by simpa using hp
    rw [step_async_error_of_flag h p opts hp'] at hok
    cases hok

theorem filter_gate_calls (oi : opts_init_t) (stp_ctr : Int) (opts : opts_t) :
    (async_calls oi stp_ctr opts).filter is_hskpng_Tpr = [call.hskpng_Tpr] ∧
    (async_calls oi stp_ctr opts).filter is_bcnd = [call.bcnd] := by
  have hchem : ∀ q : call → Bool, (q = is_hskpng_Tpr ∨ q = is_bcnd) →
      (chem_calls oi opts).filter q = [] ∧ (coal_calls oi opts).filter q = [] ∧
      (src_calls oi stp_ctr opts).filter q = [] := by
    intro q hq
    refine ⟨?_, ?_, ?_⟩
    · unfold chem_calls
      split_ifs
      · rw [List.filter_eq_nil_iff]
        intro c hc
        rw [List.eq_of_mem_replicate hc]
        rcases hq with rfl | rfl <;> simp [is_hskpng_Tpr, is_bcnd]
      · rfl
    · unfold coal_calls
      split_ifs
      · rw [List.filter_eq_nil_iff]
        intro c hc
        rw [List.mem_flatMap] at hc
        obtain ⟨step, _, hs⟩ := hc
        unfold coal_step_calls at hs
        have hcc : c = call.coal (oi.dt / oi.sstp_coal) ∨ c = call.hskpng_vterm_invalid := by
          split_ifs at hs <;> simp at hs <;> tauto
        rcases hcc with rfl | rfl <;> rcases hq with rfl | rfl <;>
          simp [is_hskpng_Tpr, is_bcnd]
      · rfl
    · unfold src_calls
      rcases hq with rfl | rfl <;> split_ifs <;> rfl
  obtain ⟨a1, a2, a3⟩ := hchem is_hskpng_Tpr (Or.inl rfl)
  obtain ⟨b1, b2, b3⟩ := hchem is_bcnd (Or.inr rfl)
  have t1 : (transport_calls opts).filter is_hskpng_Tpr = [call.hskpng_Tpr] := by
    unfold transport_calls
    split_ifs <;> rfl
  have t2 : (transport_calls opts).filter is_bcnd = [] := by
    unfold transport_calls
    split_ifs <;> rfl
  have f1 : (finish_calls oi).filter is_hskpng_Tpr = [] := by
    unfold finish_calls
    split_ifs <;> rfl
  have f2 : (finish_calls oi).filter is_bcnd = [call.bcnd] := by
    unfold finish_calls
    split_ifs <;> rfl
  unfold async_calls
  simp only [List.filter_append, a1, a2, a3, b1, b2, b3, t1, t2, f1, f2, List.nil_append,
    List.append_nil, and_self]

/-- C21: for every step_async that returns normally, the calls it issues are, in this
order: sstp_save iff opts.cond; hskpng_Tpr; adve iff opts.adve; hskpng_vterm_all iff
opts.sedi or opts.coal; sedi iff opts.sedi; sstp_chem calls of chem iff any of
chem_dsl, chem_dsc, chem_rct; the coalescence sub-steps; the source call; bcnd;
step_finalize iff dev_count < 2. The ambient refresh hskpng_Tpr and the boundary
handling bcnd are each called exactly once, and the value returned is the one bcnd
returned, called after all the processes before it. -/
theorem step_async_processes (h : helpers) (p : impl) (opts : opts_t) (ret : ℚ)
    (hok : (step_async h p opts).result = .ok ret) :
    (step_async h p opts).state.log = p.log ++
      ((if opts.cond then [call.sstp_save] else []) ++
        [call.hskpng_Tpr] ++
        (if opts.adve then [call.adve] else []) ++
        (if opts.sedi || opts.coal then [call.hskpng_vterm_all] else []) ++
        (if opts.sedi then [call.sedi] else []) ++
        (if opts.chem_dsl || opts.chem_dsc || opts.chem_rct then
          List.replicate p.opts_init.sstp_chem.toNat
            (call.chem (p.opts_init.dt / p.opts_init.sstp_chem) opts.chem_gas
              opts.chem_dsl opts.chem_dsc opts.chem_rct)
         else []) ++
        coal_calls p.opts_init opts ++
        src_calls p.opts_init p.stp_ctr opts ++
        [call.bcnd] ++
        (if p.opts_init.dev_count < 2 then [call.step_finalize] else [])) ∧
    ((step_async h p opts).state.log.drop p.log.length).filter is_hskpng_Tpr
      = [call.hskpng_Tpr] ∧
    ((step_async h p opts).state.log.drop p.log.length).filter is_bcnd = [call.bcnd] ∧
    ret = h.bcnd (p.log ++ process_calls p.opts_init p.stp_ctr opts) ∧
    (step_async h p opts).state.log =
      p.log ++ process_calls p.opts_init p.stp_ctr opts ++ finish_calls p.opts_init := by
  obtain ⟨_, hlog, _⟩ := step_async_ok h p opts ret hok
  have hnew : (step_async h p opts).state.log.drop p.log.length
      = async_calls p.opts_init p.stp_ctr opts := by
    rw [hlog, List.drop_left]
  obtain ⟨g1, g2⟩ := filter_gate_calls p.opts_init p.stp_ctr opts
  refine ⟨?_, ?_, ?_, step_async_ret h p opts ret hok, ?_⟩
  · rw [hlog]
    simp [async_calls, transport_calls, chem_calls, finish_calls, List.append_assoc]
  · rw [hnew, g1]
  · rw [hnew, g2]
  · rw [hlog]
    simp [async_calls, process_calls, List.append_assoc]

/-- Witness of C21: condensation and advection requested on the sample engine that
waits for step_async: the calls are sstp_save, hskpng_Tpr, adve, bcnd, step_finalize. -/
theorem step_async_processes_witness :
    (step_async sample_helpers sample_pending
      { sample_opts with cond := true, adve := true }).result = .ok 0 ∧
    (step_async sample_helpers sample_pending
      { sample_opts with cond := true, adve := true }).state.log =
      [call.sstp_save, call.hskpng_Tpr, call.adve, call.bcnd, call.step_finalize] :=
  ⟨rfl, (step_async_processes sample_helpers sample_pending
    { sample_opts with cond := true, adve := true } 0 rfl).1⟩

/-! ## The calls issued by step_sync -/

theorem init_e2l_log (h : helpers) (p : impl) (a : arrinfo_t) (k : field) (x y z o : Int) :
    (p.init_e2l h a k x y z o).log = p.log ++ [call.init_e2l a k x y z o] := by
  cases k <;> rfl

theorem bind_e2l_log (h : helpers) (p : impl) (cx cy cz : arrinfo_t) :
    (p.bind_e2l h cx cy cz).log = p.log ++
      ((if !cx.is_null then [call.init_e2l cx .courant_x 1 0 0 0] else []) ++
      (if !cy.is_null then
        [call.init_e2l cy .courant_y 0 1 0 (p.n_x_bfr * p.opts_init.nz)] else []) ++
      (if !cz.is_null then
        [call.init_e2l cz .courant_z 0 0 1 (p.n_x_bfr * max 1 p.opts_init.ny)] else [])) := by
  unfold impl.bind_e2l
  cases cx.is_null <;> cases cy.is_null <;> cases cz.is_null <;>
    simp [impl.init_e2l, impl.call]

theorem sync_in_all_log (p : impl) (th rv cx cy cz rhod : arrinfo_t) :
    (p.sync_in_all th rv cx cy cz rhod).log = p.log ++ sync_in_calls th rv cx cy cz rhod := by
  simp [impl.sync_in_all, sync_in_calls, impl.call]

theorem cond_all_log (p : impl) (opts : opts_t) (th rv rhod : arrinfo_t) :
    (p.cond_all opts th rv rhod).log = p.log ++ cond_calls p.opts_init opts th rv rhod := by
  unfold impl.cond_all cond_calls
  split_ifs
  · show ((List.range p.opts_init.sstp_cond.toNat).foldl (impl.cond_substep opts rhod) p).log
      ++ [call.sync_out .th th] ++ [call.sync_out .rv rv] = _
    rw [foldl_log _ (fun oi step => cond_step_calls oi opts rhod step)
      (fun q b => by simp [impl.cond_substep, cond_step_calls, impl.call])
      (fun q b => by unfold impl.cond_substep; simp only [ctl_call])]
    simp [List.append_assoc]
  · simp

/-- The calls of a step_sync that passes its two guards. -/
theorem step_sync_log (h : helpers) (p : impl) (opts : opts_t)
    (th rv cx cy cz rhod : arrinfo_t)
    (hi : p.init_called = true) (hp : p.should_now_run_async = false) :
    (step_sync h p opts th rv cx cy cz rhod).state.log = p.log ++ e2l_calls p cx cy cz ++
      sync_in_calls th rv cx cy cz rhod ++ cond_calls p.opts_init opts th rv rhod := by
  rw [step_sync_of_ready h p opts th rv cx cy cz rhod hi hp]
  show (((if p.l2e_courant_x.length == 0 then p.bind_e2l h cx cy cz
            else p).sync_in_all th rv cx cy cz rhod).cond_all opts th rv rhod).log = _
  have hc : (if p.l2e_courant_x.length == 0 then p.bind_e2l h cx cy cz else p).ctl = p.ctl := by
    split_ifs
    · exact ctl_bind_e2l _ _ _ _ _
    · rfl
  rw [cond_all_log, sync_in_all_log, opts_init_of_ctl (ctl_sync_in_all _ _ _ _ _ _ _),
    opts_init_of_ctl hc]
  congr 2
  unfold e2l_calls
  by_cases hx : (p.l2e_courant_x.length == 0) = true
  · simp only [hx, if_true]
    exact bind_e2l_log _ _ _ _ _
  · simp only [hx, if_false, Bool.false_eq_true, List.append_nil]

theorem e2l_calls_all (p : impl) (cx cy cz : arrinfo_t) :
    ∀ c ∈ e2l_calls p cx cy cz, is_init_e2l c = true := by
  intro c hc
  unfold e2l_calls at hc
  split_ifs at hc <;> simp at hc <;> rcases hc with rfl | rfl | rfl <;> rfl

/-- C23: for every step_sync that returns normally the calls issued are, in this order:
the mapping calls of the guard on l2e[&courant_x] (calls of init_e2l only); the six
copies of the host views th, rv, courant_x, courant_y, courant_z, rhod into the
internal mirrors; then, iff opts.cond is set, sstp_cond sub-steps, each of them
sstp_step, hskpng_Tpr, cond(dt / sstp_cond, RH_max), followed by the copies of th and
rv back to the host views; with opts.cond unset nothing follows the six copies.
Afterwards should_now_run_async is set. -/
theorem step_sync_calls (h : helpers) (p : impl) (opts : opts_t)
    (th rv courant_x courant_y courant_z rhod : arrinfo_t)
    (hok : (step_sync h p opts th rv courant_x courant_y courant_z rhod).result = .ok ()) :
    (step_sync h p opts th rv courant_x courant_y courant_z rhod).state.log =
      p.log ++ e2l_calls p courant_x courant_y courant_z ++
        [call.sync_in th .th, call.sync_in rv .rv, call.sync_in courant_x .courant_x,
          call.sync_in courant_y .courant_y, call.sync_in courant_z .courant_z,
          call.sync_in rhod .rhod] ++
        (if opts.cond then
          (List.range p.opts_init.sstp_cond.toNat).flatMap (fun (step : Nat) =>
            [call.sstp_step step (!rhod.is_null), call.hskpng_Tpr,
              call.cond (p.opts_init.dt / p.opts_init.sstp_cond) opts.RH_max]) ++
            [call.sync_out .th th, call.sync_out .rv rv]
         else []) ∧
    (∀ c ∈ e2l_calls p courant_x courant_y courant_z, is_init_e2l c = true) ∧
    ((List.range p.opts_init.sstp_cond.toNat).flatMap (fun (step : Nat) =>
        [call.sstp_step step (!rhod.is_null), call.hskpng_Tpr,
          call.cond (p.opts_init.dt / p.opts_init.sstp_cond) opts.RH_max])).filter
      (fun c => match c with
        | .cond _ _ => true
        | _ => false)
      = List.replicate p.opts_init.sstp_cond.toNat
          (call.cond (p.opts_init.dt / p.opts_init.sstp_cond) opts.RH_max) ∧
    (step_sync h p opts th rv courant_x courant_y courant_z rhod).state.should_now_run_async
      = true := by
  obtain ⟨hi, hp⟩ :=
    (step_sync_ok_iff h p opts th rv courant_x courant_y courant_z rhod).1 hok
  refine ⟨?_, e2l_calls_all p courant_x courant_y courant_z, ?_,
    (step_sync_ok_flags h p opts th rv courant_x courant_y courant_z rhod hok).2⟩
  · rw [step_sync_log h p opts th rv courant_x courant_y courant_z rhod hi hp]
    rfl
  · generalize p.opts_init.sstp_cond.toNat = n
    induction n with
    | zero => rfl
    | succ n ih =>
      rw [List.range_succ, List.flatMap_append, List.filter_append, ih, List.replicate_succ']
      rfl

/-- Witness of C23: condensation requested on the sample engine (sstp_cond = 2, dt = 1),
no Courant view supplied: six copies, two sub-steps with time step 1/2, two copies back. -/
theorem step_sync_calls_witness :
    (step_sync sample_helpers sample_ready { sample_opts with cond := true }
      sample_view sample_view null_view null_view null_view null_view).result = .ok () ∧
    (step_sync sample_helpers sample_ready { sample_opts with cond := true }
      sample_view sample_view null_view null_view null_view null_view).state.log =
      [call.sync_in sample_view .th, call.sync_in sample_view .rv,
        call.sync_in null_view .courant_x, call.sync_in null_view .courant_y,
        call.sync_in null_view .courant_z, call.sync_in null_view .rhod,
        call.sstp_step 0 false, call.hskpng_Tpr, call.cond (1 / 2) 1,
        call.sstp_step 1 false, call.hskpng_Tpr, call.cond (1 / 2) 1,
        call.sync_out .th sample_view, call.sync_out .rv sample_view] :=
  ⟨rfl, (step_sync_calls sample_helpers sample_ready { sample_opts with cond := true }
    sample_view sample_view null_view null_view null_view null_view rfl).1⟩

/-! ## The guard on the index mapping -/

theorem foldl_inv {β γ : Type} (proj : impl → γ) (f : impl → β → impl)
    (hf : ∀ q b, proj (f q b) = proj q) (l : List β) (p : impl) :
    proj (l.foldl f p) = proj p := by
  induction l generalizing p with
  | nil => rfl
  | cons b l ih => rw [List.foldl_cons, ih, hf]

theorem l2e_x_cond_all (p : impl) (opts : opts_t) (th rv rhod : arrinfo_t) :
    (p.cond_all opts th rv rhod).l2e_courant_x = p.l2e_courant_x := by
  unfold impl.cond_all
  split_ifs
  · show ((List.range p.opts_init.sstp_cond.toNat).foldl (impl.cond_substep opts rhod)
      p).l2e_courant_x = _
    exact foldl_inv (fun q => q.l2e_courant_x) (impl.cond_substep opts rhod)
      (fun q b => rfl) _ _
  · rfl

theorem l2e_x_sync_in_all (p : impl) (th rv cx cy cz rhod : arrinfo_t) :
    (p.sync_in_all th rv cx cy cz rhod).l2e_courant_x = p.l2e_courant_x := by
  simp [impl.sync_in_all, impl.call]

theorem l2e_x_bind_e2l (h : helpers) (p : impl) (cx cy cz : arrinfo_t)
    (hcx : cx.is_null = true) :
    (p.bind_e2l h cx cy cz).l2e_courant_x = p.l2e_courant_x := by
  unfold impl.bind_e2l
  cases cy.is_null <;> cases cz.is_null <;> simp [hcx, impl.init_e2l, impl.call]

/-- A step_sync without courant_x on an engine whose mapping for courant_x is empty:
the guard lets the mapping calls for courant_y and courant_z through and the mapping
for courant_x is empty afterwards as well, so the next step_sync finds the same guard. -/
theorem step_sync_without_courant_x (h : helpers) (p : impl) (opts : opts_t)
    (th rv cx cy cz rhod : arrinfo_t)
    (hi : p.init_called = true) (hp : p.should_now_run_async = false)
    (hx : p.l2e_courant_x = []) (hcx : cx.is_null = true) :
    (step_sync h p opts th rv cx cy cz rhod).state.l2e_courant_x = [] ∧
    e2l_calls p cx cy cz =
      (if !cy.is_null then
        [call.init_e2l cy .courant_y 0 1 0 (p.n_x_bfr * p.opts_init.nz)] else []) ++
      (if !cz.is_null then
        [call.init_e2l cz .courant_z 0 0 1 (p.n_x_bfr * max 1 p.opts_init.ny)] else []) := by
  constructor
  · rw [step_sync_of_ready h p opts th rv cx cy cz rhod hi hp]
    show (((if p.l2e_courant_x.length == 0 then p.bind_e2l h cx cy cz
            else p).sync_in_all th rv cx cy cz rhod).cond_all opts th rv rhod).l2e_courant_x = _
    rw [l2e_x_cond_all, l2e_x_sync_in_all]
    split_ifs
    · rw [l2e_x_bind_e2l h p cx cy cz hcx, hx]
    · exact hx
  · unfold e2l_calls
    simp [hx, hcx]

/-- Failing input of C22: a host model without velocity along x calls step_sync,
step_async, step_sync on the initialised sample engine, with courant_x null and
courant_y supplied. All three calls return normally; the first step_sync builds the
mapping for courant_y, and the second step_sync builds it again: the guard looks at
the mapping for courant_x only, which stays empty. -/
theorem e2l_rebuilt_without_courant_x :
    (run sample_helpers sample_ready
      [sample_sync_courant_y, .async sample_opts, sample_sync_courant_y]).2
      = [.ok none, .ok (some 0), .ok none] ∧
    (step sample_helpers sample_ready sample_sync_courant_y).state.l2e_courant_y
      = [0, 1, 2, 3] ∧
    (step sample_helpers sample_ready sample_sync_courant_y).state.log.filter
      (is_init_e2l_of .courant_y) = [call.init_e2l sample_view .courant_y 0 1 0 0] ∧
    (run sample_helpers sample_ready
      [sample_sync_courant_y, .async sample_opts, sample_sync_courant_y]).1.log.filter
      (is_init_e2l_of .courant_y)
      = [call.init_e2l sample_view .courant_y 0 1 0 0,
          call.init_e2l sample_view .courant_y 0 1 0 0] :=
  ⟨rfl, rfl, rfl, rfl⟩

/-! ## Call histories -/

/-- A step_sync that throws leaves the state as it was, and its error is a sequencing
error, not a configuration error. -/
theorem step_sync_error (h : helpers) (p : impl) (opts : opts_t)
    (th rv cx cy cz rhod : arrinfo_t) (e : error)
    (he : (step_sync h p opts th rv cx cy cz rhod).result = .error e) :
    (step_sync h p opts th rv cx cy cz rhod).state = p ∧ e.is_config = false := by
  by_cases hi : p.init_called = true
  · by_cases hp : p.should_now_run_async = true
    · have hs : step_sync h p opts th rv cx cy cz rhod = ⟨p, .error .async_expected⟩ := by
        unfold step_sync
        simp [hi, hp]
      rw [hs] at he ⊢
      cases he
      exact ⟨rfl, rfl⟩
    · rw [(step_sync_ok_iff h p opts th rv cx cy cz rhod).2 ⟨hi, by simpa using hp⟩] at he
      cases he
  · have hs : step_sync h p opts th rv cx cy cz rhod = ⟨p, .error .init_not_called⟩ := by
      unfold step_sync
      simp [hi]
    rw [hs] at he ⊢
    cases he
    exact ⟨rfl, rfl⟩

/-- The outcomes of a step_async issued with the flag set: it returns normally or it
throws a configuration error; an early mismatch (chemistry, coalescence, sedimentation)
leaves the log of calls as it was, the source mismatch is thrown after the calls of the
processes before the source. -/
theorem step_async_outcomes (h : helpers) (p : impl) (opts : opts_t)
    (hp : p.should_now_run_async = true) :
    (∃ ret, (step_async h p opts).result = .ok ret) ∨
    (∃ e, (e = .chem_off ∨ e = .coal_off ∨ e = .sedi_off) ∧
      (step_async h p opts).result = .error e ∧ (step_async h p opts).state.log = p.log) ∨
    ((step_async h p opts).result = .error .src_off ∧
      (step_async h p opts).state.log = p.log ++ transport_calls opts ++
        chem_calls p.opts_init opts ++ coal_calls p.opts_init opts) := by
  obtain ⟨hl, _, _, _⟩ := processes_state ({ p with should_now_run_async := false }) opts
  unfold step_async
  simp only [hp, Bool.not_true, Bool.false_eq_true, if_false]
  split_ifs with h1 h2 h3 h4 h5
  · exact Or.inr (Or.inl ⟨.chem_off, Or.inl rfl, rfl, rfl⟩)
  · exact Or.inr (Or.inl ⟨.coal_off, Or.inr (Or.inl rfl), rfl, rfl⟩)
  · exact Or.inr (Or.inl ⟨.sedi_off, Or.inr (Or.inr rfl), rfl, rfl⟩)
  · exact Or.inr (Or.inr ⟨rfl, hl⟩)
  · exact Or.inl ⟨_, (finish_state h _).2.2.2.2⟩
  · exact Or.inl ⟨_, (finish_state h _).2.2.2.2⟩

/-- The effect of one call of a history on the flag should_now_run_async. -/
theorem step_flag (h : helpers) (p : impl) (c : step_call) :
    (admitted (step h p c).result = true →
      c.is_sync = (!p.should_now_run_async) ∧
      (step h p c).state.should_now_run_async = c.is_sync) ∧
    (admitted (step h p c).result = false →
      (step h p c).state.should_now_run_async = p.should_now_run_async) ∧
    (succeeded (step h p c).result = true → admitted (step h p c).result = true) ∧
    (admitted (step h p c).result = true → succeeded (step h p c).result = false →
      c.is_sync = false) := by
  cases c with
  | sync opts th rv cx cy cz rhod =>
    show (admitted ((step_sync h p opts th rv cx cy cz rhod).result.map (fun _ => none))
        = true → true = (!p.should_now_run_async) ∧
        (step_sync h p opts th rv cx cy cz rhod).state.should_now_run_async = true) ∧
      (admitted ((step_sync h p opts th rv cx cy cz rhod).result.map (fun _ => none))
        = false → (step_sync h p opts th rv cx cy cz rhod).state.should_now_run_async
          = p.should_now_run_async) ∧
      (succeeded ((step_sync h p opts th rv cx cy cz rhod).result.map (fun _ => none))
        = true → admitted ((step_sync h p opts th rv cx cy cz rhod).result.map
          (fun _ => none)) = true) ∧
      (admitted ((step_sync h p opts th rv cx cy cz rhod).result.map (fun _ => none))
        = true → succeeded ((step_sync h p opts th rv cx cy cz rhod).result.map
          (fun _ => none)) = false → true = false)
    cases hr : (step_sync h p opts th rv cx cy cz rhod).result with
    | ok u =>
      have hok : (step_sync h p opts th rv cx cy cz rhod).result = .ok () := hr
      obtain ⟨_, hf⟩ := (step_sync_ok_iff h p opts th rv cx cy cz rhod).1 hok
      obtain ⟨_, hs⟩ := step_sync_ok_flags h p opts th rv cx cy cz rhod hok
      refine ⟨fun _ => ⟨by rw [hf]; rfl, hs⟩, fun ha => ?_, fun _ => rfl, fun _ hn => ?_⟩
      · exact absurd ha (by simp [Except.map, admitted])
      · exact absurd hn (by simp [Except.map, succeeded])
    | error e =>
      obtain ⟨hst, hcfg⟩ := step_sync_error h p opts th rv cx cy cz rhod e hr
      have hadm : admitted ((Except.error e : Except error Unit).map (fun _ => none))
          = false := by
        simp [Except.map, admitted, hcfg]
      refine ⟨fun ha => ?_, fun _ => by rw [hst], fun hn => ?_, fun ha => ?_⟩
      · rw [hadm] at ha
        cases ha
      · exact absurd hn (by simp [Except.map, succeeded])
      · rw [hadm] at ha
        cases ha
  | async opts =>
    show (admitted ((step_async h p opts).result.map some) = true →
        false = (!p.should_now_run_async) ∧
        (step_async h p opts).state.should_now_run_async = false) ∧
      (admitted ((step_async h p opts).result.map some) = false →
        (step_async h p opts).state.should_now_run_async = p.should_now_run_async) ∧
      (succeeded ((step_async h p opts).result.map some) = true →
        admitted ((step_async h p opts).result.map some) = true) ∧
      (admitted ((step_async h p opts).result.map some) = true →
        succeeded ((step_async h p opts).result.map some) = false → false = false)
    by_cases hp : p.should_now_run_async = true
    · have hadm : admitted ((step_async h p opts).result.map some) = true := by
        rcases step_async_outcomes h p opts hp with ⟨ret, hr⟩ | ⟨e, he, hr, _⟩ | ⟨hr, _⟩
        · rw [hr]; rfl
        · rw [hr]
          rcases he with rfl | rfl | rfl <;> rfl
        · rw [hr]; rfl
      refine ⟨fun _ => ⟨by rw [hp]; rfl, step_async_clears_flag h p opts⟩, fun ha => ?_,
        fun _ => hadm, fun _ _ => rfl⟩
      rw [hadm] at ha
      cases ha
    · have hp' : p.should_now_run_async = false := by simpa using hp
      rw [step_async_error_of_flag h p opts hp']
      refine ⟨fun ha => ?_, fun _ => rfl, fun hn => ?_, fun _ _ => rfl⟩
      · exact absurd ha (by simp [Except.map, admitted, error.is_config])
      · exact absurd hn (by simp [Except.map, succeeded])

theorem run_cons (h : helpers) (p : impl) (c : step_call) (cs : List step_call) :
    (run h p (c :: cs)).2 = (step h p c).result :: (run h (step h p c).state cs).2 := rfl

/-- Along every history the calls that get past the sequencing checks alternate, the
first of them being a step_sync exactly when the flag is unset at the start. -/
theorem admitted_alternate (h : helpers) (cs : List step_call) (p : impl) :
    alternating (!p.should_now_run_async) (kept_kinds admitted cs (run h p cs).2) = true := by
  induction cs generalizing p with
  | nil => rfl
  | cons c cs ih =>
    obtain ⟨h1, h2, _, _⟩ := step_flag h p c
    rw [run_cons]
    unfold kept_kinds
    cases ha : admitted (step h p c).result
    · simp only [Bool.false_eq_true, if_false]
      rw [← h2 ha]
      exact ih _
    · obtain ⟨e1, e2⟩ := h1 ha
      simp only [if_true]
      unfold alternating
      rw [Bool.and_eq_true]
      refine ⟨by rw [e1]; simp, ?_⟩
      rw [← e1, ← e2]
      exact ih _

/-- Along every history each step_async that returns normally comes right after a
step_sync that returned normally, with no other call that returned normally between. -/
theorem succeeded_async_after_sync (h : helpers) (cs : List step_call) (p : impl)
    (prev : Bool) (hinv : p.should_now_run_async = true → prev = true) :
    async_after_sync prev (kept_kinds succeeded cs (run h p cs).2) = true := by
  induction cs generalizing p prev with
  | nil => rfl
  | cons c cs ih =>
    obtain ⟨h1, h2, h3, h4⟩ := step_flag h p c
    rw [run_cons]
    unfold kept_kinds
    cases hs : succeeded (step h p c).result
    · simp only [Bool.false_eq_true, if_false]
      apply ih
      intro hf
      cases ha : admitted (step h p c).result
      · rw [h2 ha] at hf
        exact hinv hf
      · rw [(h1 ha).2, h4 ha hs] at hf
        cases hf
    · obtain ⟨e1, e2⟩ := h1 (h3 hs)
      simp only [if_true]
      unfold async_after_sync
      rw [Bool.and_eq_true]
      constructor
      · cases hc : c.is_sync
        · rw [hc] at e1
          have hf : p.should_now_run_async = true := by
            cases hq : p.should_now_run_async
            · rw [hq] at e1; cases e1
            · rfl
          rw [hinv hf]
          rfl
        · rfl
      · apply ih
        intro hf
        rw [e2] at hf
        exact hf

/-- Counterexample to C25 as stated: on the initialised sample engine the history
step_sync, step_async with chemistry requested (switched off in opts_init), step_sync.
The step_async throws the configuration error after it has cleared
should_now_run_async, so the second step_sync returns normally: two step_sync calls
succeed with no successful step_async between them. -/
theorem alternation_broken_by_config_error :
    (run sample_helpers sample_ready
      [sample_sync, .async { sample_opts with chem_dsl := true }, sample_sync]).2
      = [.ok none, .error .chem_off, .ok none] ∧
    kept_kinds succeeded
      [sample_sync, .async { sample_opts with chem_dsl := true }, sample_sync]
      (run sample_helpers sample_ready
        [sample_sync, .async { sample_opts with chem_dsl := true }, sample_sync]).2
      = [true, true] ∧
    alternating true (kept_kinds succeeded
      [sample_sync, .async { sample_opts with chem_dsl := true }, sample_sync]
      (run sample_helpers sample_ready
        [sample_sync, .async { sample_opts with chem_dsl := true }, sample_sync]).2)
      = false :=
  ⟨rfl, rfl, rfl⟩

/-- C25 (amended): for every history of step_sync and step_async calls on an engine
that waits for step_sync, in which any call may succeed or fail: the calls that get
past the sequencing checks (those that return normally and the step_async calls that
throw a configuration error) strictly alternate step_sync, step_async, step_sync, ...
starting with step_sync; and every step_async that returns normally comes right after
a step_sync that returned normally, so no two step_async calls succeed without a
successful step_sync between them and the first successful call is a step_sync. -/
theorem admitted_calls_alternate (h : helpers) (p : impl) (cs : List step_call)
    (hf : p.should_now_run_async = false) :
    alternating true (kept_kinds admitted cs (run h p cs).2) = true ∧
    async_after_sync false (kept_kinds succeeded cs (run h p cs).2) = true := by
  refine ⟨?_, succeeded_async_after_sync h cs p false (fun hp => ?_)⟩
  · have := admitted_alternate h cs p
    rw [hf] at this
    exact this
  · rw [hf] at hp
    cases hp

/-- Witness of C25 (amended): the history of the counterexample; the admitted calls are
step_sync, step_async, step_sync. -/
theorem admitted_calls_alternate_witness :
    sample_ready.should_now_run_async = false ∧
    kept_kinds admitted
      [sample_sync, .async { sample_opts with chem_dsl := true }, sample_sync]
      (run sample_helpers sample_ready
        [sample_sync, .async { sample_opts with chem_dsl := true }, sample_sync]).2
      = [true, false, true] ∧
    alternating true (kept_kinds admitted
      [sample_sync, .async { sample_opts with chem_dsl := true }, sample_sync]
      (run sample_helpers sample_ready
        [sample_sync, .async { sample_opts with chem_dsl := true }, sample_sync]).2)
      = true :=
  ⟨rfl, rfl, (admitted_calls_alternate sample_helpers sample_ready
    [sample_sync, .async { sample_opts with chem_dsl := true }, sample_sync] rfl).1⟩

/-! ## Configuration errors and the work done before them -/

/-- Failing input of C26: the source, condensation and advection requested on the sample
engine that waits for step_async, the source being switched off in opts_init. The call
throws the configuration error of the source after it has called sstp_save, hskpng_Tpr
and adve; requesting chemistry instead, the error is thrown before any call. -/
theorem src_mismatch_after_processes :
    (step_async sample_helpers sample_pending
      { sample_opts with src := true, cond := true, adve := true }).result
      = .error .src_off ∧
    (step_async sample_helpers sample_pending
      { sample_opts with src := true, cond := true, adve := true }).state.log.filter is_physics
      = [call.sstp_save, call.hskpng_Tpr, call.adve] ∧
    (step_async sample_helpers sample_pending
      { sample_opts with chem_dsl := true, cond := true, adve := true }).result
      = .error .chem_off ∧
    (step_async sample_helpers sample_pending
      { sample_opts with chem_dsl := true, cond := true, adve := true }).state.log.filter
      is_physics = [] :=
  ⟨rfl, rfl, rfl, rfl⟩

end lgrngn
